import Mathlib

/-!
# The gotgbot method generator (`scripts/generate/methods.go`)

The generator turns a description of the Telegram bot API into Go source text.
This development embeds

* the generator functions themselves, as functions producing the very text the Go code
  produces (`generateValue`, `argsToValues`, `getArgs`, `returnValues`, `generateMethodDef`);
* a small abstract syntax of the Go statements that occur in the emitted text, together
  with a printer (`render`) and an interpreter (`exec`), so that a statement about what the
  emitted code does at run time is a statement about a syntax tree whose printed form is
  exactly the emitted text; the media encodings have their own statements (`MediaStmt`),
  and the body of a method, as far as the options aggregate is concerned, is a list of
  `BodyStmt`;
* the older generator (`scripts/methods.go`, `scripts/types.go`), in the namespace `Legacy`.

Functions of the package that the generator calls but that are declared in other files
(`goTypeStringer`, `getPreferredType`, `getDefaultTypeVal`, the name conversions, ...) and the
library function `fmt.Sprintf` applied to a stringer are parameters, collected in `Deps`.
-/

namespace Gotgbot

/-! ## Data model -/

/-- Failure of a Go function: an `error` value handed back to the caller, or a run-time
panic (`crash`) that unwinds through the caller. -/
inductive GoErr
  | error (msg : String)
  | crash (msg : String)
deriving DecidableEq, Repr

/-- Go `fmt.Errorf(ctx + ": %w", err)`: an error value is wrapped with its context; a
panic never reaches the wrapping code. -/
def wrapErr (ctx : String) : GoErr → GoErr
  | .error msg => .error (ctx ++ ": " ++ msg)
  | .crash msg => .crash msg

/-- A field of a method: wire name, candidate types, required flag, description. -/
structure Field where
  Name : String
  Types : List String
  Required : Bool
  Description : String
deriving DecidableEq, Repr

/-- A type of the API description; the method generator only reads `Subtypes`. -/
structure TypeDescription where
  Name : String
  Subtypes : List String
deriving DecidableEq, Repr

/-- A method of the API description. -/
structure MethodDescription where
  Name : String
  Fields : List Field
  Returns : List String
  Description : List String
  Href : String
deriving DecidableEq, Repr

/-- The API description: Go maps from names to types and to methods, as association lists. -/
structure APIDescription where
  Types : List (String × TypeDescription)
  Methods : List (String × MethodDescription)
deriving Repr

/-- Go `len(d.Types[name].Subtypes)`: a missing key yields the zero value, whose
`Subtypes` is empty. -/
def APIDescription.subtypesLen (d : APIDescription) (name : String) : Nat :=
  match d.Types.lookup name with
  | some t => t.Subtypes.length
  | none => 0

/-- The collaborators of `scripts/generate/methods.go` that are declared elsewhere: helper
functions of the same package, and the two library functions whose result depends on
run-time format strings or Unicode tables. -/
structure Deps where
  /-- The helper `goTypeStringer`: a format string with one `%s`, or `""` when the type has no scalar
  string conversion. -/
  goTypeStringer : String → String
  /-- The method `Field.getPreferredType`. -/
  getPreferredType : Field → Except GoErr String
  /-- The helper `getDefaultTypeVal`. -/
  getDefaultTypeVal : APIDescription → String → String
  /-- The helper `getDefaultReturnVals`. -/
  getDefaultReturnVals : APIDescription → List String → List String
  /-- The method `MethodDescription.GetReturnTypes`. -/
  GetReturnTypes : MethodDescription → APIDescription → Except GoErr (List String)
  /-- The helper `snakeToCamel`. -/
  snakeToCamel : String → String
  /-- The helper `snakeToTitle`. -/
  snakeToTitle : String → String
  /-- The method `MethodDescription.optsName`. -/
  optsName : MethodDescription → String
  /-- Go `strings.Title`. -/
  Title : String → String
  /-- Go `fmt.Sprintf(format, arg)` with one string operand. -/
  Sprintf : String → String → String

/-- Modelled from the spec: the constant `tgTypeInputFile` is declared in another file of the package; the
file-reference type is named `InputFile` (compare `fieldType == "InputFile"` in
`scripts/methods.go`). -/
def tgTypeInputFile : String := "InputFile"

/-- Modelled from the spec: the constant `tgTypeInputMedia` is declared in another file of the package; the
media polymorphic family is named `InputMedia`. -/
def tgTypeInputMedia : String := "InputMedia"

/-- Modelled from the spec: the constant `tgTypeReplyMarkup` is declared in another file of the package; the
reply-markup family is named `ReplyMarkup`. -/
def tgTypeReplyMarkup : String := "ReplyMarkup"

/-- Go `strings.HasPrefix`. -/
def hasPrefix (s p : String) : Bool := p.data.isPrefixOf s.data

/-- Modelled from the spec: `isArray` is declared in another file of the package; a sequence type is
written `[]T` (the older `getRetVarName` in `scripts/methods.go` spells the same loop
with `strings.HasPrefix(retType, "[]")`). -/
def isArray (t : String) : Bool := hasPrefix t "[]"

/-- Modelled from the spec: `isPointer` is declared in another file of the package; a nullable reference is
written `*T` (the older `getRetVarName` in `scripts/methods.go` spells the same loop with
`strings.HasPrefix(retType, "*")`). -/
def isPointer (t : String) : Bool := hasPrefix t "*"

/-! ## Request encoding: `generateValue` -/

/-- The data handed to the three templates. -/
structure readerBranchesData where
  GoParam : String
  DefaultReturn : String
  Name : String
  AllowString : Bool

/-- How `text/template` prints a Go `bool`. -/
def boolText (b : Bool) : String := if b then "true" else "false"

/-- The template `inputFileBranch`, executed. -/
def inputFileBranch (x : readerBranchesData) : String :=
  "\nif " ++ x.GoParam ++ " != nil \x7b"
    ++ "\n\terr := attachFile(\"" ++ x.Name ++ "\", " ++ x.GoParam ++ ", v, data, "
    ++ boolText x.AllowString ++ ")"
    ++ "\n\tif err != nil \x7b"
    ++ "\n\t\treturn " ++ x.DefaultReturn ++ ", fmt.Errorf(\"failed to attach file: %w\", err)"
    ++ "\n\t\x7d"
    ++ "\n\x7d"

/-- The template `inputMediaParamsBranch`, executed. -/
def inputMediaParamsBranch (x : readerBranchesData) : String :=
  "\ninputMediaBs, err := " ++ x.GoParam ++ ".InputMediaParams(\"" ++ x.Name ++ "\" , data)"
    ++ "\nif err != nil \x7b"
    ++ "\n\treturn " ++ x.DefaultReturn ++ ", fmt.Errorf(\"failed to marshal field "
    ++ x.Name ++ ": %w\", err)"
    ++ "\n\x7d"
    ++ "\nv[\"" ++ x.Name ++ "\"] = string(inputMediaBs)"

/-- The template `inputMediaArrayParamsBranch`, executed. -/
def inputMediaArrayParamsBranch (x : readerBranchesData) : String :=
  "\nif " ++ x.GoParam ++ " != nil \x7b"
    ++ "\n\tvar rawList []json.RawMessage"
    ++ "\n\tfor idx, im := range " ++ x.GoParam ++ " \x7b"
    ++ "\n\t\tinputMediaBs, err := im.InputMediaParams(\"" ++ x.Name
    ++ "\" + strconv.Itoa(idx), data)"
    ++ "\n\t\tif err != nil \x7b"
    ++ "\n\t\t\treturn " ++ x.DefaultReturn
    ++ ", fmt.Errorf(\"failed to marshal InputMedia list item %d for field " ++ x.Name
    ++ ": %w\", idx, err)"
    ++ "\n\t\t\x7d"
    ++ "\n\t\trawList = append(rawList, inputMediaBs)"
    ++ "\n\t\x7d"
    ++ "\n\tbs, err := json.Marshal(rawList)"
    ++ "\n\tif err != nil \x7b"
    ++ "\n\t\treturn " ++ x.DefaultReturn
    ++ ", fmt.Errorf(\"failed to marshal raw json list of InputMedia for field: " ++ x.Name
    ++ " %w\", err)"
    ++ "\n\t\x7d"
    ++ "\n\tv[\"" ++ x.Name ++ "\"] = string(bs)"
    ++ "\n\x7d"

/-- The function `addURLParam`: the statement `v["<wire name>"] = <stringer applied to goParam>`. -/
def addURLParam (D : Deps) (f : Field) (stringer goParam : String) : String :=
  "v[\"" ++ f.Name ++ "\"] = " ++ D.Sprintf stringer goParam

/-- The function `generateValue`: the Go text that encodes one field, and whether that text
uses the `data` collection. The three templates are constants that always execute, so the
error returns after `Execute` are unreachable and left out. -/
def generateValue (D : Deps) (d : APIDescription) (methodName : String) (f : Field)
    (goParam defaultRetVal : String) : Except GoErr (String × Bool) :=
  match D.getPreferredType f with
  | .error e => .error (wrapErr "failed to get preferred type" e)
  | .ok fieldType =>
    let stringer := D.goTypeStringer fieldType
    if stringer ≠ "" then
      if f.Required = false then
        if fieldType = "int64" ∨ fieldType = "float64" then
          if methodName = "sendPoll" ∧ f.Name = "correct_option_id" then
            .ok ("\nif opts.Type == \"quiz\" \x7b"
              ++ "\n\t// correct_option_id should always be set when the type is \"quiz\" - it doesnt need to be set for type \"regular\"."
              ++ "\n\t" ++ addURLParam D f stringer goParam
              ++ "\n\x7d", false)
          else
            .ok ("\nif " ++ goParam ++ " != " ++ D.getDefaultTypeVal d fieldType ++ " \x7b"
              ++ "\n\t" ++ addURLParam D f stringer goParam
              ++ "\n\x7d", false)
        else if methodName = "editForumTopic" ∧ f.Name = "icon_custom_emoji_id" then
          .ok ("\n// icon_custom_emoji_id has different behaviour if it's empty, or if it's unspecified; so we need to handle that."
            ++ "\nif " ++ goParam ++ " != nil \x7b"
            ++ "\n\tv[\"" ++ f.Name ++ "\"] = "
            ++ D.Sprintf (D.goTypeStringer ("*" ++ fieldType)) goParam
            ++ "\n\x7d", false)
        else
          .ok ("\n" ++ addURLParam D f stringer goParam, false)
      else
        .ok ("\n" ++ addURLParam D f stringer goParam, false)
    else if fieldType = tgTypeInputFile then
      .ok (inputFileBranch
        { GoParam := goParam, DefaultReturn := defaultRetVal, Name := f.Name,
          AllowString := decide (f.Types.length > 1) }, true)
    else if fieldType = tgTypeInputMedia then
      .ok (inputMediaParamsBranch
        { GoParam := goParam, DefaultReturn := defaultRetVal, Name := f.Name,
          AllowString := false }, true)
    else if fieldType = "[]" ++ tgTypeInputMedia then
      .ok (inputMediaArrayParamsBranch
        { GoParam := goParam, DefaultReturn := defaultRetVal, Name := f.Name,
          AllowString := false }, true)
    else
      let guarded := isArray fieldType || fieldType == tgTypeReplyMarkup
      .ok ((if guarded then "\nif " ++ goParam ++ " != nil \x7b" else "")
        ++ "\n\tbs, err := json.Marshal(" ++ goParam ++ ")"
        ++ "\n\tif err != nil \x7b"
        ++ "\n\t\treturn " ++ defaultRetVal ++ ", fmt.Errorf(\"failed to marshal field "
        ++ f.Name ++ ": %w\", err)"
        ++ "\n\t\x7d"
        ++ "\n\tv[\"" ++ f.Name ++ "\"] = string(bs)"
        ++ (if guarded then "\n\x7d" else ""), false)

/-! ## The emitted Go statements: syntax, printer, interpreter -/

/-- A run-time value of the generated code, as far as the encodings inspect it: the nil
reference, a string, an integer, a boolean, or some other non-nil value named by a tag. -/
inductive GoVal
  | nil
  | str (s : String)
  | int (n : Int)
  | bool (b : Bool)
  | other (tag : String)
deriving DecidableEq, Repr

/-- The caller's scope of a generated operation: what each Go expression over the
parameters and the options aggregate evaluates to (`val`), the text of each string-typed
expression (`text`), and the JSON encoder for non-nil values (`enc`). -/
structure Scope where
  val : String → GoVal
  text : String → String
  enc : GoVal → Except String String

/-- Value of an expression: the literals `nil` and `"quiz"` denote themselves, any other
expression is looked up in the scope. -/
def evalExpr (ρ : Scope) (e : String) : GoVal :=
  if e = "nil" then GoVal.nil
  else if e = "\"quiz\"" then GoVal.str "quiz"
  else ρ.val e

/-- Go `json.Marshal`: a nil reference encodes as the text `null` without error. -/
def jsonMarshal (ρ : Scope) : GoVal → Except String String
  | GoVal.nil => .ok "null"
  | x => ρ.enc x

/-- Conditions of the emitted `if` statements. -/
inductive Cond
  | ne (lhs rhs : String)
  | eq (lhs rhs : String)
  | errSet
deriving DecidableEq, Repr

/-- Statements of the emitted field encodings. -/
inductive Stmt
  | comment (text : String)
  | setParam (key expr : String)
  | setParamBs (key : String)
  | marshal (expr : String)
  | failWith (defaults msg : String)
  | ifThen (c : Cond) (body : List Stmt)
deriving Repr

/-- Indentation: `n` tab characters. -/
def tabs : Nat → String
  | 0 => ""
  | n + 1 => "\t" ++ tabs n

/-- Concrete syntax of a condition. -/
def renderCond : Cond → String
  | .ne a b => a ++ " != " ++ b
  | .eq a b => a ++ " == " ++ b
  | .errSet => "err != nil"

mutual
/-- Concrete syntax of a statement at indentation `i`, each line preceded by a line break. -/
def render (i : Nat) : Stmt → String
  | .comment t => "\n" ++ tabs i ++ "// " ++ t
  | .setParam k e => "\n" ++ tabs i ++ "v[\"" ++ k ++ "\"] = " ++ e
  | .setParamBs k => "\n" ++ tabs i ++ "v[\"" ++ k ++ "\"] = string(bs)"
  | .marshal e => "\n" ++ tabs i ++ "bs, err := json.Marshal(" ++ e ++ ")"
  | .failWith dflt msg =>
      "\n" ++ tabs i ++ "return " ++ dflt ++ ", fmt.Errorf(\"" ++ msg ++ ": %w\", err)"
  | .ifThen c body =>
      "\n" ++ tabs i ++ "if " ++ renderCond c ++ " \x7b" ++ renderList (i + 1) body
        ++ "\n" ++ tabs i ++ "\x7d"
/-- Concrete syntax of a statement list. -/
def renderList (i : Nat) : List Stmt → String
  | [] => ""
  | s :: rest => render i s ++ renderList i rest
end

/-- The local state of a generated operation while it assembles the request: the
parameter map `v` (latest write first), and the variables `bs` and `err` of the last
`json.Marshal`. -/
structure Frame where
  v : List (String × String)
  bs : String
  err : Option String
deriving DecidableEq, Repr

/-- Outcome of running statements: still running with a frame, or the operation has
returned its default values together with an error message. -/
inductive Flow
  | running (fr : Frame)
  | returned (defaults : String) (err : String)
deriving DecidableEq, Repr

/-- Truth of a condition. -/
def evalCond (ρ : Scope) (fr : Frame) : Cond → Bool
  | .ne a b => decide (evalExpr ρ a ≠ evalExpr ρ b)
  | .eq a b => decide (evalExpr ρ a = evalExpr ρ b)
  | .errSet => fr.err.isSome

mutual
/-- Execution of one statement. -/
def exec (ρ : Scope) : Stmt → Frame → Flow
  | .comment _, fr => .running fr
  | .setParam k e, fr => .running { fr with v := (k, ρ.text e) :: fr.v }
  | .setParamBs k, fr => .running { fr with v := (k, fr.bs) :: fr.v }
  | .marshal e, fr =>
      match jsonMarshal ρ (evalExpr ρ e) with
      | .ok s => .running { fr with bs := s, err := none }
      | .error m => .running { fr with bs := "", err := some m }
  | .failWith dflt msg, fr => .returned dflt (msg ++ ": " ++ fr.err.getD "%!w(<nil>)")
  | .ifThen c body, fr => if evalCond ρ fr c then execList ρ body fr else .running fr
/-- Execution of a statement list; a `return` ends it. -/
def execList (ρ : Scope) : List Stmt → Frame → Flow
  | [], fr => .running fr
  | s :: rest, fr =>
      match exec ρ s fr with
      | .running fr1 => execList ρ rest fr1
      | .returned dflt e => .returned dflt e
end

/-- The parameter written under `key`, if any. -/
def Flow.param (key : String) : Flow → Option String
  | .running fr => fr.v.lookup key
  | .returned _ _ => none

/-- Syntax tree of the sendPoll override: the write sits under the `opts.Type` test only. -/
def quizGuard (key expr : String) : Stmt :=
  .ifThen (.eq "opts.Type" "\"quiz\"")
    [.comment "correct_option_id should always be set when the type is \"quiz\" - it doesnt need to be set for type \"regular\".",
     .setParam key expr]

/-- Syntax tree of the zero guard of an optional number. -/
def zeroGuard (goParam dflt key expr : String) : Stmt :=
  .ifThen (.ne goParam dflt) [.setParam key expr]

/-- Syntax tree of the sentinel encoding: a comment, then the write under a nil test. -/
def sentinelGuard (goParam key expr : String) : List Stmt :=
  [.comment "icon_custom_emoji_id has different behaviour if it's empty, or if it's unspecified; so we need to handle that.",
   .ifThen (.ne goParam "nil") [.setParam key expr]]

/-- Syntax tree of the generic composite encoding without its optional nil test. -/
def marshalBody (goParam dflt key : String) : List Stmt :=
  [.marshal goParam,
   .ifThen .errSet [.failWith dflt ("failed to marshal field " ++ key)],
   .setParamBs key]

/-- Syntax tree of the generic composite encoding under a nil test. -/
def marshalGuarded (goParam dflt key : String) : Stmt :=
  .ifThen (.ne goParam "nil") (marshalBody goParam dflt key)

/-! ## Response decoding: `returnValues` -/

/-- Go `strings.TrimLeft(s, "*")` on the characters of `s`: every leading `*` is removed.
It is also the first loop of `getRetVarName`, which strips one `*` per round. -/
def dropStars : List Char → List Char
  | '*' :: cs => dropStars cs
  | cs => cs

/-- The second loop of `getRetVarName`: strips one leading `[]` per round. -/
def dropBrackets : List Char → List Char
  | '[' :: ']' :: cs => dropBrackets cs
  | cs => cs

/-- Go `strings.TrimPrefix(s, "[]")`. -/
def trimArrayPrefix (s : String) : String :=
  match s.data with
  | '[' :: ']' :: cs => String.mk cs
  | _ => s

/-- Go `strings.ToLower(s[:1])` for a non-empty `s` starting with the character `c`: an
ASCII letter is lowered; the first byte of a longer encoding is not valid UTF-8 on its own
and comes out as the replacement character. -/
def lowerFirst (c : Char) : String :=
  if c.val < 128 then String.singleton c.toLower else "\uFFFD"

/-- The function `getRetVarName`; slicing `retType[:1]` of an empty string panics. -/
def getRetVarName (retType : String) : Except GoErr String :=
  match dropBrackets (dropStars retType.data) with
  | [] => .error (.crash "slice bounds out of range [:1] with length 0")
  | c :: _ => .ok (lowerFirst c)

/-- How `%v` prints a `[]string`. -/
def sliceText (xs : List String) : String := "[" ++ " ".intercalate xs ++ "]"

/-- The function `returnValues`; indexing `retTypes[0]` of an empty list panics. -/
def returnValues (D : Deps) (d : APIDescription) (retTypes : List String) :
    Except GoErr String :=
  match retTypes with
  | [] => .error (.crash "index out of range [0] with length 0")
  | retType :: _ =>
    match getRetVarName retType with
    | .error e => .error e
    | .ok retVarName =>
      let retVarType := if isPointer retType then String.mk (dropStars retType.data) else retType
      let addr := if isPointer retType then "&" else ""
      if retTypes.length = 2 ∧ retTypes.get? 1 = some "bool" then
        let defaultRetVal := D.getDefaultTypeVal d retVarType
        .ok ("\nvar " ++ retVarName ++ " " ++ retVarType
          ++ "\nif err := json.Unmarshal(r, &" ++ retVarName ++ "); err != nil \x7b"
          ++ "\n\tvar b bool"
          ++ "\n\tif err := json.Unmarshal(r, &b); err != nil \x7b"
          ++ "\n\t\treturn " ++ defaultRetVal ++ ", false, err"
          ++ "\n\t\x7d"
          ++ "\n\treturn " ++ defaultRetVal ++ ", b, nil"
          ++ "\n\x7d"
          ++ "\nreturn " ++ (addr ++ retVarName) ++ ", true, nil"
          ++ "\n")
      else if retTypes.length ≥ 2 then
        .error (.error ("no existing support for multiple return types of "
          ++ sliceText retTypes))
      else if isArray retType ∧ d.subtypesLen (trimArrayPrefix retType) ≠ 0 then
        .ok ("\nreturn unmarshal" ++ trimArrayPrefix retType ++ "Array(r)")
      else if d.subtypesLen retType ≠ 0 then
        .ok ("\nreturn unmarshal" ++ retType ++ "(r)")
      else
        .ok ("\nvar " ++ retVarName ++ " " ++ retVarType
          ++ "\nreturn " ++ addr ++ retVarName ++ ", json.Unmarshal(r, &" ++ retVarName ++ ")")

/-- Expressions of the emitted `return` statements. -/
inductive RetExpr
  | var (name : String)
  | addrOf (name : String)
  | lit (text : String)
  | err
deriving DecidableEq, Repr

/-- Statements of the emitted dual-return decoder. -/
inductive DecStmt
  | varDecl (name ty : String)
  | ifUnmarshalFails (target : String) (body : List DecStmt)
  | ret (first second third : RetExpr)
deriving Repr

/-- Concrete syntax of a return expression. -/
def renderRet : RetExpr → String
  | .var n => n
  | .addrOf n => "&" ++ n
  | .lit t => t
  | .err => "err"

mutual
/-- Concrete syntax of a decoder statement at indentation `i`. -/
def renderDec (i : Nat) : DecStmt → String
  | .varDecl n ty => "\n" ++ tabs i ++ "var " ++ n ++ " " ++ ty
  | .ifUnmarshalFails t body =>
      "\n" ++ tabs i ++ "if err := json.Unmarshal(r, &" ++ t ++ "); err != nil \x7b"
        ++ renderDecList (i + 1) body ++ "\n" ++ tabs i ++ "\x7d"
  | .ret a b c =>
      "\n" ++ tabs i ++ "return " ++ renderRet a ++ ", " ++ renderRet b ++ ", " ++ renderRet c
/-- Concrete syntax of a list of decoder statements. -/
def renderDecList (i : Nat) : List DecStmt → String
  | [] => ""
  | s :: rest => renderDec i s ++ renderDecList i rest
end

/-- What `json.Unmarshal` does with a payload for a target of a given Go type, and the
zero value a `var` declaration of that type starts with. -/
structure Decoder where
  unmarshal : String → String → Except String GoVal
  zero : String → GoVal

/-- A returned value: the value of a variable, the address of a variable holding a value,
an expression that denotes itself (a literal such as `true`, `nil` or a zero value), an
error with its message, or a name that is not in scope. -/
inductive RetVal
  | value (x : GoVal)
  | ref (x : GoVal)
  | lit (text : String)
  | err (msg : String)
  | unbound (name : String)
deriving DecidableEq, Repr

/-- Variables in scope while decoding, innermost first: name, declared type, value; and the
error of the enclosing `if err := ...` statement. -/
structure DecFrame where
  vars : List (String × String × GoVal)
  err : Option String
deriving DecidableEq, Repr

/-- Outcome of the decoder: still running, returned three values, or stuck on a name that
is not declared. -/
inductive DecFlow
  | running (fr : DecFrame)
  | returned (first second third : RetVal)
  | stuck
deriving DecidableEq, Repr

/-- Value of a return expression. -/
def evalRet (fr : DecFrame) : RetExpr → RetVal
  | .var n => match fr.vars.lookup n with
      | some (_, x) => .value x
      | none => .unbound n
  | .addrOf n => match fr.vars.lookup n with
      | some (_, x) => .ref x
      | none => .unbound n
  | .lit t => .lit t
  | .err => match fr.err with
      | some m => .err m
      | none => .unbound "err"

mutual
/-- Execution of one decoder statement on the payload `r`. A block ends the scope of the
variables it declares. -/
def execDec (dec : Decoder) (r : String) : DecStmt → DecFrame → DecFlow
  | .varDecl n ty, fr => .running { fr with vars := (n, ty, dec.zero ty) :: fr.vars }
  | .ifUnmarshalFails t body, fr =>
      match fr.vars.lookup t with
      | none => .stuck
      | some (ty, _) =>
        match dec.unmarshal r ty with
        | .ok x => .running { fr with vars := (t, ty, x) :: fr.vars }
        | .error m =>
          match execDecList dec r body { fr with err := some m } with
          | .running _ => .running fr
          | out => out
  | .ret a b c, fr => .returned (evalRet fr a) (evalRet fr b) (evalRet fr c)
/-- Execution of a list of decoder statements. -/
def execDecList (dec : Decoder) (r : String) : List DecStmt → DecFrame → DecFlow
  | [], fr => .running fr
  | s :: rest, fr =>
      match execDec dec r s fr with
      | .running fr1 => execDecList dec r rest fr1
      | out => out
end

/-- Syntax tree of the dual-return decoder for the variable `x` of type `ty`, the default
value text `dflt`, and the first result `res` of the success path. -/
def dualDecoder (x ty dflt : String) (res : RetExpr) : List DecStmt :=
  [.varDecl x ty,
   .ifUnmarshalFails x
     [.varDecl "b" "bool",
      .ifUnmarshalFails "b" [.ret (.lit dflt) (.lit "false") .err],
      .ret (.lit dflt) (.var "b") (.lit "nil")],
   .ret res (.lit "true") (.lit "nil")]

/-! ## Method level: `description`, `argsToValues`, `getArgs`, `generateMethodDef` -/

/-- First loop of `description`: one comment line per description line, the first one
preceded by the exported method name. -/
def descriptionLines (D : Deps) (m : MethodDescription) : Nat → List String → String
  | _, [] => ""
  | idx, t :: rest =>
      "\n// " ++ (if idx = 0 then D.Title m.Name ++ " " ++ t else t)
        ++ descriptionLines D m (idx + 1) rest

/-- Second loop of `description`: one comment line per required field. -/
def descriptionFields (D : Deps) : List Field → Except GoErr String
  | [] => .ok ""
  | f :: rest =>
      if f.Required = false then descriptionFields D rest
      else
        match D.getPreferredType f with
        | .error e => .error e
        | .ok prefType =>
          match descriptionFields D rest with
          | .error e => .error e
          | .ok tail =>
            .ok ("\n// - " ++ D.snakeToCamel f.Name ++ " (type " ++ prefType ++ "): "
              ++ f.Description ++ tail)

/-- The method `MethodDescription.description`. -/
def description (D : Deps) (m : MethodDescription) : Except GoErr String :=
  match descriptionFields D m.Fields with
  | .error e => .error e
  | .ok fields =>
    .ok (descriptionLines D m 0 m.Description ++ fields
      ++ "\n// - opts (type " ++ D.optsName m ++ "): All optional parameters."
      ++ "\n// " ++ m.Href)

/-- The loop state of `argsToValues`: the builder `bd`, the flag `hasData`, and the
optional fields collected so far. -/
structure ArgsState where
  bd : String
  hasData : Bool
  optionals : List Field

/-- First loop of `argsToValues`: optional fields are set aside, required fields are
encoded under their positional parameter name. -/
def argsRequiredLoop (D : Deps) (d : APIDescription) (methodName defaultRetVal : String) :
    List Field → ArgsState → Except GoErr ArgsState
  | [], st => .ok st
  | f :: rest, st =>
      let goParam := D.snakeToCamel f.Name
      if f.Required = false then
        argsRequiredLoop D d methodName defaultRetVal rest
          { st with optionals := st.optionals ++ [f] }
      else
        match generateValue D d methodName f goParam defaultRetVal with
        | .error e => .error e
        | .ok (contents, data) =>
          argsRequiredLoop D d methodName defaultRetVal rest
            { st with bd := st.bd ++ contents, hasData := st.hasData || data }

/-- Second loop of `argsToValues`: the optional fields, encoded under `opts.<Member>`. -/
def argsOptionalLoop (D : Deps) (d : APIDescription) (methodName defaultRetVal : String) :
    List Field → ArgsState → Except GoErr ArgsState
  | [], st => .ok st
  | f :: rest, st =>
      let goParam := "opts." ++ D.snakeToTitle f.Name
      match generateValue D d methodName f goParam defaultRetVal with
      | .error e => .error e
      | .ok (contents, data) =>
        argsOptionalLoop D d methodName defaultRetVal rest
          { st with bd := st.bd ++ contents, hasData := st.hasData || data }

/-- The method `MethodDescription.argsToValues`. -/
def argsToValues (D : Deps) (m : MethodDescription) (d : APIDescription)
    (methodName defaultRetVal : String) : Except GoErr (String × Bool) :=
  match argsRequiredLoop D d methodName defaultRetVal m.Fields
      { bd := "", hasData := false, optionals := [] } with
  | .error e => .error e
  | .ok st1 =>
    let guarded : Except GoErr ArgsState :=
      if st1.optionals.length > 0 then
        match argsOptionalLoop D d methodName defaultRetVal st1.optionals
            { st1 with bd := st1.bd ++ "\nif opts != nil \x7b" } with
        | .error e => .error e
        | .ok st2 => .ok { st2 with bd := st2.bd ++ "\n\x7d" }
      else .ok st1
    match guarded with
    | .error e => .error e
    | .ok st =>
      if st.hasData then .ok ("\ndata := map[string]NamedReader\x7b\x7d" ++ st.bd, true)
      else .ok (st.bd, false)

/-- The loop state of `getArgs`: the positional parameters and the members of the options
struct collected so far. -/
structure GetArgsState where
  requiredArgs : List String
  optionals : String

/-- The loop of `getArgs`. -/
def getArgsLoop (D : Deps) (m : MethodDescription) :
    List Field → GetArgsState → Except GoErr GetArgsState
  | [], st => .ok st
  | f :: rest, st =>
      match D.getPreferredType f with
      | .error e => .error (wrapErr "failed to get preferred type" e)
      | .ok fieldType =>
        if f.Required then
          getArgsLoop D m rest
            { st with requiredArgs :=
                st.requiredArgs ++ [D.snakeToCamel f.Name ++ " " ++ fieldType] }
        else if m.Name = "editForumTopic" ∧ f.Name = "icon_custom_emoji_id" then
          getArgsLoop D m rest
            { st with optionals := st.optionals ++ "\n// " ++ f.Description
                ++ "\n" ++ (D.snakeToTitle f.Name ++ " " ++ ("*" ++ fieldType)) }
        else
          getArgsLoop D m rest
            { st with optionals := st.optionals ++ "\n// " ++ f.Description
                ++ "\n" ++ (D.snakeToTitle f.Name ++ " " ++ fieldType) }

/-- The method `MethodDescription.getArgs`: the joined parameter list and the options
struct. -/
def getArgs (D : Deps) (m : MethodDescription) : Except GoErr (String × String) :=
  match getArgsLoop D m m.Fields { requiredArgs := [], optionals := "" } with
  | .error e => .error e
  | .ok st =>
    .ok (", ".intercalate (st.requiredArgs ++ ["opts *" ++ D.optsName m]),
      "\n// " ++ D.optsName m ++ " is the set of optional fields for Bot."
        ++ D.Title m.Name ++ "."
        ++ "\ntype " ++ D.optsName m ++ " struct \x7b"
        ++ st.optionals
        ++ "\n// RequestOpts are an additional optional field to configure timeouts for individual requests"
        ++ "\nRequestOpts *RequestOpts"
        ++ "\n\x7d")

/-- The function `generateMethodSignature`. -/
def generateMethodSignature (D : Deps) (d : APIDescription) (tgMethod : MethodDescription) :
    Except GoErr (String × List String × String) :=
  match D.GetReturnTypes tgMethod d with
  | .error e => .error (wrapErr ("failed to get return for " ++ tgMethod.Name) e)
  | .ok retTypes =>
    match getArgs D tgMethod with
    | .error e => .error (wrapErr ("failed to get args for method " ++ tgMethod.Name) e)
    | .ok (args, optionalsStruct) =>
      .ok (D.Title tgMethod.Name ++ "(" ++ args ++ ") (" ++ ", ".intercalate retTypes
        ++ ", error)", retTypes, optionalsStruct)

/-- The call of the transport that `generateMethodDef` emits: with `data` when the request
carries parts, with `nil` otherwise. -/
def requestCall (name : String) (hasData : Bool) : String :=
  if hasData then "\nr, err := bot.Request(\"" ++ name ++ "\", v, data, reqOpts)"
  else "\nr, err := bot.Request(\"" ++ name ++ "\", v, nil, reqOpts)"

/-- The function `generateMethodDef`. -/
def generateMethodDef (D : Deps) (d : APIDescription) (tgMethod : MethodDescription) :
    Except GoErr String :=
  match generateMethodSignature D d tgMethod with
  | .error e => .error e
  | .ok (methodSignature, retTypes, optionalsStruct) =>
    match description D tgMethod with
    | .error e =>
      .error (wrapErr ("failed to generate method description for " ++ tgMethod.Name) e)
    | .ok desc =>
      let defaultRetVals := ", ".intercalate (D.getDefaultReturnVals d retTypes)
      match argsToValues D tgMethod d tgMethod.Name defaultRetVals with
      | .error e =>
        .error (wrapErr ("failed to generate url values for method " ++ tgMethod.Name) e)
      | .ok (valueGen, hasData) =>
        match returnValues D d retTypes with
        | .error e => .error (wrapErr "failed to generate return values" e)
        | .ok returnGen =>
          .ok ((if optionalsStruct ≠ "" then "\n" ++ optionalsStruct else "")
            ++ desc
            ++ "\nfunc (bot *Bot) " ++ methodSignature ++ " \x7b"
            ++ "\n\tv := map[string]string\x7b\x7d"
            ++ valueGen
            ++ "\n"
            ++ "\nvar reqOpts *RequestOpts"
            ++ "\nif opts != nil \x7b"
            ++ "\n\treqOpts = opts.RequestOpts"
            ++ "\n\x7d"
            ++ "\n"
            ++ requestCall tgMethod.Name hasData
            ++ "\n\tif err != nil \x7b"
            ++ "\n\t\treturn " ++ defaultRetVals ++ ", err"
            ++ "\n\t\x7d"
            ++ "\n"
            ++ returnGen
            ++ "\n\x7d")

/-! ## A concrete instance of the collaborators -/

/-- Name conversion on characters: an underscore is dropped and raises the next letter. -/
def camelChars : Bool → List Char → List Char
  | _, [] => []
  | up, c :: cs =>
      if c = '_' then camelChars true cs
      else (if up then c.toUpper else c) :: camelChars false cs

/-- Replaces the first `%s` of a format by the operand. -/
def substFirst : List Char → List Char → List Char
  | [], _ => []
  | [c], _ => [c]
  | c1 :: c2 :: rest, arg =>
      if c1 = '%' ∧ c2 = 's' then arg ++ rest else c1 :: substFirst (c2 :: rest) arg

/-- Raises the first letter of a name. -/
def titleFirst (s : String) : String :=
  match s.data with
  | [] => ""
  | c :: cs => String.mk (c.toUpper :: cs)

/-- Modelled from the spec: `getDefaultTypeVal` is declared in another file of the package; a computable
zero value exists for every type (section 4.3): `0`, `false`, the empty string, `nil` for a
nullable reference or a sequence, and the empty composite otherwise. -/
def sampleDefaultTypeVal (t : String) : String :=
  if t = "int64" ∨ t = "float64" then "0"
  else if t = "bool" then "false"
  else if t = "string" then "\"\""
  else if isPointer t ∨ isArray t then "nil"
  else t ++ "\x7b\x7d"

/-- Modelled from the spec: `goTypeStringer` is declared in another file of the package; the scalar strategy
applies to the primitive string, integer, float and boolean types with a type-specific string
conversion (section 4.4), and to the nullable string of the sentinel field. -/
def sampleStringer (t : String) : String :=
  if t = "int64" then "strconv.FormatInt(%s, 10)"
  else if t = "float64" then "strconv.FormatFloat(%s, 'f', -1, 64)"
  else if t = "bool" then "strconv.FormatBool(%s)"
  else if t = "string" then "%s"
  else if t = "*string" then "*%s"
  else ""

/-- Modelled from the spec: the helpers of the package that are declared in other files,
in the simplest form the spec allows: the preferred type is the first candidate (section 3),
names are converted from snake case to parameter and member form (section 2), the options
aggregate is named from the method name (section 4.3). -/
def sampleDeps : Deps where
  goTypeStringer := sampleStringer
  getPreferredType := fun f =>
    match f.Types with
    | [] => .error (.error "no types")
    | t :: _ => .ok t
  getDefaultTypeVal := fun _ t => sampleDefaultTypeVal t
  getDefaultReturnVals := fun _ ts => ts.map sampleDefaultTypeVal
  GetReturnTypes := fun m _ => .ok m.Returns
  snakeToCamel := fun s => String.mk (camelChars false s.data)
  snakeToTitle := fun s => String.mk (camelChars true s.data)
  optsName := fun m => titleFirst m.Name ++ "Opts"
  Title := titleFirst
  Sprintf := fun fmt arg => String.mk (substFirst fmt.data arg.data)

/-- An API description without polymorphic types. -/
def sampleAPI : APIDescription := { Types := [], Methods := [] }

/-! ## Syntactic and specification-side notions used by the statements -/

mutual
/-- The wire names a statement writes to, in textual order. -/
def paramKeys : Stmt → List String
  | .comment _ => []
  | .setParam k _ => [k]
  | .setParamBs k => [k]
  | .marshal _ => []
  | .failWith _ _ => []
  | .ifThen _ body => paramKeysList body
/-- The wire names a statement list writes to, in textual order. -/
def paramKeysList : List Stmt → List String
  | [] => []
  | s :: rest => paramKeys s ++ paramKeysList rest
end

/-- A frame in which nothing has been written yet. -/
def emptyFrame : Frame := { v := [], bs := "", err := none }

/-- The optional field `correct_option_id` of `sendPoll`, an integer. -/
def pollField : Field :=
  { Name := "correct_option_id", Types := ["int64"], Required := false,
    Description := "0-based identifier of the correct answer option" }

/-- The expression the sample stringer builds for the poll field. -/
def pollExpr : String := "strconv.FormatInt(opts.CorrectOptionId, 10)"

/-- A caller scope for `sendPoll`: the poll type and the index, with the decimal text of the
index as the value of the stringer expression. -/
def pollScope (pollType : String) (index : Int) : Scope where
  val := fun e =>
    if e = "opts.Type" then GoVal.str pollType
    else if e = "opts.CorrectOptionId" then GoVal.int index
    else if e = "0" then GoVal.int 0
    else GoVal.nil
  text := fun e => if e = pollExpr then toString index else ""
  enc := fun _ => .error "unsupported"

/-- An optional integer field of another method. -/
def offsetField : Field :=
  { Name := "offset", Types := ["int64"], Required := false,
    Description := "Identifier of the first update to be returned" }

/-- A caller scope for `getUpdates` with the given offset. -/
def offsetScope (offset : Int) : Scope where
  val := fun e =>
    if e = "opts.Offset" then GoVal.int offset
    else if e = "0" then GoVal.int 0
    else GoVal.nil
  text := fun e => if e = "strconv.FormatInt(opts.Offset, 10)" then toString offset else ""
  enc := fun _ => .error "unsupported"

/-- Concatenation of a list of texts, in order. -/
def joinAll : List String → String
  | [] => ""
  | s :: rest => s ++ joinAll rest

/-- The preferred type of a field that has one. -/
def prefType (D : Deps) (f : Field) : String :=
  match D.getPreferredType f with
  | .ok t => t
  | .error _ => ""

/-- Specification of a positional parameter: `<snakeToCamel(wire name)> <preferred type>`. -/
def paramDecl (D : Deps) (f : Field) : String :=
  D.snakeToCamel f.Name ++ " " ++ prefType D f

/-- Specification of the type of an options-struct member: the preferred type, wrapped in a
pointer for the one sentinel pair (`editForumTopic`, `icon_custom_emoji_id`). -/
def memberType (D : Deps) (m : MethodDescription) (f : Field) : String :=
  if m.Name = "editForumTopic" ∧ f.Name = "icon_custom_emoji_id" then "*" ++ prefType D f
  else prefType D f

/-- Specification of an options-struct member: the description as a comment, then
`<snakeToTitle(wire name)> <member type>`. -/
def memberDecl (D : Deps) (m : MethodDescription) (f : Field) : String :=
  "\n// " ++ f.Description ++ "\n" ++ (D.snakeToTitle f.Name ++ " " ++ memberType D m f)

/-- Specification of the options struct: the given members, then the `RequestOpts` member. -/
def optsStruct (D : Deps) (m : MethodDescription) (members : String) : String :=
  "\n// " ++ D.optsName m ++ " is the set of optional fields for Bot." ++ D.Title m.Name ++ "."
    ++ "\ntype " ++ D.optsName m ++ " struct \x7b"
    ++ members
    ++ "\n// RequestOpts are an additional optional field to configure timeouts for individual requests"
    ++ "\nRequestOpts *RequestOpts"
    ++ "\n\x7d"

/-- The required fields of a method, in declared order. -/
def requiredFields (m : MethodDescription) : List Field :=
  m.Fields.filter (fun f => f.Required)

/-- The optional fields of a method, in declared order. -/
def optionalFields (m : MethodDescription) : List Field :=
  m.Fields.filter (fun f => !f.Required)

/-- The optional field `icon_custom_emoji_id` of `editForumTopic`, a primitive string. -/
def iconField : Field :=
  { Name := "icon_custom_emoji_id", Types := ["string"], Required := false,
    Description := "New unique identifier of the custom emoji shown as the topic icon" }

/-- The required field `chat_id`. -/
def chatIdField : Field :=
  { Name := "chat_id", Types := ["int64"], Required := true,
    Description := "Unique identifier for the target chat" }

/-- The optional field `name` of `editForumTopic`. -/
def nameField : Field :=
  { Name := "name", Types := ["string"], Required := false,
    Description := "New topic name" }

/-- A method `editForumTopic` with one required and two optional fields. -/
def editForumTopic : MethodDescription :=
  { Name := "editForumTopic", Fields := [chatIdField, nameField, iconField],
    Returns := ["bool"], Description := ["Use this method to edit a topic."],
    Href := "https://core.telegram.org/bots/api#editforumtopic" }

/-- A caller scope for `editForumTopic`: the icon member is either unset (`none`) or points
to the given string. -/
def iconScope (icon : Option String) : Scope where
  val := fun e =>
    if e = "opts.IconCustomEmojiId" then
      (match icon with
       | some _ => GoVal.other "pointer to string"
       | none => GoVal.nil)
    else GoVal.nil
  text := fun e => if e = "*opts.IconCustomEmojiId" then icon.getD "" else ""
  enc := fun _ => .error "unsupported"

/-- The type of the decoded variable: the return type without its leading pointer markers. -/
def retVarTypeOf (retType : String) : String :=
  if isPointer retType then String.mk (dropStars retType.data) else retType

/-- The first result of the success path: the decoded variable, or its address when the
return type is a pointer. -/
def retResultOf (retType x : String) : RetExpr :=
  if isPointer retType then RetExpr.addrOf x else RetExpr.var x

/-- How the value of a first result is built from the decoded value. -/
def retResultVal (retType : String) (x : GoVal) : RetVal :=
  if isPointer retType then RetVal.ref x else RetVal.value x

/-- Specification of the dual decoding of a payload: the outcome the spec prescribes for the
two decoding attempts. -/
def dualOutcome (dec : Decoder) (r retType ty dflt : String) : DecFlow :=
  match dec.unmarshal r ty with
  | .ok x => .returned (retResultVal retType x) (.lit "true") (.lit "nil")
  | .error _ =>
    match dec.unmarshal r "bool" with
    | .ok b => .returned (.lit dflt) (.value b) (.lit "nil")
    | .error e => .returned (.lit dflt) (.lit "false") (.err e)

/-- A decoder that knows one message object and the two booleans. -/
def sampleDecoder : Decoder where
  unmarshal := fun r ty =>
    if ty = "bool" then
      (if r = "true" then .ok (GoVal.bool true)
       else if r = "false" then .ok (GoVal.bool false)
       else .error "json: cannot unmarshal into Go value of type bool")
    else if r = "\x7b\"message_id\":7\x7d" then .ok (GoVal.other "message 7")
    else .error ("json: cannot unmarshal into Go value of type " ++ ty)
  zero := fun ty => if ty = "bool" then GoVal.bool false else GoVal.other ("zero " ++ ty)

/-- The decoder state at the start of the emitted decoding code. -/
def emptyDecFrame : DecFrame := { vars := [], err := none }

/-- A method without fields. -/
def getMe : MethodDescription :=
  { Name := "getMe", Fields := [], Returns := ["*User"],
    Description := ["A simple method for testing your bot's authentication token."],
    Href := "https://core.telegram.org/bots/api#getme" }

/-- Specification of the routing to a file or media strategy: the preferred type has no
scalar stringer and is `InputFile`, `InputMedia` or `[]InputMedia`. -/
def mediaRouted (D : Deps) (f : Field) : Bool :=
  D.goTypeStringer (prefType D f) = "" ∧
    (prefType D f = "InputFile" ∨ prefType D f = "InputMedia" ∨ prefType D f = "[]InputMedia")

/-- The text `generateValue` emits for a field addressed as `goParam`. -/
def fieldCode (D : Deps) (d : APIDescription) (methodName defaultRetVal goParam : String)
    (f : Field) : String :=
  match generateValue D d methodName f goParam defaultRetVal with
  | .ok (contents, _) => contents
  | .error _ => ""

/-- The declaration of the parts collection. -/
def dataDecl : String := "\ndata := map[string]NamedReader\x7b\x7d"

/-- Specification of the encodings of the required fields: in declared order, each
addressed by its positional parameter name. -/
def requiredCode (D : Deps) (d : APIDescription) (m : MethodDescription)
    (methodName defaultRetVal : String) : String :=
  joinAll ((requiredFields m).map
    (fun f => fieldCode D d methodName defaultRetVal (D.snakeToCamel f.Name) f))

/-- Specification of the encodings of the optional fields: in declared order, each
addressed as a member of `opts`. -/
def optionalCode (D : Deps) (d : APIDescription) (m : MethodDescription)
    (methodName defaultRetVal : String) : String :=
  joinAll ((optionalFields m).map
    (fun f => fieldCode D d methodName defaultRetVal ("opts." ++ D.snakeToTitle f.Name) f))

/-- A required media sequence. -/
def mediaField : Field :=
  { Name := "media", Types := ["[]InputMedia"], Required := true,
    Description := "A JSON-serialized array describing messages to be sent" }

/-- An optional boolean. -/
def silentField : Field :=
  { Name := "disable_notification", Types := ["bool"], Required := false,
    Description := "Sends messages silently" }

/-- A method `sendMediaGroup` with two required fields, one of them media, and one optional
field. -/
def sendMediaGroup : MethodDescription :=
  { Name := "sendMediaGroup", Fields := [chatIdField, silentField, mediaField],
    Returns := ["[]Message"], Description := ["Use this method to send a group of photos."],
    Href := "https://core.telegram.org/bots/api#sendmediagroup" }

/-- The lines `generateMethodDef` emits between the field encodings and the call of the
transport. -/
def reqOptsBlock : String :=
  "\n" ++ "\nvar reqOpts *RequestOpts" ++ "\nif opts != nil \x7b"
    ++ "\n\treqOpts = opts.RequestOpts" ++ "\n\x7d" ++ "\n"

/-- An optional nested object held by nullable reference. -/
def replyParamsField : Field :=
  { Name := "reply_parameters", Types := ["*ReplyParameters"], Required := false,
    Description := "Description of the message to reply to" }

/-- An optional sequence of objects. -/
def entitiesField : Field :=
  { Name := "entities", Types := ["[]MessageEntity"], Required := false,
    Description := "A JSON-serialized list of special entities" }

/-- A caller scope in which every member of the options aggregate is absent (nil). -/
def absentScope : Scope where
  val := fun _ => GoVal.nil
  text := fun _ => ""
  enc := fun _ => .error "unsupported"

/-- Syntax tree of an unconditional scalar write. -/
def plainWrite (key expr : String) : Stmt := .setParam key expr

/-- A caller scope in which the optional string `name` is the empty string and the optional
boolean `disable_notification` is `false`. -/
def zeroScope : Scope where
  val := fun e =>
    if e = "opts.Name" then GoVal.str ""
    else if e = "opts.DisableNotification" then GoVal.bool false
    else GoVal.nil
  text := fun e =>
    if e = "strconv.FormatBool(opts.DisableNotification)" then "false" else ""
  enc := fun _ => .error "unsupported"

/-- An API description with one polymorphic type, `ChatMember`, and its two implementers. -/
def polyAPI : APIDescription :=
  { Types := [("ChatMember",
      { Name := "ChatMember", Subtypes := ["ChatMemberOwner", "ChatMemberMember"] })],
    Methods := [] }

/-! ## File level: `generateMethods` -/

/-- Go `d.Methods[name]`: a missing key yields the zero value. -/
def APIDescription.method (d : APIDescription) (name : String) : MethodDescription :=
  match d.Methods.lookup name with
  | some m => m
  | none => { Name := "", Fields := [], Returns := [], Description := [], Href := "" }

/-- The text `generateMethods` starts the file with. -/
def methodsHeader : String :=
  "\n// THIS FILE IS AUTOGENERATED. DO NOT EDIT.\n// Regen by running 'go generate' in the repo root.\n\npackage gotgbot\n\nimport (\n\t\"encoding/json\"\n\t\"fmt\"\n\t\"strconv\"\n)\n"

/-- The loop of `generateMethods`: each method definition is appended to the file; the first
failure ends the loop with the wrapped error. -/
def generateMethodsLoop (D : Deps) (d : APIDescription) :
    List String → String → Except GoErr String
  | [], file => .ok file
  | tgMethodName :: rest, file =>
      match generateMethodDef D d (d.method tgMethodName) with
      | .error e =>
        .error (wrapErr ("failed to generate method definition of " ++ tgMethodName) e)
      | .ok method => generateMethodsLoop D d rest (file ++ method)

/-- What a run of a generator did: the calls of `writeGenToFile` it made, each with the text
and the file name, and the error it returned, if any. -/
structure GenRun where
  writes : List (String × String)
  result : Option GoErr
deriving DecidableEq, Repr

/-- The function `generateMethods`. The helpers `orderedMethods` and `writeGenToFile` are
declared in other files of the package and are parameters. -/
def generateMethods (D : Deps) (orderedMethods : APIDescription → List String)
    (writeGenToFile : String → String → Option GoErr) (d : APIDescription) : GenRun :=
  match generateMethodsLoop D d (orderedMethods d) methodsHeader with
  | .error e => { writes := [], result := some e }
  | .ok file =>
    { writes := [(file, "gen_methods.go")], result := writeGenToFile file "gen_methods.go" }

/-- The text of a method definition that compiles. -/
def methodText (D : Deps) (d : APIDescription) (name : String) : String :=
  match generateMethodDef D d (d.method name) with
  | .ok text => text
  | .error _ => ""

/-- A field without candidate types. -/
def untypedField : Field :=
  { Name := "payload", Types := [], Required := true, Description := "no type given" }

/-- A method that cannot be compiled with the sample helpers: one field has no type. -/
def brokenMethod : MethodDescription :=
  { Name := "broken", Fields := [untypedField], Returns := ["bool"],
    Description := ["A method with an untyped field."], Href := "https://example.org/broken" }

/-- An API description with one good and one broken method. -/
def brokenAPI : APIDescription :=
  { Types := [], Methods := [("getMe", getMe), ("broken", brokenMethod)] }

/-- An API description with one good method. -/
def goodAPI : APIDescription := { Types := [], Methods := [("getMe", getMe)] }

/-- Method names in the order of the description. -/
def declaredOrder (d : APIDescription) : List String := d.Methods.map Prod.fst

/-- A `writeGenToFile` that succeeds. -/
def writeOk (_text _path : String) : Option GoErr := none

/-! ## The older generator: `scripts/types.go` -/

namespace Legacy

/-- A field of a type of the API description. -/
structure TypeFields where
  Field : String
  Types : List String
  Description : String
deriving DecidableEq, Repr

/-- A type of the API description. -/
structure TypeDescription where
  Description : List String
  Href : String
  Fields : List TypeFields
  SubtypeOf : List String
deriving DecidableEq, Repr

/-- A field of a method of the API description. -/
structure MethodFields where
  Name : String
  Types : List String
  Required : Bool
  Description : String
deriving DecidableEq, Repr

/-- A method of the API description. -/
structure MethodDescription where
  Fields : List MethodFields
  Returns : List String
  Description : List String
  Href : String
deriving DecidableEq, Repr

/-- The API description: Go maps from names to types and to methods, as association lists. -/
structure APIDescription where
  Types : List (String × TypeDescription)
  Methods : List (String × MethodDescription)
deriving Repr

/-- The collaborators of the older generator that are declared in other files of the
package, and the library functions whose result depends on run-time format strings or
Unicode tables. -/
structure Deps where
  /-- The helper `toGoType`. -/
  toGoType : String → String
  /-- The helper `toGoTypes`. -/
  toGoTypes : String → String
  /-- The helper `isTgType`. -/
  isTgType : List (String × TypeDescription) → String → Bool
  /-- The helper `isTgArray`. -/
  isTgArray : String → Bool
  /-- The helper `getDefaultReturnVal`. -/
  getDefaultReturnVal : String → String
  /-- The helper `getPreferredType`. -/
  getPreferredType : MethodFields → String
  /-- The helper `goTypeStringer`. -/
  goTypeStringer : String → String
  /-- The helper `snakeToCamel`. -/
  snakeToCamel : String → String
  /-- The helper `snakeToTitle`. -/
  snakeToTitle : String → String
  /-- Go `strings.Title`. -/
  Title : String → String
  /-- Go `strings.ToLower`. -/
  ToLower : String → String
  /-- Go `fmt.Sprintf(format, arg)` with one string operand. -/
  Sprintf : String → String → String

/-- Go `d.Types[name]`: a missing key yields the zero value. -/
def APIDescription.typeOf (d : APIDescription) (name : String) : TypeDescription :=
  match d.Types.lookup name with
  | some t => t
  | none => { Description := [], Href := "", Fields := [], SubtypeOf := [] }

/-- The function `isSubtypeOf`. -/
def isSubtypeOf : List String → String → Bool
  | [], _ => false
  | t :: rest, parentType => if t = parentType then true else isSubtypeOf rest parentType

/-- Go `strings.TrimPrefix`. -/
def trimPrefix (s p : String) : String :=
  if hasPrefix s p then String.mk (s.data.drop p.data.length) else s

/-- The loop of `genCustomMarshal`: one nil test per sequence field; indexing `f.Types[0]`
of a field without types panics. -/
def marshalDefaultsLoop (L : Deps) : List TypeFields → Except GoErr String
  | [] => .ok ""
  | f :: rest =>
      match f.Types with
      | [] => .error (.crash "index out of range [0] with length 0")
      | t0 :: _ =>
        match marshalDefaultsLoop L rest with
        | .error e => .error e
        | .ok tail =>
          .ok ("\n\tif a." ++ L.snakeToTitle f.Field ++ " == nil \x7b"
            ++ "\n\t\ta." ++ L.snakeToTitle f.Field ++ " = make(" ++ L.toGoTypes t0 ++ ", 0)"
            ++ "\n\t\x7d" ++ tail)

/-- The function `genCustomMarshal`. -/
def genCustomMarshal (L : Deps) (name : String) (fields : List TypeFields) :
    Except GoErr String :=
  match marshalDefaultsLoop L fields with
  | .error e => .error e
  | .ok defaults =>
    .ok ("\n"
      ++ "\nfunc (v " ++ name ++ ") MarshalJSON() ([]byte, error) \x7b"
      ++ "\n\ttype alias " ++ name
      ++ "\n\ta := struct\x7b"
      ++ (if hasPrefix name "InputMedia" then "\n\t\tType string `json:\"type\"`" else "")
      ++ "\n\t\talias"
      ++ "\n\t\x7d\x7b"
      ++ (if hasPrefix name "InputMedia"
          then "\n\t\tType: \"" ++ L.ToLower (trimPrefix name "InputMedia") ++ "\","
          else "")
      ++ "\n\t\talias: (alias)(v),"
      ++ "\n\t\x7d"
      ++ defaults
      ++ "\nreturn json.Marshal(a)"
      ++ "\n\x7d")

/-- The loop state of `generateTypeDef`: the builder and the sequence fields collected for
the encode override. -/
structure TypeDefState where
  typeDef : String
  genCustomMarshalFields : List TypeFields

/-- The loop of `generateTypeDef` over the fields of a type; indexing `fields.Types[0]` of a
field without types panics. -/
def typeFieldsLoop (L : Deps) (d : APIDescription) (tgType : TypeDescription) :
    List TypeFields → TypeDefState → Except GoErr TypeDefState
  | [], st => .ok st
  | fields :: rest, st =>
      match fields.Types with
      | [] => .error (.crash "index out of range [0] with length 0")
      | t0 :: _ =>
        if isSubtypeOf tgType.SubtypeOf "InputMedia" ∧ fields.Field = "type" then
          typeFieldsLoop L d tgType rest st
        else
          let goType :=
            if L.isTgType d.Types (L.toGoTypes t0) ∧ hasPrefix fields.Description "Optional."
            then "*" ++ L.toGoTypes t0 else L.toGoTypes t0
          typeFieldsLoop L d tgType rest
            { typeDef := st.typeDef ++ "\n// " ++ fields.Description
                ++ "\n" ++ L.snakeToTitle fields.Field ++ " " ++ goType
                ++ " `json:\"" ++ fields.Field ++ "\"`",
              genCustomMarshalFields :=
                if L.isTgArray t0 then st.genCustomMarshalFields ++ [fields]
                else st.genCustomMarshalFields }

/-- The documentation lines `generateTypeDef` starts with. -/
def typeDocLines : List String → String
  | [] => ""
  | t :: rest => "\n// " ++ t ++ typeDocLines rest

/-- The function `generateTypeDef`. -/
def generateTypeDef (L : Deps) (d : APIDescription) (tgTypeName : String) :
    Except GoErr String :=
  let tgType := d.typeOf tgTypeName
  let docs := typeDocLines tgType.Description ++ "\n// " ++ tgType.Href
  if tgType.Fields.length = 0 then
    .ok (docs ++ "\ntype " ++ tgTypeName ++ " interface\x7b\x7d")
  else
    match typeFieldsLoop L d tgType tgType.Fields
        { typeDef := docs ++ "\ntype " ++ tgTypeName ++ " struct \x7b",
          genCustomMarshalFields := [] } with
    | .error e => .error e
    | .ok st =>
      if st.genCustomMarshalFields.length > 0 then
        match genCustomMarshal L tgTypeName st.genCustomMarshalFields with
        | .error e => .error e
        | .ok marshal => .ok (st.typeDef ++ "\n\x7d" ++ marshal)
      else .ok (st.typeDef ++ "\n\x7d")

end Legacy

namespace Legacy

/-! ### The emitted type declarations: syntax, printer, encoder and decoder -/

/-- A member of a generated struct: documentation, Go name, Go type and the wire name of
its `json` tag. -/
structure MemberDecl where
  doc : String
  goName : String
  goType : String
  wire : String
deriving DecidableEq, Repr

/-- The `MarshalJSON` override of a generated struct: the constant `Type` member it injects,
if any, and the members it replaces by an empty sequence when they are nil, each with the
Go type handed to `make`. -/
structure MarshalOverride where
  typeName : String
  discriminator : Option String
  defaults : List (String × String)
deriving DecidableEq, Repr

/-- A generated struct with its encode override, if it has one. -/
structure StructDecl where
  name : String
  members : List MemberDecl
  override : Option MarshalOverride
deriving DecidableEq, Repr

/-- Concrete syntax of a struct member. -/
def renderMember (m : MemberDecl) : String :=
  "\n// " ++ m.doc ++ "\n" ++ m.goName ++ " " ++ m.goType ++ " `json:\"" ++ m.wire ++ "\"`"

/-- Concrete syntax of one nil test of the override. -/
def renderDefault (x : String × String) : String :=
  "\n\tif a." ++ x.1 ++ " == nil \x7b"
    ++ "\n\t\ta." ++ x.1 ++ " = make(" ++ x.2 ++ ", 0)"
    ++ "\n\t\x7d"

/-- Concrete syntax of the override. -/
def renderOverride (o : MarshalOverride) : String :=
  "\n"
    ++ "\nfunc (v " ++ o.typeName ++ ") MarshalJSON() ([]byte, error) \x7b"
    ++ "\n\ttype alias " ++ o.typeName
    ++ "\n\ta := struct\x7b"
    ++ (match o.discriminator with
        | some _ => "\n\t\tType string `json:\"type\"`"
        | none => "")
    ++ "\n\t\talias"
    ++ "\n\t\x7d\x7b"
    ++ (match o.discriminator with
        | some t => "\n\t\tType: \"" ++ t ++ "\","
        | none => "")
    ++ "\n\t\talias: (alias)(v),"
    ++ "\n\t\x7d"
    ++ joinAll (o.defaults.map renderDefault)
    ++ "\nreturn json.Marshal(a)"
    ++ "\n\x7d"

/-- Concrete syntax of a struct declaration followed by its override. -/
def renderStruct (s : StructDecl) : String :=
  "\ntype " ++ s.name ++ " struct \x7b" ++ joinAll (s.members.map renderMember) ++ "\n\x7d"
    ++ (match s.override with
        | some o => renderOverride o
        | none => "")

/-- The run-time value of a struct member: a sequence that was never set (nil), a sequence
with its elements, or any other value. -/
inductive Member
  | nilSeq
  | seq (items : List GoVal)
  | plain (x : GoVal)
deriving DecidableEq, Repr

/-- A JSON value as far as the encoder of a struct distinguishes it: `null`, an array of
element texts, a string constant, or the text of any other value. -/
inductive JVal
  | null
  | arr (items : List String)
  | str (s : String)
  | raw (text : String)
deriving DecidableEq, Repr

/-- What `encoding/json` does with the elements of sequences and with the members that are
not sequences: the text it encodes a value to, and the value it decodes a text to. -/
structure Codec where
  enc : GoVal → String
  dec : String → GoVal

/-- Go `json.Marshal` of a member: a nil sequence is `null`, a sequence (empty or not) is an
array. -/
def Member.toJ (c : Codec) : Member → JVal
  | .nilSeq => .null
  | .seq items => .arr (items.map c.enc)
  | .plain x => .raw (c.enc x)

/-- Go `json.Unmarshal` into a member: `null` leaves a sequence nil, an array (empty or not)
gives a non-nil sequence. -/
def Member.ofJ (c : Codec) : JVal → Member
  | .null => .nilSeq
  | .arr items => .seq (items.map c.dec)
  | .str s => .plain (GoVal.str s)
  | .raw text => .plain (c.dec text)

/-- The statement `if a.<goName> == nil { a.<goName> = make(T, 0) }` on the copy `a`. -/
def applyDefault (goName : String) (a : List (String × Member)) : List (String × Member) :=
  a.map (fun p => if p.1 = goName ∧ p.2 = Member.nilSeq then (p.1, Member.seq []) else p)

/-- The nil tests of the override, run in order on the copy `a`. -/
def runDefaults : List (String × String) → List (String × Member) → List (String × Member)
  | [], a => a
  | x :: rest, a => runDefaults rest (applyDefault x.1 a)

/-- Go `json.Marshal` of the fields of a struct: one entry per member, in order, under the
wire name of its tag. -/
def encodeFields (c : Codec) (members : List MemberDecl) (vals : List Member) :
    List (String × JVal) :=
  List.zipWith (fun m x => (m.wire, x.toJ c)) members vals

/-- Encoding of a struct value (its members in declaration order): without override the
fields as they are; with the override the fields of the copy after the nil tests, preceded
by the injected `type` entry, which hides an embedded member of the same wire name. -/
def encodeStruct (c : Codec) (s : StructDecl) (v : List Member) : List (String × JVal) :=
  match s.override with
  | none => encodeFields c s.members v
  | some o =>
    let a := runDefaults o.defaults ((s.members.map (fun m => m.goName)).zip v)
    let fields := encodeFields c s.members (a.map Prod.snd)
    match o.discriminator with
    | none => fields
    | some t => ("type", JVal.str t) :: fields.filter (fun e => e.1 ≠ "type")

/-- Decoding of a JSON object into a struct value that starts as `zero`: each member takes
the entry under its wire name, if there is one. -/
def decodeStruct (c : Codec) (s : StructDecl) (obj : List (String × JVal))
    (zero : List Member) : List Member :=
  List.zipWith (fun m z =>
    match obj.lookup m.wire with
    | some j => Member.ofJ c j
    | none => z) s.members zero

/-! ### Specification of the declaration emitted for a type -/

/-- A field is emitted unless it is the field `type` of a type of the `InputMedia` family. -/
def emitted (t : TypeDescription) (f : TypeFields) : Bool :=
  !(isSubtypeOf t.SubtypeOf "InputMedia" && f.Field == "type")

/-- The first candidate type of a field. -/
def firstType (f : TypeFields) : String := f.Types.headD ""

/-- Specification of the struct member of a field. -/
def memberOf (L : Deps) (d : APIDescription) (f : TypeFields) : MemberDecl :=
  { doc := f.Description,
    goName := L.snakeToTitle f.Field,
    goType :=
      if L.isTgType d.Types (L.toGoTypes (firstType f)) ∧ hasPrefix f.Description "Optional."
      then "*" ++ L.toGoTypes (firstType f) else L.toGoTypes (firstType f),
    wire := f.Field }

/-- The emitted fields whose first candidate type is an array, in declared order. -/
def sequenceFields (L : Deps) (t : TypeDescription) : List TypeFields :=
  (t.Fields.filter (emitted t)).filter (fun f => L.isTgArray (firstType f))

/-- Specification of the override: present exactly when there is a sequence field. -/
def overrideOf (L : Deps) (name : String) (t : TypeDescription) : Option MarshalOverride :=
  if sequenceFields L t = [] then none
  else some
    { typeName := name,
      discriminator :=
        if hasPrefix name "InputMedia" then some (L.ToLower (trimPrefix name "InputMedia"))
        else none,
      defaults := (sequenceFields L t).map
        (fun f => (L.snakeToTitle f.Field, L.toGoTypes (firstType f))) }

/-- Specification of the struct declared for a type with fields. -/
def structOf (L : Deps) (d : APIDescription) (name : String) : StructDecl :=
  { name := name,
    members := ((d.typeOf name).Fields.filter (emitted (d.typeOf name))).map (memberOf L d),
    override := overrideOf L name (d.typeOf name) }

/-- The documentation comments of a type. -/
def docsOf (d : APIDescription) (name : String) : String :=
  typeDocLines (d.typeOf name).Description ++ "\n// " ++ (d.typeOf name).Href

end Legacy

namespace Legacy

/-! ### A concrete instance of the collaborators of the older generator -/

/-- Go type of a wire type name: the primitives, and `Array of T` as `[]T`, nested up to
`fuel` levels. -/
def goTypeOf : Nat → String → String
  | 0, t => t
  | fuel + 1, t =>
      if hasPrefix t "Array of " then "[]" ++ goTypeOf fuel (trimPrefix t "Array of ")
      else if t = "Integer" then "int64"
      else if t = "Float" then "float64"
      else if t = "Boolean" then "bool"
      else if t = "String" then "string"
      else t

/-- Modelled from the spec: the helpers of the older generator that are declared in other
files, in the simplest form the spec allows: a wire array of `T` maps to a sequence of `T`
(section 4.1), the preferred type of a field is its first candidate (section 3), names are
converted from snake case to parameter and member form (section 2). -/
def sampleDeps : Deps where
  toGoType := fun t => goTypeOf 3 t
  toGoTypes := fun t => goTypeOf 3 t
  isTgType := fun types t => (types.lookup t).isSome
  isTgArray := fun t => hasPrefix t "Array of "
  getDefaultReturnVal := fun t => sampleDefaultTypeVal t
  getPreferredType := fun f => f.Types.headD ""
  goTypeStringer := sampleStringer
  snakeToCamel := fun s => String.mk (camelChars false s.data)
  snakeToTitle := fun s => String.mk (camelChars true s.data)
  Title := titleFirst
  ToLower := fun s => String.mk (s.data.map Char.toLower)
  Sprintf := fun fmt arg => String.mk (substFirst fmt.data arg.data)

/-- The marker type of the media family: no fields. -/
def inputMediaType : TypeDescription :=
  { Description := ["This object represents the content of a media message to be sent."],
    Href := "https://core.telegram.org/bots/api#inputmedia", Fields := [], SubtypeOf := [] }

/-- A photo of the media family, with a sequence of caption entities. -/
def inputMediaPhotoType : TypeDescription :=
  { Description := ["Represents a photo to be sent."],
    Href := "https://core.telegram.org/bots/api#inputmediaphoto",
    Fields :=
      [{ Field := "type", Types := ["String"], Description := "Type of the result, must be photo" },
       { Field := "media", Types := ["String"], Description := "File to send" },
       { Field := "caption_entities", Types := ["Array of MessageEntity"],
         Description := "Optional. List of special entities that appear in the caption" }],
    SubtypeOf := ["InputMedia"] }

/-- The same photo type as described before caption entities existed: no sequence field. -/
def inputMediaPhotoOldType : TypeDescription :=
  { Description := ["Represents a photo to be sent."],
    Href := "https://core.telegram.org/bots/api#inputmediaphoto",
    Fields :=
      [{ Field := "type", Types := ["String"], Description := "Type of the result, must be photo" },
       { Field := "media", Types := ["String"], Description := "File to send" },
       { Field := "caption", Types := ["String"], Description := "Optional. Caption of the photo" }],
    SubtypeOf := ["InputMedia"] }

/-- A poll: a plain member and a sequence member. -/
def pollType : TypeDescription :=
  { Description := ["This object contains information about a poll."],
    Href := "https://core.telegram.org/bots/api#poll",
    Fields :=
      [{ Field := "id", Types := ["String"], Description := "Unique poll identifier" },
       { Field := "options", Types := ["Array of PollOption"],
         Description := "List of poll options" }],
    SubtypeOf := [] }

/-- An API description with the media marker, the photo type and the poll type. -/
def mediaAPI : APIDescription :=
  { Types := [("InputMedia", inputMediaType), ("InputMediaPhoto", inputMediaPhotoType),
      ("Poll", pollType)],
    Methods := [] }

/-- A type whose name starts with `InputMedia` but that does not list `InputMedia` in its
subtypeOf set: its field `type` is emitted, next to a sequence field. -/
def inputMediaAudioType : TypeDescription :=
  { Description := ["A type named like the media family without belonging to it."],
    Href := "https://example.org/inputmediaaudio",
    Fields :=
      [{ Field := "type", Types := ["String"], Description := "Kind of the object" },
       { Field := "tags", Types := ["Array of String"], Description := "List of tags" }],
    SubtypeOf := [] }

/-- An API description with that type. -/
def clashAPI : APIDescription :=
  { Types := [("InputMediaAUDIO", inputMediaAudioType)], Methods := [] }

/-- An API description with the photo type in its older form. -/
def oldMediaAPI : APIDescription :=
  { Types := [("InputMedia", inputMediaType), ("InputMediaPhoto", inputMediaPhotoOldType)],
    Methods := [] }

end Legacy

namespace Legacy

/-- Specification of the value the override hands to the encoder for a member: an empty
sequence in place of a nil member that is among the defaulted ones. -/
def defaultedVal (o : MarshalOverride) (m : MemberDecl) (x : Member) : Member :=
  if m.goName ∈ o.defaults.map Prod.fst ∧ x = Member.nilSeq then Member.seq [] else x

/-- The encoder that round-trips the values used in the examples: `null`, the booleans, and
two quoted strings. -/
def sampleCodec : Codec where
  enc := fun x =>
    match x with
    | GoVal.nil => "null"
    | GoVal.bool true => "true"
    | GoVal.bool false => "false"
    | GoVal.str s => "\"" ++ s ++ "\""
    | GoVal.int n => toString n
    | GoVal.other tag => tag
  dec := fun t =>
    if t = "null" then GoVal.nil
    else if t = "true" then GoVal.bool true
    else if t = "false" then GoVal.bool false
    else if t = "\"p1\"" then GoVal.str "p1"
    else if t = "\"yes\"" then GoVal.str "yes"
    else GoVal.other t

end Legacy

namespace Legacy

/-- The values inside a member: the elements of a sequence, or the value itself. -/
def Member.vals : Member → List GoVal
  | .nilSeq => []
  | .seq items => items
  | .plain x => [x]

/-- The library decoder inverts the library encoder on every value inside the members. -/
def Codec.RoundTrips (c : Codec) (v : List Member) : Prop :=
  ∀ m ∈ v, ∀ x ∈ m.vals, c.dec (c.enc x) = x

/-- Specification of the value that comes back from encoding and decoding: with an override,
every defaulted member that was nil is an empty sequence. -/
def normalised (s : StructDecl) (v : List Member) : List Member :=
  match s.override with
  | none => v
  | some o => List.zipWith (defaultedVal o) s.members v

end Legacy

/-! ## The older generator: `scripts/methods.go` -/

namespace Legacy

/-- The data handed to the template `readerBranches`. -/
structure readerBranchesStruct where
  GoParam : String
  DefaultReturn : String
  Parameter : String

/-- The template `readerBranches`, executed. The template is a constant that always parses
and executes, so the panics after `Parse`, `Execute` and `Flush` are unreachable. -/
def readerBranches (x : readerBranchesStruct) : String :=
  "\nif " ++ x.GoParam ++ " != nil \x7b"
    ++ "\n\tif s, ok := " ++ x.GoParam ++ ".(string); ok \x7b"
    ++ "\n\t\tv.Add(\"" ++ x.Parameter ++ "\", s)"
    ++ "\n\t\x7d else if r, ok := " ++ x.GoParam ++ ".(io.Reader); ok \x7b"
    ++ "\n\t\tv.Add(\"" ++ x.Parameter ++ "\", \"attach://" ++ x.Parameter ++ "\")"
    ++ "\n\t\tdata[\"" ++ x.Parameter ++ "\"] = NamedReader\x7bFile: r\x7d"
    ++ "\n\t\x7d else if nf, ok := " ++ x.GoParam ++ ".(NamedReader); ok \x7b"
    ++ "\n\t\tv.Add(\"" ++ x.Parameter ++ "\", \"attach://" ++ x.Parameter ++ "\")"
    ++ "\n\t\tdata[\"" ++ x.Parameter ++ "\"] = nf"
    ++ "\n\t\x7d else \x7b"
    ++ "\n\t\treturn " ++ x.DefaultReturn
    ++ ", fmt.Errorf(\"unknown type for InputFile: %T\"," ++ x.GoParam ++ ")"
    ++ "\n\t\x7d"
    ++ "\n\x7d"
    ++ "\n"

/-- Go `strings.Contains` on characters. -/
def containsChars : List Char → List Char → Bool
  | [], sub => sub.isEmpty
  | c :: cs, sub => sub.isPrefixOf (c :: cs) || containsChars cs sub

/-- Go `strings.Contains`. -/
def containsSub (s sub : String) : Bool := containsChars s.data sub.data

/-- The Go expression that addresses a field: the positional parameter of a required
field, the member of `opts` of an optional one. -/
def goParamOf (L : Deps) (f : MethodFields) : String :=
  if f.Required = false then "opts." ++ L.snakeToTitle f.Name else L.snakeToCamel f.Name

/-- The body of the loop of `methodArgsToValues` for one field: the text it appends, and
whether it sets `hasData`. -/
def fieldValues (L : Deps) (defaultRetVal : String) (f : MethodFields) : String × Bool :=
  let goParam := goParamOf L f
  let fieldType := L.getPreferredType f
  let stringer := L.goTypeStringer (L.toGoType fieldType)
  if stringer ≠ "" then
    ("\nv.Add(\"" ++ f.Name ++ "\", " ++ L.Sprintf stringer goParam ++ ")", false)
  else if fieldType = "InputFile" then
    (readerBranches
      { GoParam := goParam, DefaultReturn := defaultRetVal, Parameter := f.Name }, true)
  else if containsSub fieldType "InputMedia" then
    ((if L.isTgArray fieldType then "\nfor idx, im := range " ++ goParam ++ " \x7b" else "")
      ++ "\n\t" ++ "inputMediaBs" ++ ", err := "
      ++ (if L.isTgArray fieldType then "im" else goParam)
      ++ ".InputMediaParams(\"" ++ f.Name ++ "\""
      ++ (if L.isTgArray fieldType then " + strconv.Itoa(idx)" else "") ++ " , data)"
      ++ "\n\tif err != nil \x7b"
      ++ "\n\t\treturn " ++ defaultRetVal ++ ", fmt.Errorf(\"failed to marshal " ++ f.Name
      ++ ": %w\", err)"
      ++ "\n\t\x7d"
      ++ "\n\tv.Add(\"" ++ f.Name ++ "\", string(" ++ "inputMediaBs" ++ "))"
      ++ (if L.isTgArray fieldType then "\n\x7d" else ""), true)
  else
    ((if L.isTgArray fieldType then "\nif " ++ goParam ++ " != nil \x7b" else "")
      ++ "\n\t" ++ (L.snakeToCamel f.Name ++ "Bs") ++ ", err := json.Marshal(" ++ goParam ++ ")"
      ++ "\n\tif err != nil \x7b"
      ++ "\n\t\treturn " ++ defaultRetVal ++ ", fmt.Errorf(\"failed to marshal " ++ f.Name
      ++ ": %w\", err)"
      ++ "\n\t\x7d"
      ++ "\n\tv.Add(\"" ++ f.Name ++ "\", string(" ++ (L.snakeToCamel f.Name ++ "Bs") ++ "))"
      ++ (if L.isTgArray fieldType then "\n\x7d" else ""), false)

/-- The loop of `methodArgsToValues`. -/
def methodArgsLoop (L : Deps) (defaultRetVal : String) :
    List MethodFields → String × Bool → String × Bool
  | [], st => st
  | f :: rest, st =>
      methodArgsLoop L defaultRetVal rest
        (st.1 ++ (fieldValues L defaultRetVal f).1, st.2 || (fieldValues L defaultRetVal f).2)

/-- The function `methodArgsToValues`. -/
def methodArgsToValues (L : Deps) (method : MethodDescription) (defaultRetVal : String) :
    String × Bool :=
  methodArgsLoop L defaultRetVal method.Fields ("", false)

/-- The function `getRetVarName` of `scripts/methods.go`; slicing `retType[:1]` of an empty
string panics. -/
def getRetVarName (retType : String) : Except GoErr String :=
  match dropBrackets (dropStars retType.data) with
  | [] => .error (.crash "slice bounds out of range [:1] with length 0")
  | c :: _ => .ok (lowerFirst c)

/-- The loop of `getArgs`: the positional parameters and the members of the options struct. -/
def getArgsLoop (L : Deps) : List MethodFields → List String × String → List String × String
  | [], st => st
  | f :: rest, st =>
      let goType := L.toGoType (L.getPreferredType f)
      if f.Required then
        getArgsLoop L rest (st.1 ++ [L.snakeToCamel f.Name ++ " " ++ goType], st.2)
      else
        getArgsLoop L rest (st.1, st.2 ++ "\n// " ++ f.Description
          ++ "\n" ++ (L.snakeToTitle f.Name ++ " " ++ goType))

/-- The function `getArgs` of `scripts/methods.go`. -/
def getArgs (L : Deps) (name : String) (method : MethodDescription) : String × String :=
  let st := getArgsLoop L method.Fields ([], "")
  if st.2.length > 0 then
    (", ".intercalate (st.1 ++ ["opts " ++ (L.snakeToTitle name ++ "Opts")]),
      "\ntype " ++ (L.snakeToTitle name ++ "Opts") ++ " struct \x7b" ++ st.2 ++ "\n\x7d")
  else (", ".intercalate st.1, "")

/-- The function `generateMethodDef` of `scripts/methods.go`; indexing `Returns[0]` of a
method without return type panics, and so does `getRetVarName` on a return type without a
name. -/
def generateMethodDef (L : Deps) (d : APIDescription) (tgMethod : MethodDescription)
    (tgMethodName : String) : Except GoErr String :=
  match tgMethod.Returns with
  | [] => .error (.crash "index out of range [0] with length 0")
  | ret0 :: _ =>
    let retType :=
      if L.isTgType d.Types (L.toGoType ret0) then "*" ++ L.toGoType ret0 else L.toGoType ret0
    let defaultRetVal := L.getDefaultReturnVal retType
    let argsAndStruct := getArgs L tgMethodName tgMethod
    let values := methodArgsToValues L tgMethod defaultRetVal
    match getRetVarName retType with
    | .error e => .error e
    | .ok retVarName =>
      .ok ((if argsAndStruct.2 ≠ "" then "\n" ++ argsAndStruct.2 else "")
        ++ typeDocLines tgMethod.Description
        ++ "\n// " ++ tgMethod.Href
        ++ "\nfunc (bot Bot) " ++ L.Title tgMethodName ++ "(" ++ argsAndStruct.1 ++ ") ("
        ++ retType ++ ", error) \x7b"
        ++ "\n\tv := urlLib.Values\x7b\x7d"
        ++ (if values.2 then "\n\tdata := map[string]NamedReader\x7b\x7d" else "")
        ++ values.1
        ++ "\n"
        ++ (if values.2 then "\nr, err := bot.Post(\"" ++ tgMethodName ++ "\", v, data)"
            else "\nr, err := bot.Get(\"" ++ tgMethodName ++ "\", v)")
        ++ "\n\tif err != nil \x7b"
        ++ "\n\t\treturn " ++ defaultRetVal ++ ", err"
        ++ "\n\t\x7d"
        ++ "\n"
        ++ "\nvar " ++ retVarName ++ " "
        ++ (if hasPrefix retType "*" then String.mk (dropStars retType.data) else retType)
        ++ "\nreturn " ++ (if hasPrefix retType "*" then "&" else "") ++ retVarName
        ++ ", json.Unmarshal(r, &" ++ retVarName ++ ")"
        ++ "\n\x7d")

/-- Go `d.Methods[name]`: a missing key yields the zero value. -/
def APIDescription.methodOf (d : APIDescription) (name : String) : MethodDescription :=
  match d.Methods.lookup name with
  | some m => m
  | none => { Fields := [], Returns := [], Description := [], Href := "" }

/-- Go `sort.Strings`: ascending lexicographic order. -/
def sortStrings (keys : List String) : List String :=
  keys.insertionSort (fun a b => a ≤ b)

/-- The text `generateMethods` starts the file with. -/
def methodsFileHeader : String :=
  "\n// THIS FILE IS AUTOGENERATED. DO NOT EDIT.\n// Regen by running 'go generate' in the repo root.\n\npackage gen\nimport (\n\turlLib \"net/url\" // renamed to avoid clashes with url vars\n\t\"encoding/json\"\n\t\"strconv\"\n\t\"fmt\"\n\t\"io\"\n)\n"

/-- The text `generateTypes` starts the file with. -/
def typesFileHeader : String :=
  "\n// THIS FILE IS AUTOGENERATED. DO NOT EDIT.\n// Regen by running 'go generate' in the repo root.\n\npackage gen\n\nimport \"encoding/json\"\n\n"

/-- The second loop of `generateMethods`: the definition of each method, in the given
order, appended to the file. -/
def methodDefsLoop (L : Deps) (d : APIDescription) : List String → String → Except GoErr String
  | [], file => .ok file
  | tgMethodName :: rest, file =>
      match generateMethodDef L d (d.methodOf tgMethodName) tgMethodName with
      | .error e => .error e
      | .ok text => methodDefsLoop L d rest (file ++ text)

/-- The second loop of `generateTypes`: the definition of each type, in the given order,
appended to the file. -/
def typeDefsLoop (L : Deps) (d : APIDescription) : List String → String → Except GoErr String
  | [], file => .ok file
  | tgTypeName :: rest, file =>
      match generateTypeDef L d tgTypeName with
      | .error e => .error e
      | .ok text => typeDefsLoop L d rest (file ++ text)

/-- The function `generateMethods` of `scripts/methods.go`. The list `keys` is the order in
which `range d.Methods` yields the method names, which Go leaves unspecified. The helper
`writeGenToFile` is declared in another file of the package and is a parameter. -/
def generateMethods (L : Deps) (writeGenToFile : String → String → Option GoErr)
    (d : APIDescription) (keys : List String) : GenRun :=
  match methodDefsLoop L d (sortStrings keys) methodsFileHeader with
  | .error e => { writes := [], result := some e }
  | .ok file =>
    { writes := [(file, "gen/gen_methods.go")],
      result := writeGenToFile file "gen/gen_methods.go" }

/-- The function `generateTypes`. The list `keys` is the order in which `range d.Types`
yields the type names, which Go leaves unspecified. -/
def generateTypes (L : Deps) (writeGenToFile : String → String → Option GoErr)
    (d : APIDescription) (keys : List String) : GenRun :=
  match typeDefsLoop L d (sortStrings keys) typesFileHeader with
  | .error e => { writes := [], result := some e }
  | .ok file =>
    { writes := [(file, "gen/gen_types.go")],
      result := writeGenToFile file "gen/gen_types.go" }

end Legacy

namespace Legacy

/-! ### The emitted file-reference encoding: syntax, printer, interpreter -/

/-- The value handed to `v.Add`: the asserted string `s`, or a string constant. -/
inductive FileArg
  | theString
  | token (text : String)
deriving DecidableEq, Repr

/-- The part stored in `data`: the asserted reader wrapped in a `NamedReader`, or the
asserted named reader itself. -/
inductive PartExpr
  | wrapReader
  | theNamed
deriving DecidableEq, Repr

/-- Statements inside a branch of the type switch. -/
inductive FileStmt
  | addParam (key : String) (value : FileArg)
  | setPart (key : String) (part : PartExpr)
  | failUnknown (dflt param : String)
deriving DecidableEq, Repr

/-- The nil test around the chain of type assertions on `param`: string, `io.Reader`,
`NamedReader`, anything else. -/
structure FileSwitch where
  param : String
  onString : List FileStmt
  onReader : List FileStmt
  onNamed : List FileStmt
  otherwise : List FileStmt
deriving DecidableEq, Repr

/-- Concrete syntax of a statement of a branch. -/
def renderFileStmt : FileStmt → String
  | .addParam key .theString => "\n\t\tv.Add(\"" ++ key ++ "\", s)"
  | .addParam key (.token t) => "\n\t\tv.Add(\"" ++ key ++ "\", \"" ++ t ++ "\")"
  | .setPart key .wrapReader => "\n\t\tdata[\"" ++ key ++ "\"] = NamedReader\x7bFile: r\x7d"
  | .setPart key .theNamed => "\n\t\tdata[\"" ++ key ++ "\"] = nf"
  | .failUnknown dflt param =>
      "\n\t\treturn " ++ dflt ++ ", fmt.Errorf(\"unknown type for InputFile: %T\","
        ++ param ++ ")"

/-- Concrete syntax of the type switch, with the line break that ends the template. -/
def renderFileSwitch (w : FileSwitch) : String :=
  "\nif " ++ w.param ++ " != nil \x7b"
    ++ "\n\tif s, ok := " ++ w.param ++ ".(string); ok \x7b"
    ++ joinAll (w.onString.map renderFileStmt)
    ++ "\n\t\x7d else if r, ok := " ++ w.param ++ ".(io.Reader); ok \x7b"
    ++ joinAll (w.onReader.map renderFileStmt)
    ++ "\n\t\x7d else if nf, ok := " ++ w.param ++ ".(NamedReader); ok \x7b"
    ++ joinAll (w.onNamed.map renderFileStmt)
    ++ "\n\t\x7d else \x7b"
    ++ joinAll (w.otherwise.map renderFileStmt)
    ++ "\n\t\x7d"
    ++ "\n\x7d"
    ++ "\n"

/-- A non-nil, non-string run-time value: which of the two assertions on it succeed, the
name of its dynamic type as `%T` prints it, and the stream it stands for. -/
structure DynVal where
  isReader : Bool
  isNamed : Bool
  typeName : String
  stream : String
deriving DecidableEq, Repr

/-- The run-time value of a file-reference parameter. -/
inductive FileVal
  | nil
  | str (s : String)
  | dyn (x : DynVal)
deriving DecidableEq, Repr

/-- A registered part: a reader wrapped in a fresh `NamedReader`, or a named reader as it
was handed in. -/
inductive Part
  | wrapped (stream : String)
  | named (stream : String)
deriving DecidableEq, Repr

/-- The request under assembly: the values `v` (in the order of the `Add` calls) and the
parts collection `data`. -/
structure FileFrame where
  v : List (String × String)
  data : List (String × Part)
deriving DecidableEq, Repr

/-- Outcome of the encoding: still running, or returned with the default value and an
error message. -/
inductive FileFlow
  | running (fr : FileFrame)
  | returned (defaults : String) (err : String)
deriving DecidableEq, Repr

/-- Go map assignment `data[key] = part`. -/
def setKey (key : String) (part : Part) : List (String × Part) → List (String × Part)
  | [] => [(key, part)]
  | (k, p) :: rest => if k = key then (key, part) :: rest else (k, p) :: setKey key part rest

/-- The dynamic type name `%T` prints for a value. -/
def FileVal.typeName : FileVal → String
  | .nil => "<nil>"
  | .str _ => "string"
  | .dyn x => x.typeName

/-- Execution of a statement of a branch, for the run-time value `x` of the parameter. -/
def execFileStmt (x : FileVal) : FileStmt → FileFrame → FileFlow
  | .addParam key .theString, fr =>
      match x with
      | .str s => .running { fr with v := fr.v ++ [(key, s)] }
      | _ => .running { fr with v := fr.v ++ [(key, "")] }
  | .addParam key (.token t), fr => .running { fr with v := fr.v ++ [(key, t)] }
  | .setPart key .wrapReader, fr =>
      match x with
      | .dyn y => .running { fr with data := setKey key (Part.wrapped y.stream) fr.data }
      | _ => .running fr
  | .setPart key .theNamed, fr =>
      match x with
      | .dyn y => .running { fr with data := setKey key (Part.named y.stream) fr.data }
      | _ => .running fr
  | .failUnknown dflt _, _ => .returned dflt ("unknown type for InputFile: " ++ x.typeName)

/-- Execution of the statements of a branch. -/
def execFileList (x : FileVal) : List FileStmt → FileFrame → FileFlow
  | [], fr => .running fr
  | s :: rest, fr =>
      match execFileStmt x s fr with
      | .running fr1 => execFileList x rest fr1
      | .returned dflt e => .returned dflt e

/-- Execution of the type switch: nothing for nil, otherwise the first branch whose
assertion succeeds. -/
def execFileSwitch (w : FileSwitch) (x : FileVal) (fr : FileFrame) : FileFlow :=
  match x with
  | .nil => .running fr
  | .str _ => execFileList x w.onString fr
  | .dyn y =>
      if y.isReader then execFileList x w.onReader fr
      else if y.isNamed then execFileList x w.onNamed fr
      else execFileList x w.otherwise fr

/-- Syntax tree of the file-reference encoding of the field with wire name `key`. -/
def fileSwitch (goParam dflt key : String) : FileSwitch :=
  { param := goParam,
    onString := [.addParam key .theString],
    onReader := [.addParam key (.token ("attach://" ++ key)), .setPart key .wrapReader],
    onNamed := [.addParam key (.token ("attach://" ++ key)), .setPart key .theNamed],
    otherwise := [.failUnknown dflt goParam] }

/-- A required file-reference field. -/
def photoField : MethodFields :=
  { Name := "photo", Types := ["InputFile", "String"], Required := true,
    Description := "Photo to send" }

/-- A request in which nothing has been written yet. -/
def emptyFileFrame : FileFrame := { v := [], data := [] }

end Legacy

namespace Legacy

/-- The text of a type definition that compiles. -/
def typeText (L : Deps) (d : APIDescription) (name : String) : String :=
  match generateTypeDef L d name with
  | .ok text => text
  | .error _ => ""

/-- The text of a method definition that compiles. -/
def methodDefText (L : Deps) (d : APIDescription) (name : String) : String :=
  match generateMethodDef L d (d.methodOf name) name with
  | .ok text => text
  | .error _ => ""

/-- A method of the older description: send a photo. -/
def sendPhotoMethod : MethodDescription :=
  { Fields := [{ Name := "chat_id", Types := ["Integer"], Required := true,
                 Description := "Unique identifier for the target chat" }, photoField],
    Returns := ["Message"], Description := ["Use this method to send photos."],
    Href := "https://core.telegram.org/bots/api#sendphoto" }

/-- A method of the older description without fields. -/
def getMeMethod : MethodDescription :=
  { Fields := [], Returns := ["User"],
    Description := ["A simple method for testing your bot's auth token."],
    Href := "https://core.telegram.org/bots/api#getme" }

/-- An API description with two methods and three types. -/
def botAPI : APIDescription :=
  { Types := mediaAPI.Types,
    Methods := [("sendPhoto", sendPhotoMethod), ("getMe", getMeMethod)] }

end Legacy

/-! ## The emitted media encodings: syntax, printer, interpreter -/

/-- One piece of the format of an emitted `fmt.Errorf`: literal text (free of verbs), the
verb `%d` with its operand `idx`, or the verb `%w` with its operand `err`. -/
inductive FmtPart
  | lit (text : String)
  | index
  | cause
deriving DecidableEq, Repr

/-- The format string of an emitted `fmt.Errorf`. -/
def fmtText : List FmtPart → String
  | [] => ""
  | .lit t :: rest => t ++ fmtText rest
  | .index :: rest => "%d" ++ fmtText rest
  | .cause :: rest => "%w" ++ fmtText rest

/-- The operands of an emitted `fmt.Errorf`, one per verb, in order. -/
def fmtArgs : List FmtPart → String
  | [] => ""
  | .lit _ :: rest => fmtArgs rest
  | .index :: rest => ", idx" ++ fmtArgs rest
  | .cause :: rest => ", err" ++ fmtArgs rest

/-- Statements of the emitted media encodings. -/
inductive MediaStmt
  | declRawList
  | callParams (recv key : String) (indexed : Bool)
  | appendRaw
  | marshalRaw
  | setParamMedia (key : String)
  | setParamBs (key : String)
  | failFmt (defaults : String) (fmt : List FmtPart)
  | ifErr (body : List MediaStmt)
  | ifSet (expr : String) (body : List MediaStmt)
  | forRange (expr : String) (body : List MediaStmt)
deriving Repr

mutual
/-- Concrete syntax of a media statement at indentation `i`, each line preceded by a line
break. -/
def renderMedia (i : Nat) : MediaStmt → String
  | .declRawList => "\n" ++ tabs i ++ "var rawList []json.RawMessage"
  | .callParams recv key indexed =>
      "\n" ++ tabs i ++ "inputMediaBs, err := " ++ recv ++ ".InputMediaParams(\"" ++ key
        ++ (if indexed then "\" + strconv.Itoa(idx), data)" else "\" , data)")
  | .appendRaw => "\n" ++ tabs i ++ "rawList = append(rawList, inputMediaBs)"
  | .marshalRaw => "\n" ++ tabs i ++ "bs, err := json.Marshal(rawList)"
  | .setParamMedia k => "\n" ++ tabs i ++ "v[\"" ++ k ++ "\"] = string(inputMediaBs)"
  | .setParamBs k => "\n" ++ tabs i ++ "v[\"" ++ k ++ "\"] = string(bs)"
  | .failFmt dflt fmt =>
      "\n" ++ tabs i ++ "return " ++ dflt ++ ", fmt.Errorf(\"" ++ fmtText fmt ++ "\""
        ++ fmtArgs fmt ++ ")"
  | .ifErr body =>
      "\n" ++ tabs i ++ "if err != nil \x7b" ++ renderMediaList (i + 1) body
        ++ "\n" ++ tabs i ++ "\x7d"
  | .ifSet e body =>
      "\n" ++ tabs i ++ "if " ++ e ++ " != nil \x7b" ++ renderMediaList (i + 1) body
        ++ "\n" ++ tabs i ++ "\x7d"
  | .forRange e body =>
      "\n" ++ tabs i ++ "for idx, im := range " ++ e ++ " \x7b"
        ++ renderMediaList (i + 1) body ++ "\n" ++ tabs i ++ "\x7d"
/-- Concrete syntax of a list of media statements. -/
def renderMediaList (i : Nat) : List MediaStmt → String
  | [] => ""
  | s :: rest => renderMedia i s ++ renderMediaList i rest
end

/-- The caller's side of a generated operation with media fields. The method
`InputMediaParams` of the media values is declared in the library, not in the generator, and
is a parameter: from the name under which the value is to register its binary parts it
yields the JSON fragment and the registered parts (name and content), or an error. -/
structure MediaScope where
  /-- Value of an expression of the media family type. -/
  val : String → GoVal
  /-- Value of an expression of type sequence of media: `none` is the nil sequence. -/
  elems : String → Option (List GoVal)
  /-- The method `InputMediaParams` of a media value that is not nil. -/
  InputMediaParams : GoVal → String → Except String (String × List (String × String))
  /-- Go `json.Marshal` on a sequence of raw JSON fragments that is not empty. -/
  encRaw : List String → Except String String

/-- The local state of a generated operation while it encodes media: the parameter map `v`
and the parts collection `data` (latest write first), the variables `rawList`,
`inputMediaBs`, `bs` and `err`, and the loop variables `idx` and `im` while a loop runs. -/
structure MediaFrame where
  v : List (String × String)
  data : List (String × String)
  rawList : List String
  inputMediaBs : String
  bs : String
  err : Option String
  loop : Option (Nat × GoVal)
deriving DecidableEq, Repr

/-- Outcome of running media statements: still running, returned with the default values
and an error message, or crashed with a run-time panic (a method called on a nil value). -/
inductive MediaFlow
  | running (fr : MediaFrame)
  | returned (defaults : String) (err : String)
  | crashed
deriving DecidableEq, Repr

/-- Go `strconv.Itoa` on a slice index, which is never negative: the decimal rendering. -/
def Itoa (idx : Nat) : String := Nat.repr idx

/-- The message `fmt.Errorf` builds: literal text stays, `%d` becomes the decimal index, `%w`
becomes the message of the wrapped error. -/
def fmtMessage (idx : Nat) (err : String) : List FmtPart → String
  | [] => ""
  | .lit t :: rest => t ++ fmtMessage idx err rest
  | .index :: rest => Itoa idx ++ fmtMessage idx err rest
  | .cause :: rest => err ++ fmtMessage idx err rest

/-- The loop index in scope, `0` outside a loop. -/
def MediaFrame.idx (fr : MediaFrame) : Nat :=
  match fr.loop with
  | some (i, _) => i
  | none => 0

/-- The receiver of a call: inside a loop the name `im` is the current element, any other
expression is looked up in the caller's scope. -/
def receiver (ρ : MediaScope) (fr : MediaFrame) (recv : String) : GoVal :=
  match fr.loop with
  | some (_, im) => if recv = "im" then im else ρ.val recv
  | none => ρ.val recv

/-- Go `json.Marshal(rawList)`: the nil sequence, to which nothing was appended, encodes as
the text `null` without error. -/
def marshalRawList (ρ : MediaScope) (rawList : List String) : Except String String :=
  if rawList = [] then .ok "null" else ρ.encRaw rawList

/-- One round of a `for idx, im := range` loop: the body runs with the loop variables bound
to the next index and element, unless the operation has already ended. -/
def rangeStep (run : MediaFrame → MediaFlow) (flow : MediaFlow) (p : Nat × GoVal) : MediaFlow :=
  match flow with
  | .running fr1 => run { fr1 with loop := some p }
  | other => other

/-- The end of a loop: the loop variables go out of scope. -/
def endLoop (outer : MediaFrame) : MediaFlow → MediaFlow
  | .running fr2 => .running { fr2 with loop := outer.loop }
  | other => other

mutual
/-- Execution of one media statement. -/
def execMedia (ρ : MediaScope) : MediaStmt → MediaFrame → MediaFlow
  | .declRawList, fr => .running { fr with rawList := [] }
  | .callParams recv key indexed, fr =>
      if receiver ρ fr recv = GoVal.nil then .crashed
      else
        match ρ.InputMediaParams (receiver ρ fr recv)
            (if indexed then key ++ Itoa fr.idx else key) with
        | .ok (bs, parts) =>
            .running { fr with inputMediaBs := bs, err := none,
                               data := parts.reverse ++ fr.data }
        | .error e => .running { fr with inputMediaBs := "", err := some e }
  | .appendRaw, fr => .running { fr with rawList := fr.rawList ++ [fr.inputMediaBs] }
  | .marshalRaw, fr =>
      match marshalRawList ρ fr.rawList with
      | .ok s => .running { fr with bs := s, err := none }
      | .error e => .running { fr with bs := "", err := some e }
  | .setParamMedia k, fr => .running { fr with v := (k, fr.inputMediaBs) :: fr.v }
  | .setParamBs k, fr => .running { fr with v := (k, fr.bs) :: fr.v }
  | .failFmt dflt fmt, fr =>
      .returned dflt (fmtMessage fr.idx (fr.err.getD "%!w(<nil>)") fmt)
  | .ifErr body, fr => if fr.err.isSome then execMediaList ρ body fr else .running fr
  | .ifSet e body, fr => if (ρ.elems e).isSome then execMediaList ρ body fr else .running fr
  | .forRange e body, fr =>
      match ρ.elems e with
      | none => .running fr
      | some xs =>
        endLoop fr (xs.enum.foldl (rangeStep (fun fr1 => execMediaList ρ body fr1))
          (.running fr))
/-- Execution of a list of media statements; a `return` or a panic ends it. -/
def execMediaList (ρ : MediaScope) : List MediaStmt → MediaFrame → MediaFlow
  | [], fr => .running fr
  | s :: rest, fr =>
      match execMedia ρ s fr with
      | .running fr1 => execMediaList ρ rest fr1
      | other => other
end

/-- Syntax tree of the single-media encoding. -/
def mediaSingle (goParam dflt key : String) : List MediaStmt :=
  [.callParams goParam key false,
   .ifErr [.failFmt dflt [.lit ("failed to marshal field " ++ key ++ ": "), .cause]],
   .setParamMedia key]

/-- Syntax tree of the loop body of the sequence-of-media encoding. -/
def mediaLoopBody (dflt key : String) : List MediaStmt :=
  [.callParams "im" key true,
   .ifErr [.failFmt dflt [FmtPart.lit "failed to marshal InputMedia list item ", FmtPart.index,
                          FmtPart.lit (" for field " ++ key ++ ": "), FmtPart.cause]],
   .appendRaw]

/-- Syntax tree of the sequence-of-media encoding. -/
def mediaList (goParam dflt key : String) : MediaStmt :=
  .ifSet goParam
    [.declRawList,
     .forRange goParam (mediaLoopBody dflt key),
     .marshalRaw,
     .ifErr [.failFmt dflt
       [.lit ("failed to marshal raw json list of InputMedia for field: " ++ key ++ " "),
        .cause]],
     .setParamBs key]

/-! ## Specification-side notions for the failure paths and the media sequence -/

mutual
/-- The bodies of the `if err != nil` blocks of a media statement, in textual order. -/
def failureBlocks : MediaStmt → List (List MediaStmt)
  | .ifErr body => body :: failureBlocksList body
  | .ifSet _ body => failureBlocksList body
  | .forRange _ body => failureBlocksList body
  | .declRawList => []
  | .callParams _ _ _ => []
  | .appendRaw => []
  | .marshalRaw => []
  | .setParamMedia _ => []
  | .setParamBs _ => []
  | .failFmt _ _ => []
/-- The bodies of the `if err != nil` blocks of a list of media statements. -/
def failureBlocksList : List MediaStmt → List (List MediaStmt)
  | [] => []
  | s :: rest => failureBlocks s ++ failureBlocksList rest
end

mutual
/-- The bodies of the `if err != nil` blocks of a statement of the scalar and generic
encodings, in textual order. -/
def errBlocks : Stmt → List (List Stmt)
  | .ifThen c body => (if c = Cond.errSet then [body] else []) ++ errBlocksList body
  | .comment _ => []
  | .setParam _ _ => []
  | .setParamBs _ => []
  | .marshal _ => []
  | .failWith _ _ => []
/-- The bodies of the `if err != nil` blocks of a statement list. -/
def errBlocksList : List Stmt → List (List Stmt)
  | [] => []
  | s :: rest => errBlocks s ++ errBlocksList rest
end

/-- A failure block of a media encoding that reports the field: a single `return` of the
default values `dflt` together with an `fmt.Errorf` whose literal text contains the wire name
`key` and whose last verb is `%w`, applied to `err`. -/
def IsFieldFailure (dflt key : String) (block : List MediaStmt) : Prop :=
  ∃ fmt : List FmtPart, block = [MediaStmt.failFmt dflt fmt]
    ∧ fmt.getLast? = some FmtPart.cause
    ∧ ∃ pre post : String, FmtPart.lit (pre ++ key ++ post) ∈ fmt

/-- A failure block of the generic encoding that reports the field: a single `return` of the
default values `dflt` together with an `fmt.Errorf` whose text contains the wire name `key`
and ends in `: %w`, applied to `err`. -/
def IsFieldFailureStmt (dflt key : String) (block : List Stmt) : Prop :=
  ∃ pre post : String, block = [Stmt.failWith dflt (pre ++ key ++ post)]

/-- Specification of the single-media encoding: the value registers its parts under the wire
name; its fragment is written under the wire name, its failure ends the operation with the
default values and an error that names the field. -/
def mediaSingleOutcome (ρ : MediaScope) (goParam dflt key : String) (fr : MediaFrame) :
    MediaFlow :=
  if receiver ρ fr goParam = GoVal.nil then .crashed
  else
    match ρ.InputMediaParams (receiver ρ fr goParam) key with
    | .ok (bs, parts) =>
        .running { fr with v := (key, bs) :: fr.v, inputMediaBs := bs, err := none,
                           data := parts.reverse ++ fr.data }
    | .error e => .returned dflt ("failed to marshal field " ++ key ++ ": " ++ e)

/-- Specification of the loop over a media sequence, from index `i` on: the element at index
`i` registers its parts under the wire name followed by the decimal rendering of `i`, and its
fragment is collected; the first element that fails ends the operation with the default
values and an error that names the index and the field. -/
def collectMedia (ρ : MediaScope) (dflt key : String) :
    List GoVal → Nat → MediaFrame → MediaFlow
  | [], _, fr => .running fr
  | x :: rest, i, fr =>
      if x = GoVal.nil then .crashed
      else
        match ρ.InputMediaParams x (key ++ Itoa i) with
        | .ok (bs, parts) =>
            collectMedia ρ dflt key rest (i + 1)
              { fr with inputMediaBs := bs, err := none, data := parts.reverse ++ fr.data,
                        rawList := fr.rawList ++ [bs], loop := some (i, x) }
        | .error e =>
            .returned dflt ("failed to marshal InputMedia list item " ++ Itoa i
              ++ " for field " ++ key ++ ": " ++ e)

/-- Specification of the sequence-of-media encoding: an absent sequence contributes nothing;
otherwise the fragments of the elements are collected, serialised as one JSON array and
written under the wire name, and a failure of that serialisation ends the operation with the
default values and an error that names the field. -/
def mediaListOutcome (ρ : MediaScope) (goParam dflt key : String) (fr : MediaFrame) :
    MediaFlow :=
  match ρ.elems goParam with
  | none => .running fr
  | some xs =>
    match collectMedia ρ dflt key xs 0 { fr with rawList := [] } with
    | .running fr2 =>
        (match marshalRawList ρ fr2.rawList with
         | .ok s =>
             .running { fr2 with loop := fr.loop, bs := s, err := none, v := (key, s) :: fr2.v }
         | .error e =>
             .returned dflt ("failed to marshal raw json list of InputMedia for field: "
               ++ key ++ " " ++ e))
    | other => other

/-- The names under which the elements of a media sequence of length `n` are asked to
register their parts: the wire name followed by each index. -/
def partNames (key : String) (n : Nat) : List String :=
  (List.range n).map (fun i => key ++ Itoa i)

/-- Value of a decimal digit character. -/
def digitVal (c : Char) : Nat := c.toNat - '0'.toNat

/-- The number a list of decimal digits denotes, most significant digit first. -/
def parseDigits (cs : List Char) : Nat := cs.foldl (fun acc c => acc * 10 + digitVal c) 0

/-- A required single media field. -/
def singleMediaField : Field :=
  { Name := "media", Types := ["InputMedia"], Required := true,
    Description := "A JSON-serialized object for a new media content of the message" }

/-- A sample `InputMediaParams`: an upload (`other`) yields a fragment that refers to the
part it registers under the given name; a string is an identifier that registers nothing;
any other value fails. -/
def sampleMediaParams (x : GoVal) (name : String) :
    Except String (String × List (String × String)) :=
  match x with
  | .other tag =>
      .ok ("\x7b\"type\":\"" ++ tag ++ "\",\"media\":\"attach://" ++ name ++ "\"\x7d",
        [(name, tag ++ " bytes")])
  | .str s => .ok (s, [])
  | _ => .error "unsupported media"

/-- A caller scope in which `media` is one upload, or an album of two uploads. -/
def albumScope : MediaScope where
  val := fun e => if e = "media" then GoVal.other "photo" else GoVal.nil
  elems := fun e =>
    if e = "media" then some [GoVal.other "photo", GoVal.other "video"] else none
  InputMediaParams := sampleMediaParams
  encRaw := fun frags => .ok ("[" ++ ",".intercalate frags ++ "]")

/-- A caller scope in which `media` is a value that cannot be serialised, or an album whose
second element cannot be serialised. -/
def brokenScope : MediaScope where
  val := fun e => if e = "media" then GoVal.bool true else GoVal.nil
  elems := fun e =>
    if e = "media" then some [GoVal.other "photo", GoVal.bool true] else none
  InputMediaParams := sampleMediaParams
  encRaw := fun frags => .ok ("[" ++ ",".intercalate frags ++ "]")

/-- The state at the start of a media encoding. -/
def emptyMediaFrame : MediaFrame :=
  { v := [], data := [], rawList := [], inputMediaBs := "", bs := "", err := none,
    loop := none }

/-! ## Where the emitted text addresses the options aggregate -/

/-- A piece of the text `generateValue` emits for a field: text the generator writes itself,
the expression that addresses the value (`goParam`), a stringer applied to that expression,
or data of the description spliced into the text (the wire name inside a string literal, a
default value, a flag). -/
inductive Piece
  | lit (text : String)
  | param
  | conv (stringer : String)
  | data (text : String)
deriving DecidableEq, Repr

/-- The text of a list of pieces for a given addressing expression. -/
def instantiate (D : Deps) (goParam : String) : List Piece → String
  | [] => ""
  | .lit t :: rest => t ++ instantiate D goParam rest
  | .param :: rest => goParam ++ instantiate D goParam rest
  | .conv s :: rest => D.Sprintf s goParam ++ instantiate D goParam rest
  | .data t :: rest => t ++ instantiate D goParam rest

/-- The pieces of `addURLParam`. -/
def urlParamPieces (f : Field) (stringer : String) : List Piece :=
  [.lit "v[\"", .data f.Name, .lit "\"] = ", .conv stringer]

/-- The text `generateValue` emits for a field of preferred type `fieldType`, cut into
pieces, branch by branch. -/
def encodingTemplate (D : Deps) (d : APIDescription) (methodName : String) (f : Field)
    (fieldType defaultRetVal : String) : List Piece :=
  let stringer := D.goTypeStringer fieldType
  if stringer ≠ "" then
    if f.Required = false then
      if fieldType = "int64" ∨ fieldType = "float64" then
        if methodName = "sendPoll" ∧ f.Name = "correct_option_id" then
          [Piece.lit "\nif opts.Type == \"quiz\" \x7b",
           Piece.lit "\n\t// correct_option_id should always be set when the type is \"quiz\" - it doesnt need to be set for type \"regular\".",
           Piece.lit "\n\t"] ++ urlParamPieces f stringer ++ [Piece.lit "\n\x7d"]
        else
          [Piece.lit "\nif ", Piece.param, Piece.lit " != ",
           Piece.data (D.getDefaultTypeVal d fieldType), Piece.lit " \x7b", Piece.lit "\n\t"]
            ++ urlParamPieces f stringer ++ [Piece.lit "\n\x7d"]
      else if methodName = "editForumTopic" ∧ f.Name = "icon_custom_emoji_id" then
        [Piece.lit "\n// icon_custom_emoji_id has different behaviour if it's empty, or if it's unspecified; so we need to handle that.",
         Piece.lit "\nif ", Piece.param, Piece.lit " != nil \x7b", Piece.lit "\n\tv[\"",
         Piece.data f.Name, Piece.lit "\"] = ",
         Piece.conv (D.goTypeStringer ("*" ++ fieldType)), Piece.lit "\n\x7d"]
      else
        [Piece.lit "\n"] ++ urlParamPieces f stringer
    else
      [Piece.lit "\n"] ++ urlParamPieces f stringer
  else if fieldType = tgTypeInputFile then
    [Piece.lit "\nif ", Piece.param, Piece.lit " != nil \x7b",
     Piece.lit "\n\terr := attachFile(\"", Piece.data f.Name, Piece.lit "\", ", Piece.param,
     Piece.lit ", v, data, ", Piece.data (boolText (decide (f.Types.length > 1))), Piece.lit ")",
     Piece.lit "\n\tif err != nil \x7b", Piece.lit "\n\t\treturn ", Piece.data defaultRetVal,
     Piece.lit ", fmt.Errorf(\"failed to attach file: %w\", err)", Piece.lit "\n\t\x7d",
     Piece.lit "\n\x7d"]
  else if fieldType = tgTypeInputMedia then
    [Piece.lit "\ninputMediaBs, err := ", Piece.param, Piece.lit ".InputMediaParams(\"",
     Piece.data f.Name, Piece.lit "\" , data)", Piece.lit "\nif err != nil \x7b",
     Piece.lit "\n\treturn ", Piece.data defaultRetVal,
     Piece.lit ", fmt.Errorf(\"failed to marshal field ", Piece.data f.Name,
     Piece.lit ": %w\", err)", Piece.lit "\n\x7d", Piece.lit "\nv[\"", Piece.data f.Name,
     Piece.lit "\"] = string(inputMediaBs)"]
  else if fieldType = "[]" ++ tgTypeInputMedia then
    [Piece.lit "\nif ", Piece.param, Piece.lit " != nil \x7b",
     Piece.lit "\n\tvar rawList []json.RawMessage",
     Piece.lit "\n\tfor idx, im := range ", Piece.param, Piece.lit " \x7b",
     Piece.lit "\n\t\tinputMediaBs, err := im.InputMediaParams(\"", Piece.data f.Name,
     Piece.lit "\" + strconv.Itoa(idx), data)", Piece.lit "\n\t\tif err != nil \x7b",
     Piece.lit "\n\t\t\treturn ", Piece.data defaultRetVal,
     Piece.lit ", fmt.Errorf(\"failed to marshal InputMedia list item %d for field ",
     Piece.data f.Name, Piece.lit ": %w\", idx, err)", Piece.lit "\n\t\t\x7d",
     Piece.lit "\n\t\trawList = append(rawList, inputMediaBs)", Piece.lit "\n\t\x7d",
     Piece.lit "\n\tbs, err := json.Marshal(rawList)", Piece.lit "\n\tif err != nil \x7b",
     Piece.lit "\n\t\treturn ", Piece.data defaultRetVal,
     Piece.lit ", fmt.Errorf(\"failed to marshal raw json list of InputMedia for field: ",
     Piece.data f.Name, Piece.lit " %w\", err)", Piece.lit "\n\t\x7d", Piece.lit "\n\tv[\"",
     Piece.data f.Name, Piece.lit "\"] = string(bs)", Piece.lit "\n\x7d"]
  else
    (if (isArray fieldType || fieldType == tgTypeReplyMarkup) = true
      then [Piece.lit "\nif ", Piece.param, Piece.lit " != nil \x7b"] else [])
    ++ [Piece.lit "\n\tbs, err := json.Marshal(", Piece.param, Piece.lit ")",
        Piece.lit "\n\tif err != nil \x7b", Piece.lit "\n\t\treturn ", Piece.data defaultRetVal,
        Piece.lit ", fmt.Errorf(\"failed to marshal field ", Piece.data f.Name,
        Piece.lit ": %w\", err)", Piece.lit "\n\t\x7d", Piece.lit "\n\tv[\"", Piece.data f.Name,
        Piece.lit "\"] = string(bs)"]
    ++ (if (isArray fieldType || fieldType == tgTypeReplyMarkup) = true
      then [Piece.lit "\n\x7d"] else [])

/-- The condition under which `generateValue` takes its `sendPoll` branch, whose text tests
`opts.Type`. -/
def takesQuizBranch (D : Deps) (methodName : String) (f : Field) : Bool :=
  match D.getPreferredType f with
  | .error _ => false
  | .ok fieldType =>
    decide (D.goTypeStringer fieldType ≠ "" ∧ f.Required = false
      ∧ (fieldType = "int64" ∨ fieldType = "float64")
      ∧ methodName = "sendPoll" ∧ f.Name = "correct_option_id")

/-- The literal pieces of a template, in order. -/
def literals : List Piece → List String
  | [] => []
  | .lit t :: rest => t :: literals rest
  | .param :: rest => literals rest
  | .conv _ :: rest => literals rest
  | .data _ :: rest => literals rest

/-- Whether some text the generator writes itself mentions `opts`. -/
def mentionsOpts (tpl : List Piece) : Bool :=
  (literals tpl).any (fun s => Legacy.containsSub s "opts")

/-- A read of the options aggregate `opts` in a generated method body: the member that
addresses an optional field, the member `Type` tested by the `sendPoll` branch, or the member
`RequestOpts`. -/
inductive OptsRead
  | member (expr : String)
  | pollType
  | requestOpts
deriving DecidableEq, Repr

/-- The reads of `opts` a piece stands for: the addressing expression and a stringer applied
to it read the member when the field is addressed through `opts` (`member` is then the
expression); literal text that mentions `opts` is the test of `opts.Type`; spliced data reads
nothing. -/
def pieceReads (member : Option String) : Piece → List OptsRead
  | .lit s => if Legacy.containsSub s "opts" then [OptsRead.pollType] else []
  | .param => (member.map OptsRead.member).toList
  | .conv _ => (member.map OptsRead.member).toList
  | .data _ => []

/-- The reads of `opts` of a template, in textual order. -/
def templateReads (member : Option String) : List Piece → List OptsRead
  | [] => []
  | p :: rest => pieceReads member p ++ templateReads member rest

/-- Statements of a generated method body, as far as the options aggregate is concerned: a
stretch of code together with the members of `opts` it reads, or a block
`if opts != nil { ... }`. -/
inductive BodyStmt
  | code (text : String) (reads : List OptsRead)
  | ifOptsSet (body : List BodyStmt)
deriving Repr

mutual
/-- Concrete syntax of a body statement. -/
def renderBody : BodyStmt → String
  | .code text _ => text
  | .ifOptsSet body => "\nif opts != nil \x7b" ++ renderBodyList body ++ "\n\x7d"
/-- Concrete syntax of a list of body statements. -/
def renderBodyList : List BodyStmt → String
  | [] => ""
  | s :: rest => renderBody s ++ renderBodyList rest
end

mutual
/-- The reads of `opts` a body statement performs when it runs to its end, with `opts` set
(`optsSet = true`) or nil: the block under the test `opts != nil` is skipped when `opts` is
nil. Each read performed while `opts` is nil would be a nil dereference. -/
def readsWhen (optsSet : Bool) : BodyStmt → List OptsRead
  | .code _ reads => reads
  | .ifOptsSet body => if optsSet then readsWhenList optsSet body else []
/-- The reads of `opts` a list of body statements performs. -/
def readsWhenList (optsSet : Bool) : List BodyStmt → List OptsRead
  | [] => []
  | s :: rest => readsWhen optsSet s ++ readsWhenList optsSet rest
end

/-- The expression by which `argsToValues` addresses a field: the positional parameter, or
the member of `opts`. -/
def paramExpr (D : Deps) (viaOpts : Bool) (f : Field) : String :=
  if viaOpts then "opts." ++ D.snakeToTitle f.Name else D.snakeToCamel f.Name

/-- The encoding of one field as a body statement: the text of its template for the
addressing expression, with the reads of that template. -/
def fieldStmt (D : Deps) (d : APIDescription) (methodName defaultRetVal : String)
    (viaOpts : Bool) (f : Field) : BodyStmt :=
  .code
    (instantiate D (paramExpr D viaOpts f)
      (encodingTemplate D d methodName f (prefType D f) defaultRetVal))
    (templateReads (if viaOpts then some (paramExpr D viaOpts f) else none)
      (encodingTemplate D d methodName f (prefType D f) defaultRetVal))

/-- Specification of the body `generateMethodDef` emits between the declaration of `v` and
the call of the transport: the declaration of `data` when needed, the encodings of the
required fields, the encodings of the optional fields inside one block `if opts != nil`, and
the lines that read `opts.RequestOpts` inside a second such block. -/
def bodyOf (D : Deps) (d : APIDescription) (m : MethodDescription) (defaultRetVal : String) :
    List BodyStmt :=
  (if m.Fields.any (mediaRouted D) then [BodyStmt.code dataDecl []] else [])
    ++ (requiredFields m).map (fieldStmt D d m.Name defaultRetVal false)
    ++ (if optionalFields m = [] then []
        else [BodyStmt.ifOptsSet ((optionalFields m).map (fieldStmt D d m.Name defaultRetVal true))])
    ++ [BodyStmt.code "\n" [],
        BodyStmt.code "\nvar reqOpts *RequestOpts" [],
        BodyStmt.ifOptsSet [BodyStmt.code "\n\treqOpts = opts.RequestOpts" [OptsRead.requestOpts]],
        BodyStmt.code "\n" []]

/-- The optional field `correct_option_id` with the required fields of a poll. -/
def sendPoll : MethodDescription :=
  { Name := "sendPoll", Fields := [chatIdField, pollField, silentField],
    Returns := ["*Message"], Description := ["Use this method to send a native poll."],
    Href := "https://core.telegram.org/bots/api#sendpoll" }

/-- Whether a template addresses the value at all: some piece is the addressing expression
or a stringer applied to it. -/
def addresses : List Piece → Bool
  | [] => false
  | .lit _ :: rest => addresses rest
  | .param :: _ => true
  | .conv _ :: _ => true
  | .data _ :: rest => addresses rest

/-! ## Printed form of the syntax trees -/

theorem render_quizGuard (key expr : String) :
    render 0 (quizGuard key expr)
      = "\nif opts.Type == \"quiz\" \x7b"
        ++ "\n\t// correct_option_id should always be set when the type is \"quiz\" - it doesnt need to be set for type \"regular\"."
        ++ "\n\t" ++ ("v[\"" ++ key ++ "\"] = " ++ expr)
        ++ "\n\x7d" := by
  simp only [quizGuard, render, renderList, renderCond, tabs, String.append_assoc]
  rfl

theorem render_zeroGuard (goParam dflt key expr : String) :
    render 0 (zeroGuard goParam dflt key expr)
      = "\nif " ++ goParam ++ " != " ++ dflt ++ " \x7b"
        ++ "\n\t" ++ ("v[\"" ++ key ++ "\"] = " ++ expr)
        ++ "\n\x7d" := by
  simp only [zeroGuard, render, renderList, renderCond, tabs, String.append_assoc]
  rfl

theorem evalExpr_quiz (ρ : Scope) : evalExpr ρ "\"quiz\"" = GoVal.str "quiz" := by
  simp [evalExpr]

theorem evalExpr_nil (ρ : Scope) : evalExpr ρ "nil" = GoVal.nil := by
  simp [evalExpr]

theorem exec_quizGuard_quiz (key expr : String) (ρ : Scope) (fr : Frame)
    (h : evalExpr ρ "opts.Type" = GoVal.str "quiz") :
    exec ρ (quizGuard key expr) fr
      = .running { fr with v := (key, ρ.text expr) :: fr.v } := by
  simp [quizGuard, exec, execList, evalCond, h, evalExpr_quiz]

theorem exec_quizGuard_other (key expr : String) (ρ : Scope) (fr : Frame)
    (h : evalExpr ρ "opts.Type" ≠ GoVal.str "quiz") :
    exec ρ (quizGuard key expr) fr = .running fr := by
  simp [quizGuard, exec, execList, evalCond, h, evalExpr_quiz]

theorem exec_zeroGuard (goParam dflt key expr : String) (ρ : Scope) (fr : Frame) :
    exec ρ (zeroGuard goParam dflt key expr) fr
      = if evalExpr ρ goParam ≠ evalExpr ρ dflt
        then .running { fr with v := (key, ρ.text expr) :: fr.v }
        else .running fr := by
  by_cases h : evalExpr ρ goParam = evalExpr ρ dflt <;>
    simp [zeroGuard, exec, execList, evalCond, h]

theorem generateValue_quiz (D : Deps) (d : APIDescription) (f : Field)
    (goParam defaultRetVal fieldType : String)
    (hname : f.Name = "correct_option_id") (hopt : f.Required = false)
    (hpt : D.getPreferredType f = .ok fieldType)
    (hty : fieldType = "int64" ∨ fieldType = "float64")
    (hstr : D.goTypeStringer fieldType ≠ "") :
    generateValue D d "sendPoll" f goParam defaultRetVal
      = .ok (render 0 (quizGuard "correct_option_id"
          (D.Sprintf (D.goTypeStringer fieldType) goParam)), false) := by
  rw [render_quizGuard]
  simp [generateValue, hpt, hstr, hopt, hty, hname, addURLParam]

/-! ## Claims -/

/-- C1: for `sendPoll` and an optional `correct_option_id` whose preferred type is `int64`
or `float64` and has a scalar stringer, `generateValue` emits the text of the syntax tree
`quizGuard`: one write under the wire name `correct_option_id`, placed under the test
`opts.Type == "quiz"` and under no other test, and it reports no attachment data. Run in
any scope where `opts.Type` is `"quiz"` the emitted code writes the parameter, whatever the
index is; run in a scope where `opts.Type` is `"regular"` it writes nothing. -/
theorem C1_sendPoll_quiz_override (D : Deps) (d : APIDescription) (f : Field)
    (goParam defaultRetVal fieldType : String)
    (hname : f.Name = "correct_option_id") (hopt : f.Required = false)
    (hpt : D.getPreferredType f = .ok fieldType)
    (hty : fieldType = "int64" ∨ fieldType = "float64")
    (hstr : D.goTypeStringer fieldType ≠ "") :
    generateValue D d "sendPoll" f goParam defaultRetVal
        = .ok (render 0 (quizGuard "correct_option_id"
            (D.Sprintf (D.goTypeStringer fieldType) goParam)), false)
    ∧ paramKeys (quizGuard "correct_option_id"
          (D.Sprintf (D.goTypeStringer fieldType) goParam)) = ["correct_option_id"]
    ∧ (∀ (ρ : Scope) (fr : Frame), evalExpr ρ "opts.Type" = GoVal.str "quiz" →
        exec ρ (quizGuard "correct_option_id"
            (D.Sprintf (D.goTypeStringer fieldType) goParam)) fr
          = .running { fr with v := ("correct_option_id",
              ρ.text (D.Sprintf (D.goTypeStringer fieldType) goParam)) :: fr.v })
    ∧ (∀ (ρ : Scope) (fr : Frame), evalExpr ρ "opts.Type" = GoVal.str "regular" →
        exec ρ (quizGuard "correct_option_id"
            (D.Sprintf (D.goTypeStringer fieldType) goParam)) fr = .running fr) := by
  refine ⟨generateValue_quiz D d f goParam defaultRetVal fieldType hname hopt hpt hty hstr,
    ?_, ?_, ?_⟩
  · simp [quizGuard, paramKeys, paramKeysList]
  · intro ρ fr h
    exact exec_quizGuard_quiz _ _ ρ fr h
  · intro ρ fr h
    exact exec_quizGuard_other _ _ ρ fr (by rw [h]; decide)

/-- C1, at a concrete input: the text emitted for the poll field, the request of a quiz
poll with index 0, which carries the parameter with value `0`, and the request of a regular
poll with index 0, which does not carry it. -/
theorem C1_sendPoll_quiz_override_witness :
    generateValue sampleDeps sampleAPI "sendPoll" pollField "opts.CorrectOptionId" "nil"
        = .ok ("\nif opts.Type == \"quiz\" \x7b\n\t// correct_option_id should always be set when the type is \"quiz\" - it doesnt need to be set for type \"regular\".\n\tv[\"correct_option_id\"] = strconv.FormatInt(opts.CorrectOptionId, 10)\n\x7d", false)
    ∧ (exec (pollScope "quiz" 0) (quizGuard "correct_option_id" pollExpr) emptyFrame).param
        "correct_option_id" = some "0"
    ∧ (exec (pollScope "regular" 0) (quizGuard "correct_option_id" pollExpr) emptyFrame).param
        "correct_option_id" = none := by
  have h := C1_sendPoll_quiz_override sampleDeps sampleAPI pollField "opts.CorrectOptionId"
    "nil" "int64" rfl rfl rfl (Or.inl rfl) (by decide)
  have hexpr : sampleDeps.Sprintf (sampleDeps.goTypeStringer "int64") "opts.CorrectOptionId"
      = pollExpr := by decide
  rw [hexpr] at h
  refine ⟨?_, ?_, ?_⟩
  · rw [h.1]; rfl
  · rw [h.2.2.1 (pollScope "quiz" 0) emptyFrame (by decide)]; decide
  · rw [h.2.2.2 (pollScope "regular" 0) emptyFrame (by decide)]; decide

/-- C2 does not hold as stated: for the poll field the emitted code is the quiz guard alone,
so with poll type `"regular"` and the non-zero index 2 nothing is written, although the
value differs from zero. -/
theorem C2_counterexample :
    generateValue sampleDeps sampleAPI "sendPoll" pollField "opts.CorrectOptionId" "nil"
        = .ok (render 0 (quizGuard "correct_option_id" pollExpr), false)
    ∧ evalExpr (pollScope "regular" 2) "opts.Type" ≠ GoVal.str "quiz"
    ∧ ¬ (((exec (pollScope "regular" 2) (quizGuard "correct_option_id" pollExpr)
            emptyFrame).param "correct_option_id").isSome = true
          ↔ evalExpr (pollScope "regular" 2) "opts.CorrectOptionId"
              ≠ evalExpr (pollScope "regular" 2) "0") := by
  refine ⟨?_, by decide, by decide⟩
  exact generateValue_quiz sampleDeps sampleAPI pollField "opts.CorrectOptionId" "nil" "int64"
    rfl rfl rfl (Or.inl rfl) (by decide)

/-- C2, amended: for `sendPoll` and an optional `correct_option_id` of type `int64` or
`float64` with a scalar stringer, the emitted code is the quiz guard alone; run in any scope
where `opts.Type` is not `"quiz"` it leaves the request unchanged, whatever the value of the
index is, zero or not. -/
theorem C2_sendPoll_not_quiz_never_written (D : Deps) (d : APIDescription) (f : Field)
    (goParam defaultRetVal fieldType : String)
    (hname : f.Name = "correct_option_id") (hopt : f.Required = false)
    (hpt : D.getPreferredType f = .ok fieldType)
    (hty : fieldType = "int64" ∨ fieldType = "float64")
    (hstr : D.goTypeStringer fieldType ≠ "") :
    generateValue D d "sendPoll" f goParam defaultRetVal
        = .ok (render 0 (quizGuard "correct_option_id"
            (D.Sprintf (D.goTypeStringer fieldType) goParam)), false)
    ∧ (∀ (ρ : Scope) (fr : Frame), evalExpr ρ "opts.Type" ≠ GoVal.str "quiz" →
        exec ρ (quizGuard "correct_option_id"
            (D.Sprintf (D.goTypeStringer fieldType) goParam)) fr = .running fr) :=
  ⟨generateValue_quiz D d f goParam defaultRetVal fieldType hname hopt hpt hty hstr,
    fun ρ fr h => exec_quizGuard_other _ _ ρ fr h⟩

/-- C2 amended, at a concrete input: a regular poll with index 2 and a regular poll with
index 0 both leave `correct_option_id` out of the request. -/
theorem C2_sendPoll_not_quiz_never_written_witness :
    (exec (pollScope "regular" 2) (quizGuard "correct_option_id" pollExpr) emptyFrame).param
        "correct_option_id" = none
    ∧ (exec (pollScope "regular" 0) (quizGuard "correct_option_id" pollExpr) emptyFrame).param
        "correct_option_id" = none := by
  have h := C2_sendPoll_not_quiz_never_written sampleDeps sampleAPI pollField
    "opts.CorrectOptionId" "nil" "int64" rfl rfl rfl (Or.inl rfl) (by decide)
  have hexpr : sampleDeps.Sprintf (sampleDeps.goTypeStringer "int64") "opts.CorrectOptionId"
      = pollExpr := by decide
  rw [hexpr] at h
  refine ⟨?_, ?_⟩
  · rw [h.2 (pollScope "regular" 2) emptyFrame (by decide)]; decide
  · rw [h.2 (pollScope "regular" 0) emptyFrame (by decide)]; decide

theorem generateValue_zeroGuard (D : Deps) (d : APIDescription) (methodName : String)
    (f : Field) (goParam defaultRetVal fieldType : String)
    (hopt : f.Required = false)
    (hpt : D.getPreferredType f = .ok fieldType)
    (hty : fieldType = "int64" ∨ fieldType = "float64")
    (hstr : D.goTypeStringer fieldType ≠ "")
    (hnot : ¬ (methodName = "sendPoll" ∧ f.Name = "correct_option_id")) :
    generateValue D d methodName f goParam defaultRetVal
      = .ok (render 0 (zeroGuard goParam (D.getDefaultTypeVal d fieldType) f.Name
          (D.Sprintf (D.goTypeStringer fieldType) goParam)), false) := by
  rw [render_zeroGuard]
  simp only [generateValue, hpt]
  rw [if_pos hstr, if_pos hopt, if_pos hty, if_neg hnot]
  simp [addURLParam, String.append_assoc]

/-- C3: for every optional field whose preferred type is `int64` or `float64` (and has a
scalar stringer), other than `correct_option_id` of `sendPoll`, `generateValue` emits the
text of the syntax tree `zeroGuard`: exactly one write, under the field's wire name, wrapped
in the test `<param> != <default value of the type>`; it reports `hasData = false`. The
emitted code writes the parameter when the value of the parameter differs from the value of
the default expression and leaves the request unchanged otherwise, so the parameter is
present afterwards if and only if the two differ. -/
theorem C3_optional_number_zero_guard (D : Deps) (d : APIDescription) (methodName : String)
    (f : Field) (goParam defaultRetVal fieldType : String)
    (hopt : f.Required = false)
    (hpt : D.getPreferredType f = .ok fieldType)
    (hty : fieldType = "int64" ∨ fieldType = "float64")
    (hstr : D.goTypeStringer fieldType ≠ "")
    (hnot : ¬ (methodName = "sendPoll" ∧ f.Name = "correct_option_id")) :
    generateValue D d methodName f goParam defaultRetVal
        = .ok (render 0 (zeroGuard goParam (D.getDefaultTypeVal d fieldType) f.Name
            (D.Sprintf (D.goTypeStringer fieldType) goParam)), false)
    ∧ render 0 (zeroGuard goParam (D.getDefaultTypeVal d fieldType) f.Name
            (D.Sprintf (D.goTypeStringer fieldType) goParam))
        = "\nif " ++ goParam ++ " != " ++ D.getDefaultTypeVal d fieldType ++ " \x7b"
          ++ "\n\t" ++ ("v[\"" ++ f.Name ++ "\"] = "
            ++ D.Sprintf (D.goTypeStringer fieldType) goParam)
          ++ "\n\x7d"
    ∧ paramKeys (zeroGuard goParam (D.getDefaultTypeVal d fieldType) f.Name
          (D.Sprintf (D.goTypeStringer fieldType) goParam)) = [f.Name]
    ∧ (∀ (ρ : Scope) (fr : Frame),
        exec ρ (zeroGuard goParam (D.getDefaultTypeVal d fieldType) f.Name
            (D.Sprintf (D.goTypeStringer fieldType) goParam)) fr
          = if evalExpr ρ goParam ≠ evalExpr ρ (D.getDefaultTypeVal d fieldType)
            then .running { fr with v := (f.Name,
              ρ.text (D.Sprintf (D.goTypeStringer fieldType) goParam)) :: fr.v }
            else .running fr)
    ∧ (∀ (ρ : Scope) (fr : Frame), fr.v.lookup f.Name = none →
        (((exec ρ (zeroGuard goParam (D.getDefaultTypeVal d fieldType) f.Name
            (D.Sprintf (D.goTypeStringer fieldType) goParam)) fr).param f.Name).isSome = true
          ↔ evalExpr ρ goParam ≠ evalExpr ρ (D.getDefaultTypeVal d fieldType))) := by
  refine ⟨generateValue_zeroGuard D d methodName f goParam defaultRetVal fieldType hopt hpt
    hty hstr hnot, render_zeroGuard _ _ _ _, ?_, fun ρ fr => exec_zeroGuard _ _ _ _ ρ fr, ?_⟩
  · simp [zeroGuard, paramKeys, paramKeysList]
  · intro ρ fr hfr
    rw [exec_zeroGuard]
    by_cases h : evalExpr ρ goParam = evalExpr ρ (D.getDefaultTypeVal d fieldType)
    · simp [h, Flow.param, hfr]
    · simp [h, Flow.param]

/-- C3, at a concrete input: the optional `offset` of `getUpdates` is written for the
value 5 and left out for the value 0. -/
theorem C3_optional_number_zero_guard_witness :
    generateValue sampleDeps sampleAPI "getUpdates" offsetField "opts.Offset" "nil"
        = .ok ("\nif opts.Offset != 0 \x7b\n\tv[\"offset\"] = strconv.FormatInt(opts.Offset, 10)\n\x7d", false)
    ∧ (exec (offsetScope 5) (zeroGuard "opts.Offset" "0" "offset"
          "strconv.FormatInt(opts.Offset, 10)") emptyFrame).param "offset" = some "5"
    ∧ (exec (offsetScope 0) (zeroGuard "opts.Offset" "0" "offset"
          "strconv.FormatInt(opts.Offset, 10)") emptyFrame).param "offset" = none := by
  have h := C3_optional_number_zero_guard sampleDeps sampleAPI "getUpdates" offsetField
    "opts.Offset" "nil" "int64" rfl rfl (Or.inl rfl) (by decide) (by decide)
  refine ⟨?_, ?_, ?_⟩
  · rw [h.1]; rfl
  · decide
  · decide

/-! ## `getArgs` against its specification -/

theorem joinAll_append (xs ys : List String) :
    joinAll (xs ++ ys) = joinAll xs ++ joinAll ys := by
  induction xs with
  | nil => simp [joinAll]
  | cons x xs ih => simp [joinAll, ih, String.append_assoc]

theorem getArgsLoop_eq (D : Deps) (m : MethodDescription) (fs : List Field)
    (h : ∀ g ∈ fs, ∃ t, D.getPreferredType g = .ok t) (st : GetArgsState) :
    getArgsLoop D m fs st
      = .ok { requiredArgs :=
                st.requiredArgs ++ (fs.filter (fun f => f.Required)).map (paramDecl D),
              optionals :=
                st.optionals ++ joinAll ((fs.filter (fun f => !f.Required)).map
                  (memberDecl D m)) } := by
  induction fs generalizing st with
  | nil => simp [getArgsLoop, joinAll]
  | cons f rest ih =>
    have hrest : ∀ g ∈ rest, ∃ t, D.getPreferredType g = .ok t :=
      fun g hg => h g (List.mem_cons_of_mem _ hg)
    obtain ⟨t, ht⟩ := h f (List.mem_cons_self _ _)
    by_cases hreq : f.Required = true
    · simp [getArgsLoop, ht, hreq, ih hrest, paramDecl, prefType]
    · have hreq2 : f.Required = false := by simpa using hreq
      by_cases hs : m.Name = "editForumTopic" ∧ f.Name = "icon_custom_emoji_id"
      · simp [getArgsLoop, ht, hreq2, hs, ih hrest, memberDecl, memberType, prefType, joinAll,
          String.append_assoc]
      · simp [getArgsLoop, ht, hreq2, hs, ih hrest, memberDecl, memberType, prefType, joinAll,
          String.append_assoc]

theorem getArgs_eq (D : Deps) (m : MethodDescription)
    (h : ∀ g ∈ m.Fields, ∃ t, D.getPreferredType g = .ok t) :
    getArgs D m
      = .ok (", ".intercalate ((requiredFields m).map (paramDecl D)
              ++ ["opts *" ++ D.optsName m]),
          optsStruct D m (joinAll ((optionalFields m).map (memberDecl D m)))) := by
  simp [getArgs, getArgsLoop_eq D m m.Fields h, requiredFields, optionalFields, optsStruct]

theorem render_sentinelGuard (goParam key expr : String) :
    renderList 0 (sentinelGuard goParam key expr)
      = "\n// icon_custom_emoji_id has different behaviour if it's empty, or if it's unspecified; so we need to handle that."
        ++ "\nif " ++ goParam ++ " != nil \x7b"
        ++ "\n\tv[\"" ++ key ++ "\"] = " ++ expr
        ++ "\n\x7d" := by
  simp only [sentinelGuard, render, renderList, renderCond, tabs, String.append_assoc]
  rfl

theorem exec_sentinelGuard (goParam key expr : String) (ρ : Scope) (fr : Frame) :
    execList ρ (sentinelGuard goParam key expr) fr
      = if evalExpr ρ goParam ≠ GoVal.nil
        then .running { fr with v := (key, ρ.text expr) :: fr.v }
        else .running fr := by
  by_cases h : evalExpr ρ goParam = GoVal.nil <;>
    simp [sentinelGuard, exec, execList, evalCond, h, evalExpr_nil]

theorem generateValue_sentinel (D : Deps) (d : APIDescription) (f : Field)
    (goParam defaultRetVal fieldType : String)
    (hname : f.Name = "icon_custom_emoji_id") (hopt : f.Required = false)
    (hpt : D.getPreferredType f = .ok fieldType)
    (hnum : ¬ (fieldType = "int64" ∨ fieldType = "float64"))
    (hstr : D.goTypeStringer fieldType ≠ "") :
    generateValue D d "editForumTopic" f goParam defaultRetVal
      = .ok (renderList 0 (sentinelGuard goParam "icon_custom_emoji_id"
          (D.Sprintf (D.goTypeStringer ("*" ++ fieldType)) goParam)), false) := by
  rw [render_sentinelGuard]
  simp [generateValue, hpt, hstr, hopt, hnum, hname, String.append_assoc]

/-- C4: for the optional field `icon_custom_emoji_id` of `editForumTopic` with the primitive
string type, `getArgs` (whose options struct consists of the members `memberDecl`, for every
method) declares the member with the pointer type `"*" ++ fieldType`, and declares the member
of every other (method, field) pair with the plain preferred type; `generateValue` emits the
text of `sentinelGuard`: a write of the parameter under the only test `<param> != nil`, with
the pointer stringer `goTypeStringer ("*" ++ fieldType)`. Run with a non-nil member the
emitted code writes the parameter with the text of the stringer expression, so a member set
to the empty string yields the parameter with an empty value; run with a nil member it writes
nothing; the two requests differ. -/
theorem C4_sentinel_nullable_string (D : Deps) (d : APIDescription) (f : Field)
    (goParam defaultRetVal fieldType : String)
    (hname : f.Name = "icon_custom_emoji_id") (hopt : f.Required = false)
    (hpt : D.getPreferredType f = .ok fieldType)
    (hty : fieldType = "string")
    (hstr : D.goTypeStringer fieldType ≠ "") :
    (∀ m : MethodDescription, (∀ g ∈ m.Fields, ∃ t, D.getPreferredType g = .ok t) →
        ∃ args, getArgs D m
          = .ok (args, optsStruct D m (joinAll ((optionalFields m).map (memberDecl D m)))))
    ∧ (∀ m : MethodDescription, m.Name = "editForumTopic" →
        memberDecl D m f = "\n// " ++ f.Description ++ "\n"
          ++ (D.snakeToTitle f.Name ++ " " ++ ("*" ++ fieldType)))
    ∧ (∀ (m : MethodDescription) (g : Field) (t : String), D.getPreferredType g = .ok t →
        ¬ (m.Name = "editForumTopic" ∧ g.Name = "icon_custom_emoji_id") →
        memberDecl D m g = "\n// " ++ g.Description ++ "\n"
          ++ (D.snakeToTitle g.Name ++ " " ++ t))
    ∧ generateValue D d "editForumTopic" f goParam defaultRetVal
        = .ok (renderList 0 (sentinelGuard goParam "icon_custom_emoji_id"
            (D.Sprintf (D.goTypeStringer ("*" ++ fieldType)) goParam)), false)
    ∧ renderList 0 (sentinelGuard goParam "icon_custom_emoji_id"
            (D.Sprintf (D.goTypeStringer ("*" ++ fieldType)) goParam))
        = "\n// icon_custom_emoji_id has different behaviour if it's empty, or if it's unspecified; so we need to handle that."
          ++ "\nif " ++ goParam ++ " != nil \x7b"
          ++ "\n\tv[\"" ++ "icon_custom_emoji_id" ++ "\"] = "
          ++ D.Sprintf (D.goTypeStringer ("*" ++ fieldType)) goParam
          ++ "\n\x7d"
    ∧ (∀ (ρ : Scope) (fr : Frame), evalExpr ρ goParam ≠ GoVal.nil →
        execList ρ (sentinelGuard goParam "icon_custom_emoji_id"
            (D.Sprintf (D.goTypeStringer ("*" ++ fieldType)) goParam)) fr
          = .running { fr with v := ("icon_custom_emoji_id",
              ρ.text (D.Sprintf (D.goTypeStringer ("*" ++ fieldType)) goParam)) :: fr.v })
    ∧ (∀ (ρ : Scope) (fr : Frame), evalExpr ρ goParam = GoVal.nil →
        execList ρ (sentinelGuard goParam "icon_custom_emoji_id"
            (D.Sprintf (D.goTypeStringer ("*" ++ fieldType)) goParam)) fr = .running fr)
    ∧ (∀ (ρ1 ρ2 : Scope) (fr : Frame), fr.v.lookup "icon_custom_emoji_id" = none →
        evalExpr ρ1 goParam ≠ GoVal.nil →
        ρ1.text (D.Sprintf (D.goTypeStringer ("*" ++ fieldType)) goParam) = "" →
        evalExpr ρ2 goParam = GoVal.nil →
        (execList ρ1 (sentinelGuard goParam "icon_custom_emoji_id"
            (D.Sprintf (D.goTypeStringer ("*" ++ fieldType)) goParam)) fr).param
              "icon_custom_emoji_id" = some ""
        ∧ (execList ρ2 (sentinelGuard goParam "icon_custom_emoji_id"
            (D.Sprintf (D.goTypeStringer ("*" ++ fieldType)) goParam)) fr).param
              "icon_custom_emoji_id" = none) := by
  have hnum : ¬ (fieldType = "int64" ∨ fieldType = "float64") := by
    rw [hty]; decide
  refine ⟨?_, ?_, ?_, generateValue_sentinel D d f goParam defaultRetVal fieldType hname hopt
    hpt hnum hstr, render_sentinelGuard _ _ _, ?_, ?_, ?_⟩
  · intro m hm
    exact ⟨_, getArgs_eq D m hm⟩
  · intro m hm
    simp [memberDecl, memberType, prefType, hm, hname, hpt]
  · intro m g t hg hne
    simp [memberDecl, memberType, prefType, hne, hg]
  · intro ρ fr h
    rw [exec_sentinelGuard, if_pos h]
  · intro ρ fr h
    rw [exec_sentinelGuard, if_neg (by simpa using h)]
  · intro ρ1 ρ2 fr hfr h1 ht h2
    rw [exec_sentinelGuard, if_pos h1, exec_sentinelGuard, if_neg (by simpa using h2)]
    simp [Flow.param, ht, hfr]

/-- C4, at a concrete input: the options struct of `editForumTopic` declares
`IconCustomEmojiId *string` next to the plain `Name string`; a member pointing to the empty
string gives the parameter with the empty value, an unset member gives no parameter. -/
theorem C4_sentinel_nullable_string_witness :
    (getArgs sampleDeps editForumTopic).map Prod.snd
        = .ok ("\n// EditForumTopicOpts is the set of optional fields for Bot.EditForumTopic.\ntype EditForumTopicOpts struct \x7b\n// New topic name\nName string\n// New unique identifier of the custom emoji shown as the topic icon\nIconCustomEmojiId *string\n// RequestOpts are an additional optional field to configure timeouts for individual requests\nRequestOpts *RequestOpts\n\x7d")
    ∧ generateValue sampleDeps sampleAPI "editForumTopic" iconField "opts.IconCustomEmojiId"
          "false"
        = .ok ("\n// icon_custom_emoji_id has different behaviour if it's empty, or if it's unspecified; so we need to handle that.\nif opts.IconCustomEmojiId != nil \x7b\n\tv[\"icon_custom_emoji_id\"] = *opts.IconCustomEmojiId\n\x7d", false)
    ∧ (execList (iconScope (some "")) (sentinelGuard "opts.IconCustomEmojiId"
          "icon_custom_emoji_id" "*opts.IconCustomEmojiId") emptyFrame).param
            "icon_custom_emoji_id" = some ""
    ∧ (execList (iconScope none) (sentinelGuard "opts.IconCustomEmojiId"
          "icon_custom_emoji_id" "*opts.IconCustomEmojiId") emptyFrame).param
            "icon_custom_emoji_id" = none := by
  have h := C4_sentinel_nullable_string sampleDeps sampleAPI iconField "opts.IconCustomEmojiId"
    "false" "string" rfl rfl rfl rfl (by decide)
  have hexpr : sampleDeps.Sprintf (sampleDeps.goTypeStringer ("*" ++ "string"))
      "opts.IconCustomEmojiId" = "*opts.IconCustomEmojiId" := by decide
  rw [hexpr] at h
  obtain ⟨_, _, _, hgen, _, _, _, hsem⟩ := h
  refine ⟨?_, ?_, ?_⟩
  · set_option maxRecDepth 100000 in rfl
  · rw [hgen]; rfl
  · exact hsem (iconScope (some "")) (iconScope none) emptyFrame (by decide) (by decide)
      (by decide) (by decide)

/-! ## Response decoding -/

theorem render_dualDecoder (x ty dflt : String) (res : RetExpr) :
    renderDecList 0 (dualDecoder x ty dflt res) ++ "\n"
      = "\nvar " ++ x ++ " " ++ ty
        ++ "\nif err := json.Unmarshal(r, &" ++ x ++ "); err != nil \x7b"
        ++ "\n\tvar b bool"
        ++ "\n\tif err := json.Unmarshal(r, &b); err != nil \x7b"
        ++ "\n\t\treturn " ++ dflt ++ ", false, err"
        ++ "\n\t\x7d"
        ++ "\n\treturn " ++ dflt ++ ", b, nil"
        ++ "\n\x7d"
        ++ "\nreturn " ++ renderRet res ++ ", true, nil"
        ++ "\n" := by
  simp only [dualDecoder, renderDec, renderDecList, renderRet, tabs, String.append_assoc]
  rfl

theorem renderRet_retResultOf (retType x : String) :
    renderRet (retResultOf retType x) = (if isPointer retType then "&" else "") ++ x := by
  by_cases h : isPointer retType = true <;> simp [retResultOf, renderRet, h]

theorem returnValues_dual (D : Deps) (d : APIDescription) (retType x : String)
    (hx : getRetVarName retType = .ok x) :
    returnValues D d [retType, "bool"]
      = .ok (renderDecList 0 (dualDecoder x (retVarTypeOf retType)
          (D.getDefaultTypeVal d (retVarTypeOf retType)) (retResultOf retType x)) ++ "\n") := by
  rw [render_dualDecoder, renderRet_retResultOf]
  simp [returnValues, hx, retVarTypeOf, String.append_assoc]

theorem exec_dualDecoder (dec : Decoder) (r retType x ty dflt : String) :
    execDecList dec r (dualDecoder x ty dflt (retResultOf retType x)) emptyDecFrame
      = dualOutcome dec r retType ty dflt := by
  unfold dualOutcome
  cases h1 : dec.unmarshal r ty with
  | ok val =>
    by_cases hp : isPointer retType = true <;>
      simp [dualDecoder, execDec, execDecList, emptyDecFrame, evalRet, h1, retResultOf,
        retResultVal, hp, List.lookup]
  | error m =>
    cases h2 : dec.unmarshal r "bool" with
    | ok b =>
      simp [dualDecoder, execDec, execDecList, emptyDecFrame, evalRet, h1, h2, List.lookup]
    | error e =>
      simp [dualDecoder, execDec, execDecList, emptyDecFrame, evalRet, h1, h2, List.lookup]

/-- C5: for a return-type list of length 2 whose second element is `bool`, `returnValues`
succeeds and emits the text of the syntax tree `dualDecoder` (followed by a line break),
for the variable typed with the return type `T` without its pointer marker and the default
value text `getDefaultTypeVal` of that type. For every payload `r` the emitted code returns:
the decoded value (its address when `T` is a pointer), `true` and `nil` when decoding into
`T` succeeds; otherwise the default value, the decoded boolean and `nil` when decoding into
`bool` succeeds; otherwise the default value, `false` and the error of the boolean
decoding. -/
theorem C5_dual_return_decoding (D : Deps) (d : APIDescription) (retType x : String)
    (hx : getRetVarName retType = .ok x) :
    returnValues D d [retType, "bool"]
        = .ok (renderDecList 0 (dualDecoder x (retVarTypeOf retType)
            (D.getDefaultTypeVal d (retVarTypeOf retType)) (retResultOf retType x)) ++ "\n")
    ∧ (∀ (dec : Decoder) (r : String) (val : GoVal),
        dec.unmarshal r (retVarTypeOf retType) = .ok val →
        execDecList dec r (dualDecoder x (retVarTypeOf retType)
            (D.getDefaultTypeVal d (retVarTypeOf retType)) (retResultOf retType x))
            emptyDecFrame
          = .returned (retResultVal retType val) (.lit "true") (.lit "nil"))
    ∧ (∀ (dec : Decoder) (r m : String) (b : GoVal),
        dec.unmarshal r (retVarTypeOf retType) = .error m →
        dec.unmarshal r "bool" = .ok b →
        execDecList dec r (dualDecoder x (retVarTypeOf retType)
            (D.getDefaultTypeVal d (retVarTypeOf retType)) (retResultOf retType x))
            emptyDecFrame
          = .returned (.lit (D.getDefaultTypeVal d (retVarTypeOf retType))) (.value b)
              (.lit "nil"))
    ∧ (∀ (dec : Decoder) (r m e : String),
        dec.unmarshal r (retVarTypeOf retType) = .error m →
        dec.unmarshal r "bool" = .error e →
        execDecList dec r (dualDecoder x (retVarTypeOf retType)
            (D.getDefaultTypeVal d (retVarTypeOf retType)) (retResultOf retType x))
            emptyDecFrame
          = .returned (.lit (D.getDefaultTypeVal d (retVarTypeOf retType))) (.lit "false")
              (.err e)) := by
  refine ⟨returnValues_dual D d retType x hx, ?_, ?_, ?_⟩
  · intro dec r val h
    rw [exec_dualDecoder]; simp [dualOutcome, h]
  · intro dec r m b h1 h2
    rw [exec_dualDecoder]; simp [dualOutcome, h1, h2]
  · intro dec r m e h1 h2
    rw [exec_dualDecoder]; simp [dualOutcome, h1, h2]

/-- C5, at a concrete input: the decoder emitted for the return types `*Message, bool`,
run on the payload `true`, on a message object, and on `42`. -/
theorem C5_dual_return_decoding_witness :
    returnValues sampleDeps sampleAPI ["*Message", "bool"]
        = .ok ("\nvar m Message\nif err := json.Unmarshal(r, &m); err != nil \x7b\n\tvar b bool\n\tif err := json.Unmarshal(r, &b); err != nil \x7b\n\t\treturn Message\x7b\x7d, false, err\n\t\x7d\n\treturn Message\x7b\x7d, b, nil\n\x7d\nreturn &m, true, nil\n")
    ∧ execDecList sampleDecoder "true"
          (dualDecoder "m" "Message" "Message\x7b\x7d" (.addrOf "m")) emptyDecFrame
        = .returned (.lit "Message\x7b\x7d") (.value (GoVal.bool true)) (.lit "nil")
    ∧ execDecList sampleDecoder "\x7b\"message_id\":7\x7d"
          (dualDecoder "m" "Message" "Message\x7b\x7d" (.addrOf "m")) emptyDecFrame
        = .returned (.ref (GoVal.other "message 7")) (.lit "true") (.lit "nil")
    ∧ execDecList sampleDecoder "42"
          (dualDecoder "m" "Message" "Message\x7b\x7d" (.addrOf "m")) emptyDecFrame
        = .returned (.lit "Message\x7b\x7d") (.lit "false")
            (.err "json: cannot unmarshal into Go value of type bool") := by
  have h := C5_dual_return_decoding sampleDeps sampleAPI "*Message" "m" rfl
  have h1 : retVarTypeOf "*Message" = "Message" := by decide
  have h2 : sampleDeps.getDefaultTypeVal sampleAPI "Message" = "Message\x7b\x7d" := by decide
  have h3 : retResultOf "*Message" "m" = RetExpr.addrOf "m" := by decide
  have h4 : ∀ v, retResultVal "*Message" v = RetVal.ref v := fun v => by
    simp [retResultVal, show isPointer "*Message" = true by decide]
  rw [h1, h2, h3] at h
  obtain ⟨hgen, hok, hbool, hfail⟩ := h
  refine ⟨?_, ?_, ?_, ?_⟩
  · rw [hgen]; rfl
  · exact hbool sampleDecoder "true" _ (GoVal.bool true) rfl rfl
  · rw [hok sampleDecoder "\x7b\"message_id\":7\x7d" (GoVal.other "message 7") rfl, h4]
  · exact hfail sampleDecoder "42" _ _ rfl rfl

/-- C6: for every method (all of whose fields have a preferred type), `getArgs` returns the
argument list made of one `<snakeToCamel(wire name)> <preferred type>` parameter per
required field, in declared field order, followed by the one parameter `opts *<optsName>`,
joined with `", "`; and the options struct made of one member per optional field, in
declared field order, followed by the `RequestOpts` member. Both are produced for every
method, with or without optional fields, so the number of parameters is the number of
required fields plus one. -/
theorem C6_getArgs_signature (D : Deps) (m : MethodDescription)
    (h : ∀ g ∈ m.Fields, ∃ t, D.getPreferredType g = .ok t) :
    getArgs D m
        = .ok (", ".intercalate ((requiredFields m).map (paramDecl D)
                ++ ["opts *" ++ D.optsName m]),
            "\n// " ++ D.optsName m ++ " is the set of optional fields for Bot."
              ++ D.Title m.Name ++ "."
              ++ "\ntype " ++ D.optsName m ++ " struct \x7b"
              ++ joinAll ((optionalFields m).map (memberDecl D m))
              ++ "\n// RequestOpts are an additional optional field to configure timeouts for individual requests"
              ++ "\nRequestOpts *RequestOpts"
              ++ "\n\x7d")
    ∧ ((requiredFields m).map (paramDecl D) ++ ["opts *" ++ D.optsName m]).length
        = (requiredFields m).length + 1
    ∧ (∀ g ∈ m.Fields, ∀ t, D.getPreferredType g = .ok t →
        paramDecl D g = D.snakeToCamel g.Name ++ " " ++ t
        ∧ memberDecl D m g = "\n// " ++ g.Description ++ "\n"
            ++ (D.snakeToTitle g.Name ++ " " ++
              (if m.Name = "editForumTopic" ∧ g.Name = "icon_custom_emoji_id"
               then "*" ++ t else t))) := by
  refine ⟨?_, by simp, ?_⟩
  · rw [getArgs_eq D m h]; rfl
  · intro g _ t ht
    constructor
    · simp [paramDecl, prefType, ht]
    · simp [memberDecl, memberType, prefType, ht]

/-- C6, at a concrete input: `editForumTopic` with one required and two optional fields, and
`getMe` without fields, which still gets the trailing parameter and the options struct. -/
theorem C6_getArgs_signature_witness :
    (getArgs sampleDeps editForumTopic).map Prod.fst
        = .ok "chatId int64, opts *EditForumTopicOpts"
    ∧ getArgs sampleDeps getMe
        = .ok ("opts *GetMeOpts",
            "\n// GetMeOpts is the set of optional fields for Bot.GetMe.\ntype GetMeOpts struct \x7b\n// RequestOpts are an additional optional field to configure timeouts for individual requests\nRequestOpts *RequestOpts\n\x7d") := by
  have h1 := C6_getArgs_signature sampleDeps editForumTopic (by
    intro g hg
    simp [editForumTopic] at hg
    rcases hg with rfl | rfl | rfl <;> exact ⟨_, rfl⟩)
  have h2 := C6_getArgs_signature sampleDeps getMe (by
    intro g hg
    simp [getMe] at hg)
  refine ⟨?_, ?_⟩
  · rw [h1.1]
    set_option maxRecDepth 100000 in rfl
  · rw [h2.1]
    set_option maxRecDepth 100000 in rfl

/-! ## `argsToValues` against its specification -/

theorem arrayOfMedia_eq : "[]" ++ tgTypeInputMedia = "[]InputMedia" := by decide

theorem generateValue_ok_exists (D : Deps) (d : APIDescription) (methodName : String)
    (f : Field) (goParam defaultRetVal t : String) (ht : D.getPreferredType f = .ok t) :
    ∃ c, generateValue D d methodName f goParam defaultRetVal = .ok (c, mediaRouted D f) := by
  have hp : prefType D f = t := by simp [prefType, ht]
  unfold generateValue mediaRouted
  rw [hp, arrayOfMedia_eq]
  simp only [ht, tgTypeInputFile, tgTypeInputMedia]
  by_cases hs : D.goTypeStringer t = ""
  · simp only [hs, ne_eq, not_true_eq_false, if_false, true_and]
    split_ifs with h1 h2 h3
    · refine ⟨_, congrArg (fun b => Except.ok (_, b)) ?_⟩
      simp [h1]
    · refine ⟨_, congrArg (fun b => Except.ok (_, b)) ?_⟩
      simp [h2]
    · refine ⟨_, congrArg (fun b => Except.ok (_, b)) ?_⟩
      simp [h3]
    · refine ⟨_, congrArg (fun b => Except.ok (_, b)) ?_⟩
      simp [h1, h2, h3]
    · refine ⟨_, congrArg (fun b => Except.ok (_, b)) ?_⟩
      simp [h1, h2, h3]
  · simp only [hs, ne_eq, not_false_eq_true, if_true, false_and, decide_False]
    split_ifs <;> exact ⟨_, rfl⟩

theorem generateValue_ok (D : Deps) (d : APIDescription) (methodName : String) (f : Field)
    (goParam defaultRetVal t : String) (ht : D.getPreferredType f = .ok t) :
    generateValue D d methodName f goParam defaultRetVal
      = .ok (fieldCode D d methodName defaultRetVal goParam f, mediaRouted D f) := by
  obtain ⟨c, hc⟩ := generateValue_ok_exists D d methodName f goParam defaultRetVal t ht
  simp [fieldCode, hc]

theorem argsRequiredLoop_eq (D : Deps) (d : APIDescription) (methodName defaultRetVal : String)
    (fs : List Field) (h : ∀ g ∈ fs, ∃ t, D.getPreferredType g = .ok t) (st : ArgsState) :
    argsRequiredLoop D d methodName defaultRetVal fs st
      = .ok { bd := st.bd ++ joinAll ((fs.filter (fun f => f.Required)).map
                (fun f => fieldCode D d methodName defaultRetVal (D.snakeToCamel f.Name) f)),
              hasData := st.hasData || (fs.filter (fun f => f.Required)).any (mediaRouted D),
              optionals := st.optionals ++ fs.filter (fun f => !f.Required) } := by
  induction fs generalizing st with
  | nil => simp [argsRequiredLoop, joinAll]
  | cons f rest ih =>
    have hrest : ∀ g ∈ rest, ∃ t, D.getPreferredType g = .ok t :=
      fun g hg => h g (List.mem_cons_of_mem _ hg)
    obtain ⟨t, ht⟩ := h f (List.mem_cons_self _ _)
    by_cases hreq : f.Required = true
    · simp [argsRequiredLoop, hreq, ih hrest,
        generateValue_ok D d methodName f _ defaultRetVal t ht, joinAll, String.append_assoc,
        Bool.or_assoc]
    · have hreq2 : f.Required = false := by simpa using hreq
      simp [argsRequiredLoop, hreq2, ih hrest]

theorem argsOptionalLoop_eq (D : Deps) (d : APIDescription) (methodName defaultRetVal : String)
    (fs : List Field) (h : ∀ g ∈ fs, ∃ t, D.getPreferredType g = .ok t) (st : ArgsState) :
    argsOptionalLoop D d methodName defaultRetVal fs st
      = .ok { bd := st.bd ++ joinAll (fs.map
                (fun f => fieldCode D d methodName defaultRetVal
                  ("opts." ++ D.snakeToTitle f.Name) f)),
              hasData := st.hasData || fs.any (mediaRouted D),
              optionals := st.optionals } := by
  induction fs generalizing st with
  | nil => simp [argsOptionalLoop, joinAll]
  | cons f rest ih =>
    have hrest : ∀ g ∈ rest, ∃ t, D.getPreferredType g = .ok t :=
      fun g hg => h g (List.mem_cons_of_mem _ hg)
    obtain ⟨t, ht⟩ := h f (List.mem_cons_self _ _)
    simp [argsOptionalLoop, ih hrest, generateValue_ok D d methodName f _ defaultRetVal t ht,
      joinAll, String.append_assoc, Bool.or_assoc]

theorem any_filter_split (fs : List Field) (p q : Field → Bool) :
    ((fs.filter p).any q || (fs.filter (fun f => !p f)).any q) = fs.any q := by
  induction fs with
  | nil => simp
  | cons f rest ih =>
    rw [List.any_cons, ← ih]
    by_cases hp : p f = true
    · simp [hp, Bool.or_assoc]
    · have hp2 : p f = false := by simpa using hp
      simp only [List.filter_cons, hp2, Bool.not_false, if_true, List.any_cons,
        Bool.false_eq_true, if_false]
      cases q f <;> cases (List.filter p rest).any q <;> simp

theorem argsToValues_eq (D : Deps) (m : MethodDescription) (d : APIDescription)
    (methodName defaultRetVal : String)
    (h : ∀ g ∈ m.Fields, ∃ t, D.getPreferredType g = .ok t) :
    argsToValues D m d methodName defaultRetVal
      = .ok ((if m.Fields.any (mediaRouted D) then dataDecl else "")
          ++ (requiredCode D d m methodName defaultRetVal
            ++ (if optionalFields m = [] then ""
                else "\nif opts != nil \x7b" ++ optionalCode D d m methodName defaultRetVal
                  ++ "\n\x7d")),
          m.Fields.any (mediaRouted D)) := by
  have hopt : ∀ g ∈ m.Fields.filter (fun f => !f.Required),
      ∃ t, D.getPreferredType g = .ok t :=
    fun g hg => h g (List.mem_of_mem_filter hg)
  have hany := any_filter_split m.Fields (fun f => f.Required) (mediaRouted D)
  unfold argsToValues
  rw [argsRequiredLoop_eq D d methodName defaultRetVal m.Fields h]
  by_cases he : m.Fields.filter (fun f => !f.Required) = []
  · have hany2 : (m.Fields.filter (fun f => f.Required)).any (mediaRouted D)
        = m.Fields.any (mediaRouted D) := by
      rw [← hany, he]; simp
    by_cases hd : m.Fields.any (mediaRouted D) = true
    · simp [he, hany2, hd, requiredCode, requiredFields, optionalFields, dataDecl]
    · simp [he, hany2, hd, requiredCode, requiredFields, optionalFields, dataDecl]
  · have hlen : 0 < (m.Fields.filter (fun f => !f.Required)).length :=
      List.length_pos.mpr he
    simp only [List.nil_append, Bool.false_or, String.append_assoc, gt_iff_lt, hlen, if_true]
    rw [argsOptionalLoop_eq D d methodName defaultRetVal _ hopt]
    simp only [hany]
    by_cases hd : m.Fields.any (mediaRouted D) = true
    · simp [he, hd, requiredCode, optionalCode, requiredFields, optionalFields, dataDecl,
        String.append_assoc]
    · simp [he, hd, requiredCode, optionalCode, requiredFields, optionalFields, dataDecl,
        String.append_assoc]
theorem head_append (a b : String) (c : Char) (rest : List Char)
    (h : a.data = '\n' :: c :: rest) (hc : c ≠ 'd') :
    ∃ c2 rest2, (a ++ b).data = '\n' :: c2 :: rest2 ∧ c2 ≠ 'd' :=
  ⟨c, rest ++ b.data, by simp [String.data_append, h], hc⟩

theorem generateValue_head (D : Deps) (d : APIDescription) (methodName : String) (f : Field)
    (goParam defaultRetVal txt : String)
    (h : generateValue D d methodName f goParam defaultRetVal = .ok (txt, false)) :
    ∃ c rest, txt.data = '\n' :: c :: rest ∧ c ≠ 'd' := by
  unfold generateValue at h
  cases hp : D.getPreferredType f with
  | error e => simp [hp] at h
  | ok t =>
    simp only [hp] at h
    by_cases hs : D.goTypeStringer t ≠ ""
    · rw [if_pos hs] at h
      by_cases hr : f.Required = false
      · rw [if_pos hr] at h
        by_cases hn : t = "int64" ∨ t = "float64"
        · rw [if_pos hn] at h
          by_cases hq : methodName = "sendPoll" ∧ f.Name = "correct_option_id"
          · rw [if_pos hq] at h
            simp only [Except.ok.injEq, Prod.mk.injEq, String.append_assoc] at h
            obtain ⟨rfl, _⟩ := h
            exact head_append _ _ 'i' _ rfl (by decide)
          · rw [if_neg hq] at h
            simp only [Except.ok.injEq, Prod.mk.injEq, String.append_assoc] at h
            obtain ⟨rfl, _⟩ := h
            exact head_append _ _ 'i' _ rfl (by decide)
        · rw [if_neg hn] at h
          by_cases hq : methodName = "editForumTopic" ∧ f.Name = "icon_custom_emoji_id"
          · rw [if_pos hq] at h
            simp only [Except.ok.injEq, Prod.mk.injEq, String.append_assoc] at h
            obtain ⟨rfl, _⟩ := h
            exact head_append _ _ '/' _ rfl (by decide)
          · rw [if_neg hq] at h
            simp only [Except.ok.injEq, Prod.mk.injEq, addURLParam, ← String.append_assoc] at h
            obtain ⟨rfl, _⟩ := h
            simp only [String.append_assoc]
            exact head_append "\nv[\"" _ 'v' _ rfl (by decide)
      · rw [if_neg hr] at h
        simp only [Except.ok.injEq, Prod.mk.injEq, addURLParam, ← String.append_assoc] at h
        obtain ⟨rfl, _⟩ := h
        simp only [String.append_assoc]
        exact head_append "\nv[\"" _ 'v' _ rfl (by decide)
    · rw [if_neg hs] at h
      split_ifs at h with h1 h2 h3 h4
      · simp at h
      · simp at h
      · simp at h
      · simp only [Except.ok.injEq, Prod.mk.injEq, String.append_assoc] at h
        obtain ⟨rfl, _⟩ := h
        exact head_append _ _ 'i' _ rfl (by decide)
      · simp only [Except.ok.injEq, Prod.mk.injEq, String.append_assoc, String.empty_append] at h
        obtain ⟨rfl, _⟩ := h
        exact head_append _ _ '\t' _ rfl (by decide)

theorem hasPrefix_dataDecl_nil (s : String) (h : s.data = []) :
    hasPrefix s dataDecl = false := by
  have hd : dataDecl.data = '\n' :: 'd' :: "ata := map[string]NamedReader\x7b\x7d".data := rfl
  simp [hasPrefix, h, hd, List.isPrefixOf]

theorem hasPrefix_dataDecl_head (s : String) (c : Char) (rest : List Char)
    (h : s.data = '\n' :: c :: rest) (hc : c ≠ 'd') :
    hasPrefix s dataDecl = false := by
  have hd : dataDecl.data = '\n' :: 'd' :: "ata := map[string]NamedReader\x7b\x7d".data := rfl
  have hc2 : ¬ ('d' = c) := fun e => hc e.symm
  simp [hasPrefix, h, hd, List.isPrefixOf, hc2]

theorem hasPrefix_dataDecl_self (s : String) : hasPrefix (dataDecl ++ s) dataDecl = true := by
  simp only [hasPrefix, String.data_append]
  exact List.isPrefixOf_iff_prefix.mpr (List.prefix_append _ _)

theorem argsBody_noData (D : Deps) (d : APIDescription) (m : MethodDescription)
    (methodName defaultRetVal : String)
    (h : ∀ g ∈ m.Fields, ∃ t, D.getPreferredType g = .ok t)
    (hany : m.Fields.any (mediaRouted D) = false) :
    hasPrefix (requiredCode D d m methodName defaultRetVal
      ++ (if optionalFields m = [] then ""
          else "\nif opts != nil \x7b" ++ optionalCode D d m methodName defaultRetVal
            ++ "\n\x7d")) dataDecl = false := by
  unfold requiredCode
  cases hreq : requiredFields m with
  | nil =>
    simp only [List.map_nil, joinAll, String.empty_append]
    by_cases he : optionalFields m = []
    · rw [if_pos he]
      exact hasPrefix_dataDecl_nil _ rfl
    · rw [if_neg he, String.append_assoc]
      obtain ⟨c, rest, hcr, hc⟩ := head_append "\nif opts != nil \x7b"
        (optionalCode D d m methodName defaultRetVal ++ "\n\x7d") 'i' _ rfl (by decide)
      exact hasPrefix_dataDecl_head _ c rest hcr hc
  | cons f rest =>
    have hf : f ∈ m.Fields := by
      have : f ∈ requiredFields m := by rw [hreq]; exact List.mem_cons_self _ _
      exact List.mem_of_mem_filter this
    obtain ⟨t, ht⟩ := h f hf
    have hmed : mediaRouted D f = false := by
      rw [List.any_eq_false] at hany
      simpa using hany f hf
    have hgen := generateValue_ok D d methodName f (D.snakeToCamel f.Name) defaultRetVal t ht
    rw [hmed] at hgen
    obtain ⟨c, r, hcr, hc⟩ := generateValue_head D d methodName f _ defaultRetVal _ hgen
    simp only [List.map_cons, joinAll, String.append_assoc]
    obtain ⟨c2, r2, hcr2, hc2⟩ := head_append _
      (joinAll (rest.map (fun f => fieldCode D d methodName defaultRetVal
          (D.snakeToCamel f.Name) f))
        ++ (if optionalFields m = [] then ""
            else "\nif opts != nil \x7b" ++ (optionalCode D d m methodName defaultRetVal
              ++ "\n\x7d"))) c r hcr hc
    exact hasPrefix_dataDecl_head _ c2 r2 hcr2 hc2

theorem sample_prefs (m : MethodDescription)
    (h : ∀ g ∈ m.Fields, g.Types ≠ []) :
    ∀ g ∈ m.Fields, ∃ t, sampleDeps.getPreferredType g = .ok t := by
  intro g hg
  have hne := h g hg
  cases hty : g.Types with
  | nil => exact absurd hty hne
  | cons t rest => exact ⟨t, by simp [sampleDeps, hty]⟩

/-- C7: for every method (all of whose fields have a preferred type), the text of
`argsToValues` is, after the declaration of `data` when there is one: the encodings of the
required fields in declared order, each the output of `generateValue` for the positional
parameter name `snakeToCamel(wire name)`; then, exactly when the method has an optional
field, one block `if opts != nil { ... }` holding the encodings of the optional fields in
declared order, each the output of `generateValue` for `opts.<snakeToTitle(wire name)>`.
The required fields followed by the optional fields are a rearrangement of the fields of
the method, so every field is encoded exactly once. -/
theorem C7_argsToValues_order (D : Deps) (m : MethodDescription) (d : APIDescription)
    (methodName defaultRetVal : String)
    (h : ∀ g ∈ m.Fields, ∃ t, D.getPreferredType g = .ok t) :
    argsToValues D m d methodName defaultRetVal
        = .ok ((if m.Fields.any (mediaRouted D) then dataDecl else "")
            ++ (joinAll ((requiredFields m).map
                  (fun f => fieldCode D d methodName defaultRetVal (D.snakeToCamel f.Name) f))
              ++ (if optionalFields m = [] then ""
                  else "\nif opts != nil \x7b"
                    ++ joinAll ((optionalFields m).map
                        (fun f => fieldCode D d methodName defaultRetVal
                          ("opts." ++ D.snakeToTitle f.Name) f))
                    ++ "\n\x7d")),
            m.Fields.any (mediaRouted D))
    ∧ (∀ f ∈ requiredFields m,
        generateValue D d methodName f (D.snakeToCamel f.Name) defaultRetVal
          = .ok (fieldCode D d methodName defaultRetVal (D.snakeToCamel f.Name) f,
              mediaRouted D f))
    ∧ (∀ f ∈ optionalFields m,
        generateValue D d methodName f ("opts." ++ D.snakeToTitle f.Name) defaultRetVal
          = .ok (fieldCode D d methodName defaultRetVal ("opts." ++ D.snakeToTitle f.Name) f,
              mediaRouted D f))
    ∧ (requiredFields m ++ optionalFields m).Perm m.Fields := by
  refine ⟨argsToValues_eq D m d methodName defaultRetVal h, ?_, ?_, ?_⟩
  · intro f hf
    obtain ⟨t, ht⟩ := h f (List.mem_of_mem_filter hf)
    exact generateValue_ok D d methodName f _ defaultRetVal t ht
  · intro f hf
    obtain ⟨t, ht⟩ := h f (List.mem_of_mem_filter hf)
    exact generateValue_ok D d methodName f _ defaultRetVal t ht
  · exact List.filter_append_perm (fun f => f.Required) m.Fields

/-- C7, at a concrete input: `editForumTopic` with the required `chat_id` and the optional
`name` and `icon_custom_emoji_id`. -/
theorem C7_argsToValues_order_witness :
    argsToValues sampleDeps editForumTopic sampleAPI "editForumTopic" "false"
        = .ok ("\nv[\"chat_id\"] = strconv.FormatInt(chatId, 10)\nif opts != nil \x7b\nv[\"name\"] = opts.Name\n// icon_custom_emoji_id has different behaviour if it's empty, or if it's unspecified; so we need to handle that.\nif opts.IconCustomEmojiId != nil \x7b\n\tv[\"icon_custom_emoji_id\"] = *opts.IconCustomEmojiId\n\x7d\n\x7d", false)
    ∧ (requiredFields editForumTopic ++ optionalFields editForumTopic).Perm
        editForumTopic.Fields := by
  have h := C7_argsToValues_order sampleDeps editForumTopic sampleAPI "editForumTopic" "false"
    (sample_prefs editForumTopic (by decide))
  refine ⟨?_, h.2.2.2⟩
  rw [h.1]
  set_option maxRecDepth 100000 in rfl

theorem generateMethodDef_call (D : Deps) (d : APIDescription) (m : MethodDescription)
    (out : String) (hout : generateMethodDef D d m = .ok out) :
    ∃ pre post retTypes valueGen hasData,
      argsToValues D m d m.Name (", ".intercalate (D.getDefaultReturnVals d retTypes))
        = .ok (valueGen, hasData)
      ∧ out = pre ++ valueGen ++ reqOptsBlock ++ requestCall m.Name hasData ++ post := by
  unfold generateMethodDef at hout
  cases hsig : generateMethodSignature D d m with
  | error e => simp [hsig] at hout
  | ok sig =>
    obtain ⟨methodSignature, retTypes, optionalsStruct⟩ := sig
    simp only [hsig] at hout
    cases hdesc : description D m with
    | error e => simp [hdesc] at hout
    | ok desc =>
      simp only [hdesc] at hout
      cases hargs : argsToValues D m d m.Name
          (", ".intercalate (D.getDefaultReturnVals d retTypes)) with
      | error e => simp [hargs] at hout
      | ok res =>
        obtain ⟨valueGen, hasData⟩ := res
        simp only [hargs] at hout
        cases hret : returnValues D d retTypes with
        | error e => simp [hret] at hout
        | ok returnGen =>
          simp only [hret, Except.ok.injEq] at hout
          refine ⟨(if optionalsStruct ≠ "" then "\n" ++ optionalsStruct else "") ++ desc
              ++ "\nfunc (bot *Bot) " ++ methodSignature ++ " \x7b"
              ++ "\n\tv := map[string]string\x7b\x7d",
            "\n\tif err != nil \x7b" ++ "\n\t\treturn "
              ++ ", ".intercalate (D.getDefaultReturnVals d retTypes) ++ ", err"
              ++ "\n\t\x7d" ++ "\n" ++ returnGen ++ "\n\x7d",
            retTypes, valueGen, hasData, hargs, ?_⟩
          rw [← hout]
          simp only [reqOptsBlock, String.append_assoc]

/-- C8: for every method (all of whose fields have a preferred type), `argsToValues`
returns `hasData = true` if and only if some field of the method has a preferred type
without scalar stringer that is `InputFile`, `InputMedia` or `[]InputMedia`; its text starts
with the declaration `data := map[string]NamedReader{}` exactly in that case; and in the
text of `generateMethodDef` the field encodings are followed by the `reqOpts` lines and by
the call `bot.Request(name, v, data, reqOpts)` in that case, and by the call with `nil` in
place of `data` otherwise. -/
theorem C8_hasData_iff_media (D : Deps) (m : MethodDescription) (d : APIDescription)
    (h : ∀ g ∈ m.Fields, ∃ t, D.getPreferredType g = .ok t) :
    (∀ methodName defaultRetVal : String, ∃ text,
        argsToValues D m d methodName defaultRetVal = .ok (text, m.Fields.any (mediaRouted D))
        ∧ hasPrefix text dataDecl = m.Fields.any (mediaRouted D))
    ∧ (m.Fields.any (mediaRouted D) = true ↔
        ∃ f ∈ m.Fields, D.goTypeStringer (prefType D f) = "" ∧
          (prefType D f = "InputFile" ∨ prefType D f = "InputMedia"
            ∨ prefType D f = "[]InputMedia"))
    ∧ (∀ out, generateMethodDef D d m = .ok out →
        ∃ pre post valueGen,
          hasPrefix valueGen dataDecl = m.Fields.any (mediaRouted D)
          ∧ out = pre ++ valueGen ++ reqOptsBlock
              ++ (if m.Fields.any (mediaRouted D)
                  then "\nr, err := bot.Request(\"" ++ m.Name ++ "\", v, data, reqOpts)"
                  else "\nr, err := bot.Request(\"" ++ m.Name ++ "\", v, nil, reqOpts)")
              ++ post) := by
  have hargs : ∀ methodName defaultRetVal : String, ∃ text,
      argsToValues D m d methodName defaultRetVal = .ok (text, m.Fields.any (mediaRouted D))
      ∧ hasPrefix text dataDecl = m.Fields.any (mediaRouted D) := by
    intro methodName defaultRetVal
    refine ⟨_, argsToValues_eq D m d methodName defaultRetVal h, ?_⟩
    by_cases hany : m.Fields.any (mediaRouted D) = true
    · rw [hany, if_pos rfl]
      exact hasPrefix_dataDecl_self _
    · have hany2 : m.Fields.any (mediaRouted D) = false := by simpa using hany
      rw [hany2]
      simp only [Bool.false_eq_true, if_false, String.empty_append]
      exact argsBody_noData D d m methodName defaultRetVal h hany2
  refine ⟨hargs, ?_, ?_⟩
  · simp [List.any_eq_true, mediaRouted]
  · intro out hout
    obtain ⟨pre, post, retTypes, valueGen, hasData, hv, ho⟩ :=
      generateMethodDef_call D d m out hout
    obtain ⟨text, ht, hp⟩ := hargs m.Name (", ".intercalate (D.getDefaultReturnVals d retTypes))
    rw [hv] at ht
    simp only [Except.ok.injEq, Prod.mk.injEq] at ht
    obtain ⟨rfl, rfl⟩ := ht
    exact ⟨pre, post, valueGen, hp, ho⟩

/-- C8, at a concrete input: `sendMediaGroup`, whose required `media` is a media sequence,
declares `data`; `editForumTopic`, which has only scalar fields, does not. -/
theorem C8_hasData_iff_media_witness :
    (∃ text, argsToValues sampleDeps sendMediaGroup sampleAPI "sendMediaGroup" "nil"
        = .ok (text, true) ∧ hasPrefix text dataDecl = true)
    ∧ (∃ text, argsToValues sampleDeps editForumTopic sampleAPI "editForumTopic" "false"
        = .ok (text, false) ∧ hasPrefix text dataDecl = false) := by
  have h1 := (C8_hasData_iff_media sampleDeps sendMediaGroup sampleAPI
    (sample_prefs sendMediaGroup (by decide))).1 "sendMediaGroup" "nil"
  have h2 := (C8_hasData_iff_media sampleDeps editForumTopic sampleAPI
    (sample_prefs editForumTopic (by decide))).1 "editForumTopic" "false"
  have e1 : sendMediaGroup.Fields.any (mediaRouted sampleDeps) = true := by decide
  have e2 : editForumTopic.Fields.any (mediaRouted sampleDeps) = false := by decide
  rw [e1] at h1
  rw [e2] at h2
  exact ⟨h1, h2⟩

/-! ## The generic composite strategy -/

theorem render_marshalBody (goParam dflt key : String) :
    renderList 1 (marshalBody goParam dflt key)
      = "\n\tbs, err := json.Marshal(" ++ goParam ++ ")"
        ++ "\n\tif err != nil \x7b"
        ++ "\n\t\treturn " ++ dflt ++ ", fmt.Errorf(\"failed to marshal field "
        ++ key ++ ": %w\", err)"
        ++ "\n\t\x7d"
        ++ "\n\tv[\"" ++ key ++ "\"] = string(bs)" := by
  simp only [marshalBody, render, renderList, renderCond, tabs, String.append_assoc]
  rfl

theorem render_marshalGuarded (goParam dflt key : String) :
    render 0 (marshalGuarded goParam dflt key)
      = "\nif " ++ goParam ++ " != nil \x7b"
        ++ renderList 1 (marshalBody goParam dflt key) ++ "\n\x7d" := by
  simp only [marshalGuarded, render, renderCond, tabs, String.append_assoc]
  rfl

theorem exec_marshalBody (goParam dflt key : String) (ρ : Scope) (fr : Frame) :
    execList ρ (marshalBody goParam dflt key) fr
      = match jsonMarshal ρ (evalExpr ρ goParam) with
        | .ok s => .running { v := (key, s) :: fr.v, bs := s, err := none }
        | .error m => .returned dflt ("failed to marshal field " ++ key ++ ": " ++ m) := by
  cases h : jsonMarshal ρ (evalExpr ρ goParam) with
  | ok s => simp [marshalBody, exec, execList, evalCond, h]
  | error m => simp [marshalBody, exec, execList, evalCond, h]

theorem exec_marshalGuarded_nil (goParam dflt key : String) (ρ : Scope) (fr : Frame)
    (h : evalExpr ρ goParam = GoVal.nil) :
    exec ρ (marshalGuarded goParam dflt key) fr = .running fr := by
  simp [marshalGuarded, exec, evalCond, h, evalExpr_nil]

theorem exec_marshalGuarded_set (goParam dflt key : String) (ρ : Scope) (fr : Frame)
    (h : evalExpr ρ goParam ≠ GoVal.nil) :
    exec ρ (marshalGuarded goParam dflt key) fr
      = execList ρ (marshalBody goParam dflt key) fr := by
  simp [marshalGuarded, exec, evalCond, h, evalExpr_nil]

theorem generateValue_generic (D : Deps) (d : APIDescription) (methodName : String)
    (f : Field) (goParam defaultRetVal t : String)
    (hpt : D.getPreferredType f = .ok t) (hs : D.goTypeStringer t = "")
    (h1 : t ≠ tgTypeInputFile) (h2 : t ≠ tgTypeInputMedia)
    (h3 : t ≠ "[]" ++ tgTypeInputMedia) :
    generateValue D d methodName f goParam defaultRetVal
      = .ok (if (isArray t || t == tgTypeReplyMarkup) = true
             then render 0 (marshalGuarded goParam defaultRetVal f.Name)
             else renderList 1 (marshalBody goParam defaultRetVal f.Name), false) := by
  rw [render_marshalGuarded, render_marshalBody]
  unfold generateValue
  simp only [hpt, hs, ne_eq, not_true_eq_false, if_false, h1, h2, h3]
  by_cases hg : (isArray t || t == tgTypeReplyMarkup) = true
  · simp only [hg, if_true, String.append_assoc]
  · simp only [hg, if_false, String.append_assoc, String.empty_append, String.append_empty,
      Bool.false_eq_true]

theorem marshalBody_head (goParam dflt key : String) :
    ∃ rest, (renderList 1 (marshalBody goParam dflt key)).data = '\n' :: '\t' :: rest := by
  rw [render_marshalBody]
  simp only [String.append_assoc]
  exact ⟨_, rfl⟩

theorem marshalBody_no_guard (goParam dflt key : String) :
    hasPrefix (renderList 1 (marshalBody goParam dflt key))
      ("\nif " ++ goParam ++ " != nil \x7b") = false := by
  obtain ⟨rest, hr⟩ := marshalBody_head goParam dflt key
  have hp : ("\nif " ++ goParam ++ " != nil \x7b").data
      = '\n' :: 'i' :: ("f ".data ++ goParam.data ++ " != nil \x7b".data) := by
    simp only [String.data_append]
    rfl
  simp [hasPrefix, hr, hp, List.isPrefixOf]

theorem marshalGuarded_guard (goParam dflt key : String) :
    hasPrefix (render 0 (marshalGuarded goParam dflt key))
      ("\nif " ++ goParam ++ " != nil \x7b") = true := by
  rw [render_marshalGuarded, String.append_assoc]
  simp only [hasPrefix]
  rw [String.data_append]
  exact List.isPrefixOf_iff_prefix.mpr (List.prefix_append _ _)

/-- C9: in the generic composite branch of `generateValue` (a preferred type without scalar
stringer that is not `InputFile`, `InputMedia` or `[]InputMedia`) the emitted text is the
serialisation and the write under the wire name (`marshalBody`), and it is wrapped in the
test `if <param> != nil { ... }` (`marshalGuarded`) if and only if the preferred type is an
array or is `ReplyMarkup`: the text starts with that test exactly in that case. Run with
an absent (nil) value, the wrapped code leaves the request unchanged, so nothing is written
under the wire name of an absent sequence or reply-markup field. -/
theorem C9_generic_guard_iff_array_or_markup (D : Deps) (d : APIDescription)
    (methodName : String) (f : Field) (goParam defaultRetVal t : String)
    (hpt : D.getPreferredType f = .ok t) (hs : D.goTypeStringer t = "")
    (h1 : t ≠ tgTypeInputFile) (h2 : t ≠ tgTypeInputMedia)
    (h3 : t ≠ "[]" ++ tgTypeInputMedia) :
    generateValue D d methodName f goParam defaultRetVal
        = .ok (if (isArray t || t == tgTypeReplyMarkup) = true
               then render 0 (marshalGuarded goParam defaultRetVal f.Name)
               else renderList 1 (marshalBody goParam defaultRetVal f.Name), false)
    ∧ render 0 (marshalGuarded goParam defaultRetVal f.Name)
        = "\nif " ++ goParam ++ " != nil \x7b"
          ++ renderList 1 (marshalBody goParam defaultRetVal f.Name) ++ "\n\x7d"
    ∧ (∀ text, generateValue D d methodName f goParam defaultRetVal = .ok (text, false) →
        (hasPrefix text ("\nif " ++ goParam ++ " != nil \x7b") = true
          ↔ (isArray t = true ∨ t = tgTypeReplyMarkup)))
    ∧ (∀ (ρ : Scope) (fr : Frame), evalExpr ρ goParam = GoVal.nil →
        exec ρ (marshalGuarded goParam defaultRetVal f.Name) fr = .running fr) := by
  have hgen := generateValue_generic D d methodName f goParam defaultRetVal t hpt hs h1 h2 h3
  refine ⟨hgen, render_marshalGuarded _ _ _, ?_, ?_⟩
  · intro text htext
    rw [hgen] at htext
    simp only [Except.ok.injEq, Prod.mk.injEq, and_true] at htext
    by_cases hg : (isArray t || t == tgTypeReplyMarkup) = true
    · rw [if_pos hg] at htext
      rw [← htext, marshalGuarded_guard]
      simpa using hg
    · rw [if_neg hg] at htext
      rw [← htext, marshalBody_no_guard]
      simpa using hg
  · intro ρ fr h
    exact exec_marshalGuarded_nil _ _ _ ρ fr h

/-- C9, at a concrete input: the optional sequence `entities` is encoded under a nil test,
and an absent sequence writes nothing. -/
theorem C9_generic_guard_iff_array_or_markup_witness :
    generateValue sampleDeps sampleAPI "sendMessage" entitiesField "opts.Entities" "nil"
        = .ok ("\nif opts.Entities != nil \x7b\n\tbs, err := json.Marshal(opts.Entities)\n\tif err != nil \x7b\n\t\treturn nil, fmt.Errorf(\"failed to marshal field entities: %w\", err)\n\t\x7d\n\tv[\"entities\"] = string(bs)\n\x7d", false)
    ∧ (exec absentScope (marshalGuarded "opts.Entities" "nil" "entities") emptyFrame).param
        "entities" = none := by
  have h := C9_generic_guard_iff_array_or_markup sampleDeps sampleAPI "sendMessage"
    entitiesField "opts.Entities" "nil" "[]MessageEntity" rfl (by decide) (by decide)
    (by decide) (by decide)
  refine ⟨?_, ?_⟩
  · rw [h.1]
    set_option maxRecDepth 100000 in rfl
  · have h4 := h.2.2.2 absentScope emptyFrame (by decide)
    have hn : entitiesField.Name = "entities" := rfl
    rw [hn] at h4
    rw [h4]
    decide

/-- C10 does not hold as stated: the optional nested object `reply_parameters`, held by
nullable reference, is routed to the generic composite strategy without a nil test, and in
a scope where it is absent (nil) the emitted code writes the JSON text `null` under its
wire name. -/
theorem C10_counterexample :
    generateValue sampleDeps sampleAPI "sendMessage" replyParamsField "opts.ReplyParameters"
        "nil"
      = .ok (renderList 1 (marshalBody "opts.ReplyParameters" "nil" "reply_parameters"), false)
    ∧ (isArray "*ReplyParameters" || "*ReplyParameters" == tgTypeReplyMarkup) = false
    ∧ evalExpr absentScope "opts.ReplyParameters" = GoVal.nil
    ∧ (execList absentScope (marshalBody "opts.ReplyParameters" "nil" "reply_parameters")
        emptyFrame).param "reply_parameters" = some "null" := by
  refine ⟨?_, by decide, by decide, by decide⟩
  have h := generateValue_generic sampleDeps sampleAPI "sendMessage" replyParamsField
    "opts.ReplyParameters" "nil" "*ReplyParameters" rfl (by decide) (by decide) (by decide)
    (by decide)
  rw [h, if_neg (by decide)]
  rfl

/-- C10, amended: for a field routed to the generic composite strategy whose type is neither
an array nor `ReplyMarkup`, `generateValue` emits the serialisation and the write without
any test on the value: the emitted code serialises the value and, when that succeeds, writes
the result under the wire name, and when it fails returns the default values with an error
naming the field. An absent (nil) reference serialises to the text `null`, which is what
gets written. -/
theorem C10_generic_unguarded_always_written (D : Deps) (d : APIDescription)
    (methodName : String) (f : Field) (goParam defaultRetVal t : String)
    (hpt : D.getPreferredType f = .ok t) (hs : D.goTypeStringer t = "")
    (h1 : t ≠ tgTypeInputFile) (h2 : t ≠ tgTypeInputMedia)
    (h3 : t ≠ "[]" ++ tgTypeInputMedia)
    (hg : (isArray t || t == tgTypeReplyMarkup) = false) :
    generateValue D d methodName f goParam defaultRetVal
        = .ok (renderList 1 (marshalBody goParam defaultRetVal f.Name), false)
    ∧ paramKeysList (marshalBody goParam defaultRetVal f.Name) = [f.Name]
    ∧ (∀ (ρ : Scope) (fr : Frame) (s : String),
        jsonMarshal ρ (evalExpr ρ goParam) = .ok s →
        execList ρ (marshalBody goParam defaultRetVal f.Name) fr
          = .running { v := (f.Name, s) :: fr.v, bs := s, err := none })
    ∧ (∀ (ρ : Scope) (fr : Frame) (e : String),
        jsonMarshal ρ (evalExpr ρ goParam) = .error e →
        execList ρ (marshalBody goParam defaultRetVal f.Name) fr
          = .returned defaultRetVal ("failed to marshal field " ++ f.Name ++ ": " ++ e))
    ∧ (∀ (ρ : Scope) (fr : Frame), evalExpr ρ goParam = GoVal.nil →
        execList ρ (marshalBody goParam defaultRetVal f.Name) fr
          = .running { v := (f.Name, "null") :: fr.v, bs := "null", err := none }) := by
  have hgen := generateValue_generic D d methodName f goParam defaultRetVal t hpt hs h1 h2 h3
  rw [if_neg (by simp [hg])] at hgen
  refine ⟨hgen, ?_, ?_, ?_, ?_⟩
  · simp [marshalBody, paramKeys, paramKeysList]
  · intro ρ fr s h
    rw [exec_marshalBody, h]
  · intro ρ fr e h
    rw [exec_marshalBody, h]
  · intro ρ fr h
    rw [exec_marshalBody, h]
    simp [jsonMarshal]

/-- C10 amended, at a concrete input: the absent `reply_parameters` is written as `null`. -/
theorem C10_generic_unguarded_always_written_witness :
    generateValue sampleDeps sampleAPI "sendMessage" replyParamsField "opts.ReplyParameters"
        "nil"
      = .ok ("\n\tbs, err := json.Marshal(opts.ReplyParameters)\n\tif err != nil \x7b\n\t\treturn nil, fmt.Errorf(\"failed to marshal field reply_parameters: %w\", err)\n\t\x7d\n\tv[\"reply_parameters\"] = string(bs)", false)
    ∧ execList absentScope (marshalBody "opts.ReplyParameters" "nil" "reply_parameters")
        emptyFrame
      = .running { v := [("reply_parameters", "null")], bs := "null", err := none } := by
  have h := C10_generic_unguarded_always_written sampleDeps sampleAPI "sendMessage"
    replyParamsField "opts.ReplyParameters" "nil" "*ReplyParameters" rfl (by decide)
    (by decide) (by decide) (by decide) (by decide)
  refine ⟨?_, ?_⟩
  · rw [h.1]
    set_option maxRecDepth 100000 in rfl
  · exact h.2.2.2.2 absentScope emptyFrame (by decide)

/-! ## Optional scalars -/

theorem render_plainWrite (key expr : String) :
    render 0 (plainWrite key expr) = "\n" ++ ("v[\"" ++ key ++ "\"] = " ++ expr) := by
  simp only [plainWrite, render, tabs, String.append_assoc]
  rfl

theorem generateValue_plain (D : Deps) (d : APIDescription) (methodName : String)
    (f : Field) (goParam defaultRetVal fieldType : String)
    (hpt : D.getPreferredType f = .ok fieldType)
    (hstr : D.goTypeStringer fieldType ≠ "")
    (hnum : ¬ (fieldType = "int64" ∨ fieldType = "float64"))
    (hnot : ¬ (methodName = "editForumTopic" ∧ f.Name = "icon_custom_emoji_id")) :
    generateValue D d methodName f goParam defaultRetVal
      = .ok (render 0 (plainWrite f.Name (D.Sprintf (D.goTypeStringer fieldType) goParam)),
          false) := by
  rw [render_plainWrite]
  unfold generateValue
  simp only [hpt]
  rw [if_pos hstr]
  by_cases hr : f.Required = false
  · rw [if_pos hr, if_neg hnum, if_neg hnot]
    rfl
  · rw [if_neg hr]
    rfl

/-- C11 does not hold as stated: the optional string `name` and the optional boolean
`disable_notification` are encoded by an unconditional write, so the empty string and
`false` are written under their wire names. -/
theorem C11_counterexample :
    generateValue sampleDeps sampleAPI "createForumTopic" nameField "opts.Name" "nil"
        = .ok (render 0 (plainWrite "name" "opts.Name"), false)
    ∧ evalExpr zeroScope "opts.Name" = GoVal.str ""
    ∧ (exec zeroScope (plainWrite "name" "opts.Name") emptyFrame).param "name" = some ""
    ∧ generateValue sampleDeps sampleAPI "sendMessage" silentField "opts.DisableNotification"
          "nil"
        = .ok (render 0 (plainWrite "disable_notification"
            "strconv.FormatBool(opts.DisableNotification)"), false)
    ∧ evalExpr zeroScope "opts.DisableNotification" = GoVal.bool false
    ∧ (exec zeroScope (plainWrite "disable_notification"
          "strconv.FormatBool(opts.DisableNotification)") emptyFrame).param
            "disable_notification" = some "false" := by
  refine ⟨?_, by decide, by decide, ?_, by decide, by decide⟩
  · exact generateValue_plain sampleDeps sampleAPI "createForumTopic" nameField "opts.Name"
      "nil" "string" rfl (by decide) (by decide) (by decide)
  · exact generateValue_plain sampleDeps sampleAPI "sendMessage" silentField
      "opts.DisableNotification" "nil" "bool" rfl (by decide) (by decide) (by decide)

/-- C11, amended: among the optional scalar fields (a preferred type with a scalar stringer)
other than the sentinel, only those of type `int64` or `float64`, and of these all but
`correct_option_id` of `sendPoll`, treat the zero value as absent: their write sits under the
test `<param> != <default value>`. Every other optional scalar, a string or a boolean, is
encoded by one unconditional write, so the parameter is written whatever the value is, the
zero value included. -/
theorem C11_optional_scalar_zero_rule (D : Deps) (d : APIDescription) (methodName : String)
    (f : Field) (goParam defaultRetVal fieldType : String)
    (hopt : f.Required = false)
    (hpt : D.getPreferredType f = .ok fieldType)
    (hstr : D.goTypeStringer fieldType ≠ "")
    (hsent : ¬ (methodName = "editForumTopic" ∧ f.Name = "icon_custom_emoji_id")) :
    ((fieldType = "int64" ∨ fieldType = "float64") →
      ¬ (methodName = "sendPoll" ∧ f.Name = "correct_option_id") →
        generateValue D d methodName f goParam defaultRetVal
          = .ok (render 0 (zeroGuard goParam (D.getDefaultTypeVal d fieldType) f.Name
              (D.Sprintf (D.goTypeStringer fieldType) goParam)), false)
        ∧ ∀ (ρ : Scope) (fr : Frame),
            evalExpr ρ goParam = evalExpr ρ (D.getDefaultTypeVal d fieldType) →
            exec ρ (zeroGuard goParam (D.getDefaultTypeVal d fieldType) f.Name
              (D.Sprintf (D.goTypeStringer fieldType) goParam)) fr = .running fr)
    ∧ (¬ (fieldType = "int64" ∨ fieldType = "float64") →
        generateValue D d methodName f goParam defaultRetVal
          = .ok (render 0 (plainWrite f.Name
              (D.Sprintf (D.goTypeStringer fieldType) goParam)), false)
        ∧ ∀ (ρ : Scope) (fr : Frame),
            exec ρ (plainWrite f.Name (D.Sprintf (D.goTypeStringer fieldType) goParam)) fr
              = .running { fr with v := (f.Name,
                  ρ.text (D.Sprintf (D.goTypeStringer fieldType) goParam)) :: fr.v }) := by
  refine ⟨?_, ?_⟩
  · intro hty hnot
    refine ⟨generateValue_zeroGuard D d methodName f goParam defaultRetVal fieldType hopt hpt
      hty hstr hnot, ?_⟩
    intro ρ fr h
    rw [exec_zeroGuard, if_neg (by simpa using h)]
  · intro hnum
    refine ⟨generateValue_plain D d methodName f goParam defaultRetVal fieldType hpt hstr hnum
      hsent, ?_⟩
    intro ρ fr
    simp [plainWrite, exec]

/-- C11 amended, at a concrete input: the optional integer `offset` with value 0 is left
out, the optional string `name` with the empty value is written. -/
theorem C11_optional_scalar_zero_rule_witness :
    (exec (offsetScope 0) (zeroGuard "opts.Offset" "0" "offset"
        "strconv.FormatInt(opts.Offset, 10)") emptyFrame).param "offset" = none
    ∧ (exec zeroScope (plainWrite "name" "opts.Name") emptyFrame).param "name" = some "" := by
  have h1 := (C11_optional_scalar_zero_rule sampleDeps sampleAPI "getUpdates" offsetField
    "opts.Offset" "nil" "int64" rfl rfl (by decide) (by decide)).1 (Or.inl rfl) (by decide)
  have h2 := (C11_optional_scalar_zero_rule sampleDeps sampleAPI "createForumTopic" nameField
    "opts.Name" "nil" "string" rfl rfl (by decide) (by decide)).2 (by decide)
  refine ⟨?_, ?_⟩
  · have e := h1.2 (offsetScope 0) emptyFrame (by decide)
    have hn : offsetField.Name = "offset" := rfl
    have hd : sampleDeps.getDefaultTypeVal sampleAPI "int64" = "0" := by decide
    have hx : sampleDeps.Sprintf (sampleDeps.goTypeStringer "int64") "opts.Offset"
        = "strconv.FormatInt(opts.Offset, 10)" := by decide
    rw [hn, hd, hx] at e
    rw [e]; decide
  · have e := h2.2 zeroScope emptyFrame
    have hn : nameField.Name = "name" := rfl
    have hx : sampleDeps.Sprintf (sampleDeps.goTypeStringer "string") "opts.Name"
        = "opts.Name" := by decide
    rw [hn, hx] at e
    rw [e]; decide

/-! ## `returnValues`: single returns and unsupported lists -/

theorem isArray_brackets (t : String) : isArray ("[]" ++ t) = true := by
  have hd : ("[]" ++ t).data = '[' :: ']' :: t.data := by
    rw [String.data_append]; rfl
  simp [isArray, hasPrefix, hd, List.isPrefixOf]

theorem trimArrayPrefix_brackets (t : String) : trimArrayPrefix ("[]" ++ t) = t := by
  have hd : ("[]" ++ t).data = '[' :: ']' :: t.data := by
    rw [String.data_append]; rfl
  simp [trimArrayPrefix, hd]

theorem returnValues_single (D : Deps) (d : APIDescription) (retType x : String)
    (hx : getRetVarName retType = .ok x) :
    returnValues D d [retType]
      = .ok (if isArray retType = true ∧ d.subtypesLen (trimArrayPrefix retType) ≠ 0
             then "\nreturn unmarshal" ++ trimArrayPrefix retType ++ "Array(r)"
             else if d.subtypesLen retType ≠ 0
             then "\nreturn unmarshal" ++ retType ++ "(r)"
             else "\nvar " ++ x ++ " " ++ retVarTypeOf retType
               ++ "\nreturn " ++ renderRet (retResultOf retType x)
               ++ ", json.Unmarshal(r, &" ++ x ++ ")") := by
  rw [renderRet_retResultOf]
  unfold returnValues
  simp only [hx, List.length_singleton, OfNat.one_ne_ofNat, false_and, if_false, ge_iff_le,
    Nat.not_ofNat_le_one, retVarTypeOf]
  split_ifs <;> simp only [String.append_assoc]

theorem hasPrefix_append_self (p s : String) : hasPrefix (p ++ s) p = true := by
  simp only [hasPrefix, String.data_append]
  exact List.isPrefixOf_iff_prefix.mpr (List.prefix_append _ _)

/-- C15: for a return-type list of length 1 (whose type has a name), `returnValues` succeeds
and emits exactly one of three decoders: `return unmarshal<T>Array(r)` when the return type
is `[]T` and `T` has a non-empty subtype set; otherwise `return unmarshal<T>(r)` when the
return type `T` itself has a non-empty subtype set; otherwise the direct decode, which
declares a variable of the return type without its pointer markers and returns it (its
address when the return type is a pointer) together with the error of `json.Unmarshal` into
it. Whenever one of the two subtype sets is non-empty the emitted text starts with
`return unmarshal`, so a polymorphic return type never gets the direct form. -/
theorem C15_single_return_decoder (D : Deps) (d : APIDescription) (retType x : String)
    (hx : getRetVarName retType = .ok x) :
    (∀ t, retType = "[]" ++ t → d.subtypesLen t ≠ 0 →
        returnValues D d [retType] = .ok ("\nreturn unmarshal" ++ t ++ "Array(r)"))
    ∧ (¬ (isArray retType = true ∧ d.subtypesLen (trimArrayPrefix retType) ≠ 0) →
        d.subtypesLen retType ≠ 0 →
        returnValues D d [retType] = .ok ("\nreturn unmarshal" ++ retType ++ "(r)"))
    ∧ (¬ (isArray retType = true ∧ d.subtypesLen (trimArrayPrefix retType) ≠ 0) →
        d.subtypesLen retType = 0 →
        returnValues D d [retType]
          = .ok ("\nvar " ++ x ++ " " ++ retVarTypeOf retType
              ++ "\nreturn " ++ (if isPointer retType then "&" else "") ++ x
              ++ ", json.Unmarshal(r, &" ++ x ++ ")"))
    ∧ ((isArray retType = true ∧ d.subtypesLen (trimArrayPrefix retType) ≠ 0)
          ∨ d.subtypesLen retType ≠ 0 →
        ∃ out, returnValues D d [retType] = .ok out
          ∧ hasPrefix out "\nreturn unmarshal" = true) := by
  have hgen := returnValues_single D d retType x hx
  refine ⟨?_, ?_, ?_, ?_⟩
  · intro t ht hsub
    have harr : isArray retType = true := by rw [ht]; exact isArray_brackets t
    have htrim : trimArrayPrefix retType = t := by rw [ht]; exact trimArrayPrefix_brackets t
    rw [hgen, if_pos ⟨harr, by rw [htrim]; exact hsub⟩, htrim]
  · intro h1 h2
    rw [hgen, if_neg h1, if_pos h2]
  · intro h1 h2
    rw [hgen, if_neg h1, if_neg (by simp [h2]), renderRet_retResultOf]
    simp only [String.append_assoc]
  · intro h
    by_cases h1 : isArray retType = true ∧ d.subtypesLen (trimArrayPrefix retType) ≠ 0
    · refine ⟨_, by rw [hgen, if_pos h1], ?_⟩
      rw [String.append_assoc]
      exact hasPrefix_append_self _ _
    · have h2 : d.subtypesLen retType ≠ 0 := by
        rcases h with h | h
        · exact absurd h h1
        · exact h
      refine ⟨_, by rw [hgen, if_neg h1, if_pos h2], ?_⟩
      rw [String.append_assoc]
      exact hasPrefix_append_self _ _

/-- C15, at a concrete input: a sequence of the polymorphic `ChatMember`, `ChatMember`
itself, and the plain pointer return `*Message`. -/
theorem C15_single_return_decoder_witness :
    returnValues sampleDeps polyAPI ["[]ChatMember"]
        = .ok "\nreturn unmarshalChatMemberArray(r)"
    ∧ returnValues sampleDeps polyAPI ["ChatMember"] = .ok "\nreturn unmarshalChatMember(r)"
    ∧ returnValues sampleDeps polyAPI ["*Message"]
        = .ok "\nvar m Message\nreturn &m, json.Unmarshal(r, &m)" := by
  have h1 := (C15_single_return_decoder sampleDeps polyAPI "[]ChatMember" "c" rfl).1
    "ChatMember" (by decide) (by decide)
  have h2 := (C15_single_return_decoder sampleDeps polyAPI "ChatMember" "c" rfl).2.1
    (by decide) (by decide)
  have h3 := (C15_single_return_decoder sampleDeps polyAPI "*Message" "m" rfl).2.2.1
    (by decide) (by decide)
  refine ⟨?_, ?_, ?_⟩
  · rw [h1]; rfl
  · rw [h2]; rfl
  · rw [h3]; rfl

theorem returnValues_unsupported (D : Deps) (d : APIDescription) (retType x : String)
    (rest : List String) (hx : getRetVarName retType = .ok x)
    (hlen : 2 ≤ (retType :: rest).length)
    (hdual : ¬ ((retType :: rest).length = 2 ∧ (retType :: rest).get? 1 = some "bool")) :
    returnValues D d (retType :: rest)
      = .error (.error ("no existing support for multiple return types of "
          ++ sliceText (retType :: rest))) := by
  unfold returnValues
  simp only [hx]
  rw [if_neg hdual, if_pos hlen]

theorem returnValues_supported (D : Deps) (d : APIDescription) (retType x : String)
    (rest : List String) (hx : getRetVarName retType = .ok x)
    (h : ¬ (2 ≤ (retType :: rest).length
      ∧ ¬ ((retType :: rest).length = 2 ∧ (retType :: rest).get? 1 = some "bool"))) :
    ∃ code, returnValues D d (retType :: rest) = .ok code := by
  by_cases hdual : (retType :: rest).length = 2 ∧ (retType :: rest).get? 1 = some "bool"
  · unfold returnValues
    simp only [hx]
    rw [if_pos hdual]
    exact ⟨_, rfl⟩
  · have hlen : ¬ 2 ≤ (retType :: rest).length := fun hl => h ⟨hl, hdual⟩
    have hlen2 : ¬ (retType :: rest).length ≥ 2 := hlen
    unfold returnValues
    simp only [hx]
    rw [if_neg hdual, if_neg hlen2]
    split_ifs <;> exact ⟨_, rfl⟩

theorem getRetVarName_crash (retType : String) (e : GoErr)
    (h : getRetVarName retType = .error e) :
    e = .crash "slice bounds out of range [:1] with length 0"
      ∧ dropBrackets (dropStars retType.data) = [] := by
  unfold getRetVarName at h
  cases hd : dropBrackets (dropStars retType.data) with
  | nil =>
    simp only [hd, Except.error.injEq] at h
    exact ⟨h.symm, rfl⟩
  | cons c cs => simp [hd] at h

theorem returnValues_crash (D : Deps) (d : APIDescription) (retType : String)
    (rest : List String) (e : GoErr) (h : getRetVarName retType = .error e) :
    returnValues D d (retType :: rest) = .error e := by
  unfold returnValues
  simp only [h]

theorem returnValues_dual_text (D : Deps) (d : APIDescription) (retType x : String)
    (hx : getRetVarName retType = .ok x) :
    returnValues D d [retType, "bool"]
      = .ok ("\nvar " ++ x ++ " " ++ retVarTypeOf retType
          ++ "\nif err := json.Unmarshal(r, &" ++ x ++ "); err != nil \x7b"
          ++ "\n\tvar b bool"
          ++ "\n\tif err := json.Unmarshal(r, &b); err != nil \x7b"
          ++ "\n\t\treturn " ++ D.getDefaultTypeVal d (retVarTypeOf retType) ++ ", false, err"
          ++ "\n\t\x7d"
          ++ "\n\treturn " ++ D.getDefaultTypeVal d (retVarTypeOf retType) ++ ", b, nil"
          ++ "\n\x7d"
          ++ "\nreturn " ++ (if isPointer retType then "&" else "") ++ x ++ ", true, nil"
          ++ "\n") := by
  rw [returnValues_dual D d retType x hx, render_dualDecoder, renderRet_retResultOf]
  simp only [String.append_assoc]

/-- C20 does not hold as stated: the list `["", "int64"]` has two elements and is not a
type followed by `bool`, yet `returnValues` does not return the error `no existing support
for multiple return types`: it panics in `getRetVarName`, which slices the first character
off the empty type name. The list `[""]` has length 1, and `returnValues` panics as well
instead of returning decoding code. -/
theorem C20_counterexample :
    returnValues sampleDeps sampleAPI ["", "int64"]
        = .error (.crash "slice bounds out of range [:1] with length 0")
    ∧ returnValues sampleDeps sampleAPI ["", "int64"]
        ≠ .error (.error ("no existing support for multiple return types of "
            ++ sliceText ["", "int64"]))
    ∧ (2 ≤ ["", "int64"].length
        ∧ ¬ (["", "int64"].length = 2 ∧ ["", "int64"].get? 1 = some "bool"))
    ∧ returnValues sampleDeps sampleAPI [""]
        = .error (.crash "slice bounds out of range [:1] with length 0")
    ∧ ¬ ∃ code, returnValues sampleDeps sampleAPI [""] = .ok code := by
  have h1 : returnValues sampleDeps sampleAPI ["", "int64"]
      = .error (.crash "slice bounds out of range [:1] with length 0") := rfl
  have h2 : returnValues sampleDeps sampleAPI [""]
      = .error (.crash "slice bounds out of range [:1] with length 0") := rfl
  refine ⟨h1, ?_, by decide, h2, ?_⟩
  · rw [h1]
    intro h
    simp only [Except.error.injEq] at h
    exact absurd h (by decide)
  · rintro ⟨code, hc⟩
    rw [h2] at hc
    exact absurd hc (by simp)

/-- C20, amended: take a non-empty return-type list `retType :: rest`. If the first type
still has a character once its leading `*` and then its leading `[]` markers are removed
(`getRetVarName` returns a name `x`), `returnValues` fails if and only if the list has at
least 2 elements and is not a 2-element list whose second element is `bool`, and the failure
is the error `no existing support for multiple return types of <list>`; for a list of
length 1 it returns the single decoder (one of `return unmarshal<T>Array(r)`,
`return unmarshal<T>(r)` and the direct `json.Unmarshal` form), and for a type followed by
`bool` it returns the dual decoder, which decodes into the type and else into a boolean.
If nothing is left of the first type, `getRetVarName` panics on the slice `[:1]` and so
does `returnValues`, whatever the rest of the list is. -/
theorem C20_multiple_returns_rejected (D : Deps) (d : APIDescription) (retType : String)
    (rest : List String) :
    (∀ x, getRetVarName retType = .ok x →
      ((∃ e, returnValues D d (retType :: rest) = .error e)
          ↔ (2 ≤ (retType :: rest).length
              ∧ ¬ ((retType :: rest).length = 2 ∧ (retType :: rest).get? 1 = some "bool")))
      ∧ (∀ e, returnValues D d (retType :: rest) = .error e →
          e = .error ("no existing support for multiple return types of "
            ++ sliceText (retType :: rest)))
      ∧ (rest = [] →
          returnValues D d (retType :: rest)
            = .ok (if isArray retType = true ∧ d.subtypesLen (trimArrayPrefix retType) ≠ 0
                   then "\nreturn unmarshal" ++ trimArrayPrefix retType ++ "Array(r)"
                   else if d.subtypesLen retType ≠ 0
                   then "\nreturn unmarshal" ++ retType ++ "(r)"
                   else "\nvar " ++ x ++ " " ++ retVarTypeOf retType
                     ++ "\nreturn " ++ (if isPointer retType then "&" else "") ++ x
                     ++ ", json.Unmarshal(r, &" ++ x ++ ")"))
      ∧ (rest = ["bool"] →
          returnValues D d (retType :: rest)
            = .ok ("\nvar " ++ x ++ " " ++ retVarTypeOf retType
                ++ "\nif err := json.Unmarshal(r, &" ++ x ++ "); err != nil \x7b"
                ++ "\n\tvar b bool"
                ++ "\n\tif err := json.Unmarshal(r, &b); err != nil \x7b"
                ++ "\n\t\treturn " ++ D.getDefaultTypeVal d (retVarTypeOf retType)
                ++ ", false, err"
                ++ "\n\t\x7d"
                ++ "\n\treturn " ++ D.getDefaultTypeVal d (retVarTypeOf retType) ++ ", b, nil"
                ++ "\n\x7d"
                ++ "\nreturn " ++ (if isPointer retType then "&" else "") ++ x
                ++ ", true, nil"
                ++ "\n")))
    ∧ (∀ e, getRetVarName retType = .error e →
        e = .crash "slice bounds out of range [:1] with length 0"
        ∧ dropBrackets (dropStars retType.data) = []
        ∧ returnValues D d (retType :: rest) = .error e)
    ∧ ((∃ x, getRetVarName retType = .ok x)
        ↔ dropBrackets (dropStars retType.data) ≠ []) := by
  refine ⟨?_, ?_, ?_⟩
  · intro x hx
    have key : ∀ e, returnValues D d (retType :: rest) = .error e →
        (2 ≤ (retType :: rest).length
          ∧ ¬ ((retType :: rest).length = 2 ∧ (retType :: rest).get? 1 = some "bool")) := by
      intro e he
      by_contra hc
      obtain ⟨code, hcode⟩ := returnValues_supported D d retType x rest hx hc
      rw [hcode] at he
      exact absurd he (by simp)
    refine ⟨⟨fun ⟨e, he⟩ => key e he, fun ⟨hl, hd⟩ =>
        ⟨_, returnValues_unsupported D d retType x rest hx hl hd⟩⟩, ?_, ?_, ?_⟩
    · intro e he
      obtain ⟨hl, hd⟩ := key e he
      rw [returnValues_unsupported D d retType x rest hx hl hd] at he
      simp only [Except.error.injEq] at he
      exact he.symm
    · intro hr
      rw [hr, returnValues_single D d retType x hx, renderRet_retResultOf]
      simp only [String.append_assoc]
    · intro hr
      rw [hr, returnValues_dual_text D d retType x hx]
  · intro e he
    obtain ⟨h1, h2⟩ := getRetVarName_crash retType e he
    exact ⟨h1, h2, returnValues_crash D d retType rest e he⟩
  · unfold getRetVarName
    cases hd : dropBrackets (dropStars retType.data) with
    | nil => simp
    | cons c cs => simp

/-- C20 amended, at a concrete input: the list `*Message, int64` is rejected with the error
that prints the list; the list `*Message` gets the direct decoder and the list
`*Message, bool` the dual decoder. -/
theorem C20_multiple_returns_rejected_witness :
    returnValues sampleDeps sampleAPI ["*Message", "int64"]
        = .error (.error "no existing support for multiple return types of [*Message int64]")
    ∧ returnValues sampleDeps sampleAPI ["*Message"]
        = .ok "\nvar m Message\nreturn &m, json.Unmarshal(r, &m)"
    ∧ returnValues sampleDeps sampleAPI ["*Message", "bool"]
        = .ok "\nvar m Message\nif err := json.Unmarshal(r, &m); err != nil \x7b\n\tvar b bool\n\tif err := json.Unmarshal(r, &b); err != nil \x7b\n\t\treturn Message\x7b\x7d, false, err\n\t\x7d\n\treturn Message\x7b\x7d, b, nil\n\x7d\nreturn &m, true, nil\n" := by
  have h := (C20_multiple_returns_rejected sampleDeps sampleAPI "*Message" ["int64"]).1 "m" rfl
  have h2 := (C20_multiple_returns_rejected sampleDeps sampleAPI "*Message" []).1 "m" rfl
  have h3 := (C20_multiple_returns_rejected sampleDeps sampleAPI "*Message" ["bool"]).1 "m" rfl
  obtain ⟨e, he⟩ := h.1.mpr (by decide)
  refine ⟨?_, ?_, ?_⟩
  · rw [he, h.2.1 e he]
    rfl
  · rw [h2.2.2.1 rfl]
    rfl
  · rw [h3.2.2.2 rfl]
    set_option maxRecDepth 100000 in rfl

/-! ## `generateMethods` -/

theorem generateMethodsLoop_ok (D : Deps) (d : APIDescription) (names : List String)
    (file : String)
    (h : ∀ n ∈ names, ∃ t, generateMethodDef D d (d.method n) = .ok t) :
    generateMethodsLoop D d names file
      = .ok (file ++ joinAll (names.map (methodText D d))) := by
  induction names generalizing file with
  | nil => simp [generateMethodsLoop, joinAll]
  | cons n rest ih =>
    obtain ⟨t, ht⟩ := h n (List.mem_cons_self _ _)
    have hrest : ∀ k ∈ rest, ∃ t, generateMethodDef D d (d.method k) = .ok t :=
      fun k hk => h k (List.mem_cons_of_mem _ hk)
    simp [generateMethodsLoop, ht, ih _ hrest, methodText, joinAll, String.append_assoc]

theorem generateMethodsLoop_fail (D : Deps) (d : APIDescription) (pre post : List String)
    (name file : String) (e : GoErr)
    (hpre : ∀ n ∈ pre, ∃ t, generateMethodDef D d (d.method n) = .ok t)
    (hfail : generateMethodDef D d (d.method name) = .error e) :
    generateMethodsLoop D d (pre ++ name :: post) file
      = .error (wrapErr ("failed to generate method definition of " ++ name) e) := by
  induction pre generalizing file with
  | nil => simp [generateMethodsLoop, hfail]
  | cons n rest ih =>
    obtain ⟨t, ht⟩ := hpre n (List.mem_cons_self _ _)
    have hrest : ∀ k ∈ rest, ∃ t, generateMethodDef D d (d.method k) = .ok t :=
      fun k hk => hpre k (List.mem_cons_of_mem _ hk)
    simp [generateMethodsLoop, ht, ih _ hrest]

theorem first_failure (D : Deps) (d : APIDescription) (names : List String)
    (h : ∃ n ∈ names, ∃ e, generateMethodDef D d (d.method n) = .error e) :
    ∃ pre name post e, names = pre ++ name :: post
      ∧ (∀ n ∈ pre, ∃ t, generateMethodDef D d (d.method n) = .ok t)
      ∧ generateMethodDef D d (d.method name) = .error e := by
  induction names with
  | nil => obtain ⟨n, hn, _⟩ := h; simp at hn
  | cons a rest ih =>
    cases ha : generateMethodDef D d (d.method a) with
    | error e => exact ⟨[], a, rest, e, rfl, by simp, ha⟩
    | ok t =>
      obtain ⟨n, hn, e, he⟩ := h
      have hn2 : n ∈ rest := by
        rcases List.mem_cons.mp hn with rfl | hr
        · rw [ha] at he; exact absurd he (by simp)
        · exact hr
      obtain ⟨pre, name, post, e2, hsplit, hpre, hfail⟩ := ih ⟨n, hn2, e, he⟩
      refine ⟨a :: pre, name, post, e2, by simp [hsplit], ?_, hfail⟩
      intro k hk
      rcases List.mem_cons.mp hk with rfl | hr
      · exact ⟨t, ha⟩
      · exact hpre k hr

/-- C18: if `generateMethodDef` returns an error for a method of the description, then
`generateMethods` returns, for the first such method in `orderedMethods` order, the error
`failed to generate method definition of <name>: <cause>`, and `writeGenToFile` is not
called; it is not called either when a method definition fails in any other way. When every
method compiles, `writeGenToFile` is called exactly once, for `gen_methods.go`, with the
header followed by the method definitions in `orderedMethods` order. -/
theorem C18_generateMethods_no_partial_output (D : Deps)
    (orderedMethods : APIDescription → List String)
    (writeGenToFile : String → String → Option GoErr) (d : APIDescription) :
    (∀ (pre post : List String) (name cause : String),
        orderedMethods d = pre ++ name :: post →
        (∀ n ∈ pre, ∃ t, generateMethodDef D d (d.method n) = .ok t) →
        generateMethodDef D d (d.method name) = .error (.error cause) →
        generateMethods D orderedMethods writeGenToFile d
          = { writes := [],
              result := some (.error ("failed to generate method definition of " ++ name
                ++ ": " ++ cause)) })
    ∧ ((∃ n ∈ orderedMethods d, ∃ e, generateMethodDef D d (d.method n) = .error e) →
        (generateMethods D orderedMethods writeGenToFile d).writes = []
        ∧ (generateMethods D orderedMethods writeGenToFile d).result ≠ none)
    ∧ ((∀ n ∈ orderedMethods d, ∃ t, generateMethodDef D d (d.method n) = .ok t) →
        generateMethods D orderedMethods writeGenToFile d
          = { writes := [(methodsHeader ++ joinAll ((orderedMethods d).map (methodText D d)),
                "gen_methods.go")],
              result := writeGenToFile
                (methodsHeader ++ joinAll ((orderedMethods d).map (methodText D d)))
                "gen_methods.go" }) := by
  refine ⟨?_, ?_, ?_⟩
  · intro pre post name cause hsplit hpre hfail
    unfold generateMethods
    rw [hsplit, generateMethodsLoop_fail D d pre post name methodsHeader _ hpre hfail]
    simp [wrapErr, String.append_assoc]
  · intro h
    obtain ⟨pre, name, post, e, hsplit, hpre, hfail⟩ := first_failure D d _ h
    unfold generateMethods
    rw [hsplit, generateMethodsLoop_fail D d pre post name methodsHeader _ hpre hfail]
    simp
  · intro h
    unfold generateMethods
    rw [generateMethodsLoop_ok D d _ methodsHeader h]

/-- C18, at a concrete input: with a broken second method nothing is written and the error
names `broken`; with only the good method the file is written once. -/
theorem C18_generateMethods_no_partial_output_witness :
    generateMethods sampleDeps declaredOrder writeOk brokenAPI
        = { writes := [],
            result := some (.error "failed to generate method definition of broken: failed to get args for method broken: failed to get preferred type: no types") }
    ∧ (generateMethods sampleDeps declaredOrder writeOk goodAPI).writes
        = [(methodsHeader ++ methodText sampleDeps goodAPI "getMe", "gen_methods.go")] := by
  have hgood1 : ∃ t, generateMethodDef sampleDeps brokenAPI (brokenAPI.method "getMe")
      = .ok t := by
    set_option maxRecDepth 100000 in exact ⟨_, rfl⟩
  have hgood2 : ∃ t, generateMethodDef sampleDeps goodAPI (goodAPI.method "getMe")
      = .ok t := by
    set_option maxRecDepth 100000 in exact ⟨_, rfl⟩
  have h1 := (C18_generateMethods_no_partial_output sampleDeps declaredOrder writeOk
    brokenAPI).1 ["getMe"] [] "broken"
    "failed to get args for method broken: failed to get preferred type: no types" rfl
    (by
      intro n hn
      simp only [List.mem_singleton] at hn
      rw [hn]
      exact hgood1)
    (by set_option maxRecDepth 100000 in rfl)
  have h2 := (C18_generateMethods_no_partial_output sampleDeps declaredOrder writeOk
    goodAPI).2.2 (by
      intro n hn
      have hn2 : n = "getMe" := by simpa [declaredOrder, goodAPI] using hn
      rw [hn2]
      exact hgood2)
  refine ⟨?_, ?_⟩
  · rw [h1]; rfl
  · rw [h2]
    simp [declaredOrder, goodAPI, joinAll]

/-! ## The older generator: `generateTypeDef` against its specification -/

namespace Legacy

theorem firstType_cons (f : TypeFields) (t0 : String) (rest : List String)
    (h : f.Types = t0 :: rest) : firstType f = t0 := by
  simp [firstType, h]

theorem typeFieldsLoop_eq (L : Deps) (d : APIDescription) (t : TypeDescription)
    (fs : List TypeFields) (h : ∀ f ∈ fs, f.Types ≠ []) (st : TypeDefState) :
    typeFieldsLoop L d t fs st
      = .ok { typeDef := st.typeDef
                ++ joinAll ((fs.filter (emitted t)).map (fun f => renderMember (memberOf L d f))),
              genCustomMarshalFields := st.genCustomMarshalFields
                ++ (fs.filter (emitted t)).filter (fun f => L.isTgArray (firstType f)) } := by
  induction fs generalizing st with
  | nil => simp [typeFieldsLoop, joinAll]
  | cons f rest ih =>
    have hrest : ∀ g ∈ rest, g.Types ≠ [] := fun g hg => h g (List.mem_cons_of_mem _ hg)
    have hf := h f (List.mem_cons_self _ _)
    cases hty : f.Types with
    | nil => exact absurd hty hf
    | cons t0 more =>
      have hft : firstType f = t0 := firstType_cons f t0 more hty
      by_cases hsup : isSubtypeOf t.SubtypeOf "InputMedia" = true ∧ f.Field = "type"
      · have hem : emitted t f = false := by simp [emitted, hsup.1, hsup.2]
        simp only [typeFieldsLoop, hty, hsup, and_self, if_true, ih hrest, List.filter_cons,
          hem, Bool.false_eq_true, if_false]
      · have hem : emitted t f = true := by
          simp only [emitted, Bool.not_eq_true', Bool.and_eq_false_imp, beq_eq_false_iff_ne]
          intro h1 h2
          exact hsup ⟨h1, by simpa using h2⟩
        simp only [typeFieldsLoop, hty, hsup, if_false, ih hrest, List.filter_cons, hem,
          if_true, List.map_cons, joinAll]
        by_cases harr : L.isTgArray t0 = true
        · simp [harr, hft, renderMember, memberOf, String.append_assoc]
        · simp [harr, hft, renderMember, memberOf, String.append_assoc]

theorem marshalDefaultsLoop_eq (L : Deps) (fs : List TypeFields)
    (h : ∀ f ∈ fs, f.Types ≠ []) :
    marshalDefaultsLoop L fs
      = .ok (joinAll (fs.map
          (fun f => renderDefault (L.snakeToTitle f.Field, L.toGoTypes (firstType f))))) := by
  induction fs with
  | nil => simp [marshalDefaultsLoop, joinAll]
  | cons f rest ih =>
    have hrest : ∀ g ∈ rest, g.Types ≠ [] := fun g hg => h g (List.mem_cons_of_mem _ hg)
    have hf := h f (List.mem_cons_self _ _)
    cases hty : f.Types with
    | nil => exact absurd hty hf
    | cons t0 more =>
      have hft : firstType f = t0 := firstType_cons f t0 more hty
      simp [marshalDefaultsLoop, hty, ih hrest, joinAll, renderDefault, hft,
        String.append_assoc]

theorem genCustomMarshal_eq (L : Deps) (name : String) (fs : List TypeFields)
    (h : ∀ f ∈ fs, f.Types ≠ []) :
    genCustomMarshal L name fs
      = .ok (renderOverride
          { typeName := name,
            discriminator :=
              if hasPrefix name "InputMedia"
              then some (L.ToLower (trimPrefix name "InputMedia")) else none,
            defaults := fs.map
              (fun f => (L.snakeToTitle f.Field, L.toGoTypes (firstType f))) }) := by
  unfold genCustomMarshal
  rw [marshalDefaultsLoop_eq L fs h]
  by_cases hp : hasPrefix name "InputMedia" = true
  · simp [renderOverride, hp, List.map_map, Function.comp_def, String.append_assoc]
  · simp [renderOverride, hp, List.map_map, Function.comp_def, String.append_assoc]

theorem generateTypeDef_interface (L : Deps) (d : APIDescription) (name : String)
    (h : (d.typeOf name).Fields = []) :
    generateTypeDef L d name
      = .ok (docsOf d name ++ "\ntype " ++ name ++ " interface\x7b\x7d") := by
  simp [generateTypeDef, h, docsOf]

theorem generateTypeDef_struct (L : Deps) (d : APIDescription) (name : String)
    (hne : (d.typeOf name).Fields ≠ [])
    (hty : ∀ f ∈ (d.typeOf name).Fields, f.Types ≠ []) :
    generateTypeDef L d name = .ok (docsOf d name ++ renderStruct (structOf L d name)) := by
  have hlen : ¬ (d.typeOf name).Fields.length = 0 := by
    simpa [List.length_eq_zero] using hne
  have hseq : ∀ f ∈ sequenceFields L (d.typeOf name), f.Types ≠ [] := by
    intro f hf
    exact hty f (List.mem_of_mem_filter (List.mem_of_mem_filter hf))
  unfold generateTypeDef
  simp only [hlen, if_false, typeFieldsLoop_eq L d _ _ hty, List.nil_append]
  by_cases hs : sequenceFields L (d.typeOf name) = []
  · have hs2 : List.filter (fun f => L.isTgArray (firstType f))
        (List.filter (emitted (d.typeOf name)) (d.typeOf name).Fields) = [] := hs
    simp only [hs2, List.length_nil, gt_iff_lt, lt_self_iff_false, if_false, renderStruct,
      structOf, overrideOf, if_pos hs]
    simp only [docsOf, List.map_map, Function.comp_def, String.append_assoc,
      String.append_empty]
  · have hpos : (sequenceFields L (d.typeOf name)).length > 0 := List.length_pos.mpr hs
    have hpos2 : (List.filter (fun f => L.isTgArray (firstType f))
        (List.filter (emitted (d.typeOf name)) (d.typeOf name).Fields)).length > 0 := hpos
    have hg := genCustomMarshal_eq L name (sequenceFields L (d.typeOf name)) hseq
    unfold sequenceFields at hg
    simp only [hpos2, if_true, hg]
    simp only [renderStruct, structOf, overrideOf, if_neg hs]
    simp only [docsOf, List.map_map, Function.comp_def, String.append_assoc, sequenceFields]

end Legacy

namespace Legacy

theorem runDefaults_eq (ds : List (String × String)) (a : List (String × Member)) :
    runDefaults ds a
      = a.map (fun p => if p.1 ∈ ds.map Prod.fst ∧ p.2 = Member.nilSeq
          then (p.1, Member.seq []) else p) := by
  induction ds generalizing a with
  | nil => simp [runDefaults]
  | cons x rest ih =>
    simp only [runDefaults, ih, applyDefault, List.map_map, List.map_cons, List.mem_cons]
    apply List.map_congr_left
    intro p _
    obtain ⟨n, y⟩ := p
    simp only [Function.comp_apply]
    by_cases hy : y = Member.nilSeq
    · by_cases hx : n = x.1
      · simp [hy, hx]
      · by_cases hr : n ∈ rest.map Prod.fst
        · simp [hy, hx, hr]
        · simp [hy, hx, hr]
    · simp [hy]

theorem encodeFields_defaults (c : Codec) (o : MarshalOverride) (members : List MemberDecl)
    (v : List Member) :
    encodeFields c members
        ((runDefaults o.defaults ((members.map (fun m => m.goName)).zip v)).map Prod.snd)
      = List.zipWith (fun m x => (m.wire, (defaultedVal o m x).toJ c)) members v := by
  rw [runDefaults_eq]
  induction members generalizing v with
  | nil => simp [encodeFields]
  | cons m rest ih =>
    cases v with
    | nil => simp [encodeFields]
    | cons x xs =>
      have ih2 := ih xs
      simp only [encodeFields] at ih2
      simp only [encodeFields, List.map_cons, List.zip_cons_cons, List.zipWith_cons_cons,
        List.cons.injEq, Prod.mk.injEq, true_and]
      refine ⟨?_, ih2⟩
      by_cases h : m.goName ∈ o.defaults.map Prod.fst ∧ x = Member.nilSeq
      · simp [defaultedVal, h.1, h.2]
      · simp only [defaultedVal, if_neg h]

theorem defaultedVal_not_null (c : Codec) (o : MarshalOverride) (m : MemberDecl) (x : Member)
    (h : m.goName ∈ o.defaults.map Prod.fst) :
    (defaultedVal o m x).toJ c ≠ JVal.null
      ∧ (x = Member.nilSeq → (defaultedVal o m x).toJ c = JVal.arr []) := by
  cases x with
  | nilSeq => simp [defaultedVal, h, Member.toJ]
  | seq items => simp [defaultedVal, Member.toJ]
  | plain y => simp [defaultedVal, Member.toJ]

end Legacy

namespace Legacy

/-- C14: for a type with zero fields `generateTypeDef` emits, after the documentation
comments, exactly the empty interface declaration `type <Name> interface{}`, and nothing
else; for a type with at least one field (each with a candidate type) it emits a struct
whose members are, in declared field order, one per field except a suppressed `type` field
of the media family, each preceded by the field's description as a comment, named
`snakeToTitle(wire name)` and tagged `json:"<wire name>"` with the wire name as it is. -/
theorem C14_type_declaration_shape (L : Deps) (d : APIDescription) (name : String) :
    ((d.typeOf name).Fields = [] →
        generateTypeDef L d name
          = .ok (typeDocLines (d.typeOf name).Description ++ "\n// " ++ (d.typeOf name).Href
              ++ "\ntype " ++ name ++ " interface\x7b\x7d"))
    ∧ ((d.typeOf name).Fields ≠ [] → (∀ f ∈ (d.typeOf name).Fields, f.Types ≠ []) →
        generateTypeDef L d name
            = .ok (typeDocLines (d.typeOf name).Description ++ "\n// " ++ (d.typeOf name).Href
                ++ renderStruct (structOf L d name))
        ∧ (structOf L d name).members
            = ((d.typeOf name).Fields.filter
                (fun f => !(isSubtypeOf (d.typeOf name).SubtypeOf "InputMedia"
                  && f.Field == "type"))).map (memberOf L d)
        ∧ (∀ s : StructDecl, ∃ tail, renderStruct s
            = "\ntype " ++ s.name ++ " struct \x7b" ++ joinAll (s.members.map renderMember)
              ++ "\n\x7d" ++ tail)
        ∧ (∀ f : TypeFields, ∃ goType, renderMember (memberOf L d f)
            = "\n// " ++ f.Description ++ "\n" ++ L.snakeToTitle f.Field ++ " " ++ goType
              ++ " `json:\"" ++ f.Field ++ "\"`")) := by
  refine ⟨?_, ?_⟩
  · intro h
    have := generateTypeDef_interface L d name h
    simpa [docsOf, String.append_assoc] using this
  · intro hne hty
    refine ⟨?_, rfl, ?_, ?_⟩
    · have := generateTypeDef_struct L d name hne hty
      simpa [docsOf, String.append_assoc] using this
    · intro s
      exact ⟨_, rfl⟩
    · intro f
      exact ⟨_, rfl⟩

/-- C14, at a concrete input: the marker type `InputMedia` and the old form of
`InputMediaPhoto`, whose `type` field is left out of the struct. -/
theorem C14_type_declaration_shape_witness :
    generateTypeDef sampleDeps mediaAPI "InputMedia"
        = .ok "\n// This object represents the content of a media message to be sent.\n// https://core.telegram.org/bots/api#inputmedia\ntype InputMedia interface\x7b\x7d"
    ∧ generateTypeDef sampleDeps oldMediaAPI "InputMediaPhoto"
        = .ok "\n// Represents a photo to be sent.\n// https://core.telegram.org/bots/api#inputmediaphoto\ntype InputMediaPhoto struct \x7b\n// File to send\nMedia string `json:\"media\"`\n// Optional. Caption of the photo\nCaption string `json:\"caption\"`\n\x7d" := by
  have h1 := (C14_type_declaration_shape sampleDeps mediaAPI "InputMedia").1 rfl
  have h2 := ((C14_type_declaration_shape sampleDeps oldMediaAPI "InputMediaPhoto").2
    (by decide) (by decide)).1
  refine ⟨?_, ?_⟩
  · rw [h1]
    set_option maxRecDepth 100000 in rfl
  · rw [h2]
    set_option maxRecDepth 100000 in rfl

/-- C12: for every type with at least one field (each with a candidate type),
`generateTypeDef` emits the struct followed by the `MarshalJSON` override of `structOf`,
and that override is present if and only if some emitted field has an array first
candidate type. The override holds one nil test per such field, in declared order, for
the member `snakeToTitle(wire name)` and the sequence type `toGoTypes(first candidate)`;
run on the copy of the value, the tests replace each nil member among them by an empty
sequence. So the entry the encoder writes for such a member is never `null`, and it is
the empty array when the member was never set. -/
theorem C12_defaulted_array_override (L : Deps) (d : APIDescription) (name : String)
    (hne : (d.typeOf name).Fields ≠ [])
    (hty : ∀ f ∈ (d.typeOf name).Fields, f.Types ≠ []) :
    generateTypeDef L d name = .ok (docsOf d name ++ renderStruct (structOf L d name))
    ∧ ((structOf L d name).override ≠ none
        ↔ ∃ f ∈ (d.typeOf name).Fields,
            emitted (d.typeOf name) f = true ∧ L.isTgArray (firstType f) = true)
    ∧ (∀ o, (structOf L d name).override = some o →
        o.defaults = (sequenceFields L (d.typeOf name)).map
            (fun f => (L.snakeToTitle f.Field, L.toGoTypes (firstType f)))
        ∧ renderOverride o
            = "\n" ++ "\nfunc (v " ++ o.typeName ++ ") MarshalJSON() ([]byte, error) \x7b"
              ++ "\n\ttype alias " ++ o.typeName
              ++ "\n\ta := struct\x7b"
              ++ (match o.discriminator with
                  | some _ => "\n\t\tType string `json:\"type\"`"
                  | none => "")
              ++ "\n\t\talias" ++ "\n\t\x7d\x7b"
              ++ (match o.discriminator with
                  | some t => "\n\t\tType: \"" ++ t ++ "\","
                  | none => "")
              ++ "\n\t\talias: (alias)(v)," ++ "\n\t\x7d"
              ++ joinAll (o.defaults.map (fun x =>
                  "\n\tif a." ++ x.1 ++ " == nil \x7b"
                    ++ "\n\t\ta." ++ x.1 ++ " = make(" ++ x.2 ++ ", 0)" ++ "\n\t\x7d"))
              ++ "\nreturn json.Marshal(a)" ++ "\n\x7d"
        ∧ (∀ a : List (String × Member), runDefaults o.defaults a
            = a.map (fun p => if p.1 ∈ o.defaults.map Prod.fst ∧ p.2 = Member.nilSeq
                then (p.1, Member.seq []) else p))
        ∧ (∀ (c : Codec) (v : List Member),
            encodeFields c (structOf L d name).members
                ((runDefaults o.defaults
                  (((structOf L d name).members.map (fun m => m.goName)).zip v)).map Prod.snd)
              = List.zipWith (fun m x => (m.wire, (defaultedVal o m x).toJ c))
                  (structOf L d name).members v)
        ∧ (∀ (c : Codec) (m : MemberDecl) (x : Member),
            m.goName ∈ o.defaults.map Prod.fst →
            (defaultedVal o m x).toJ c ≠ JVal.null
              ∧ (x = Member.nilSeq → (defaultedVal o m x).toJ c = JVal.arr []))) := by
  refine ⟨generateTypeDef_struct L d name hne hty, ?_, ?_⟩
  · simp only [structOf, overrideOf, sequenceFields, ne_eq, ite_eq_left_iff,
      reduceCtorEq, imp_false, not_not]
    constructor
    · intro h
      obtain ⟨f, hf⟩ := List.exists_mem_of_ne_nil _ h
      have h1 := List.mem_filter.mp hf
      have h2 := List.mem_filter.mp h1.1
      exact ⟨f, h2.1, h2.2, h1.2⟩
    · rintro ⟨f, hf, hem, harr⟩ hnil
      have : f ∈ List.filter (fun f => L.isTgArray (firstType f))
          (List.filter (emitted (d.typeOf name)) (d.typeOf name).Fields) :=
        List.mem_filter.mpr ⟨List.mem_filter.mpr ⟨hf, hem⟩, harr⟩
      rw [hnil] at this
      simp at this
  · intro o ho
    refine ⟨?_, rfl, runDefaults_eq _, fun c v => encodeFields_defaults c o _ v,
      fun c m x h => defaultedVal_not_null c o m x h⟩
    simp only [structOf, overrideOf] at ho
    by_cases hs : sequenceFields L (d.typeOf name) = []
    · rw [if_pos hs] at ho
      exact absurd ho (by simp)
    · rw [if_neg hs] at ho
      simp only [Option.some.injEq] at ho
      rw [← ho]

/-- C12, at a concrete input: the poll type gets an override with the nil test for
`Options`, and a poll whose options were never set is encoded with `options` as the empty
array. -/
theorem C12_defaulted_array_override_witness :
    (structOf sampleDeps mediaAPI "Poll").override
        = some { typeName := "Poll", discriminator := none,
                 defaults := [("Options", "[]PollOption")] }
    ∧ encodeStruct sampleCodec (structOf sampleDeps mediaAPI "Poll")
          [Member.plain (GoVal.str "p1"), Member.nilSeq]
        = [("id", JVal.raw "\"p1\""), ("options", JVal.arr [])] := by
  have h := C12_defaulted_array_override sampleDeps mediaAPI "Poll" (by decide) (by decide)
  have ho : (structOf sampleDeps mediaAPI "Poll").override
      = some { typeName := "Poll", discriminator := none,
               defaults := [("Options", "[]PollOption")] } := by decide
  obtain ⟨_, _, h3⟩ := h
  have h4 := (h3 _ ho).2.2.2.1 sampleCodec [Member.plain (GoVal.str "p1"), Member.nilSeq]
  refine ⟨ho, ?_⟩
  simp only [encodeStruct, ho]
  rw [h4]
  decide
end Legacy

namespace Legacy

/-! ### Encoding and decoding back -/

theorem ofJ_toJ (c : Codec) (x : Member) (h : ∀ y ∈ x.vals, c.dec (c.enc y) = y) :
    Member.ofJ c (x.toJ c) = x := by
  cases x with
  | nilSeq => rfl
  | seq items =>
    simp only [Member.toJ, Member.ofJ, List.map_map, Member.seq.injEq]
    have : ∀ y ∈ items, (c.dec ∘ c.enc) y = id y := fun y hy => h y hy
    rw [List.map_congr_left this, List.map_id]
  | plain y =>
    simp only [Member.toJ, Member.ofJ, Member.plain.injEq]
    exact h y (by simp [Member.vals])

theorem defaultedVal_vals (o : MarshalOverride) (m : MemberDecl) (x : Member) :
    ∀ y ∈ (defaultedVal o m x).vals, y ∈ x.vals := by
  intro y hy
  unfold defaultedVal at hy
  split_ifs at hy with h
  · simp [Member.vals] at hy
  · exact hy

theorem decode_entries (c : Codec) (g : MemberDecl → Member → Member)
    (members : List MemberDecl) :
    ∀ (pre : List (String × JVal)) (v zero : List Member),
      (members.map (fun m => m.wire)).Nodup →
      (∀ m ∈ members, pre.lookup m.wire = none) →
      v.length = members.length → zero.length = members.length →
      (∀ m x, (m, x) ∈ members.zip v → Member.ofJ c ((g m x).toJ c) = g m x) →
      List.zipWith (fun m z =>
          match (pre ++ List.zipWith (fun m x => (m.wire, (g m x).toJ c)) members v).lookup
              m.wire with
          | some j => Member.ofJ c j
          | none => z) members zero
        = List.zipWith g members v := by
  induction members with
  | nil => intro pre v zero _ _ _ _ _; simp
  | cons m rest ih =>
    intro pre v zero hnd hpre hv hz hrt
    cases v with
    | nil => simp at hv
    | cons x xs =>
      cases zero with
      | nil => simp at hz
      | cons z zs =>
        simp only [List.map_cons, List.nodup_cons] at hnd
        have hhead : (pre ++ (m.wire, (g m x).toJ c)
            :: List.zipWith (fun m x => (m.wire, (g m x).toJ c)) rest xs).lookup m.wire
            = some ((g m x).toJ c) := by
          rw [List.lookup_append, hpre m (List.mem_cons_self _ _)]
          simp
        have hpre2 : ∀ m2 ∈ rest, (pre ++ [(m.wire, (g m x).toJ c)]).lookup m2.wire = none := by
          intro m2 hm2
          rw [List.lookup_append, hpre m2 (List.mem_cons_of_mem _ hm2)]
          have hne : m2.wire ≠ m.wire := by
            intro e
            exact hnd.1 (List.mem_map.mpr ⟨m2, hm2, e⟩)
          have hb : (m2.wire == m.wire) = false := by simpa using hne
          simp [List.lookup, hb]
        have ih2 := ih (pre ++ [(m.wire, (g m x).toJ c)]) xs zs hnd.2 hpre2
          (by simpa using hv) (by simpa using hz)
          (fun m2 x2 h2 => hrt m2 x2 (by simp [h2]))
        simp only [List.append_assoc, List.singleton_append] at ih2
        simp only [List.zipWith_cons_cons, hhead, List.cons.injEq]
        exact ⟨hrt m x (by simp), ih2⟩

theorem decode_encodeFields (c : Codec) (g : MemberDecl → Member → Member)
    (members : List MemberDecl) (v zero : List Member) (pre : List (String × JVal))
    (hnd : (members.map (fun m => m.wire)).Nodup)
    (hpre : ∀ m ∈ members, pre.lookup m.wire = none)
    (hv : v.length = members.length) (hz : zero.length = members.length)
    (hrt : ∀ m x, (m, x) ∈ members.zip v → Member.ofJ c ((g m x).toJ c) = g m x) :
    List.zipWith (fun m z =>
        match (pre ++ List.zipWith (fun m x => (m.wire, (g m x).toJ c)) members v).lookup
            m.wire with
        | some j => Member.ofJ c j
        | none => z) members zero
      = List.zipWith g members v :=
  decode_entries c g members pre v zero hnd hpre hv hz hrt

theorem zipWith_snd (members : List MemberDecl) (v : List Member)
    (hv : v.length = members.length) :
    List.zipWith (fun _ x => x) members v = v := by
  induction members generalizing v with
  | nil =>
    cases v with
    | nil => rfl
    | cons x xs => simp at hv
  | cons m rest ih =>
    cases v with
    | nil => simp at hv
    | cons x xs =>
      simp only [List.zipWith_cons_cons, List.cons.injEq, true_and]
      exact ih xs (by simpa using hv)

theorem mem_zip_snd (members : List MemberDecl) (v : List Member) (m : MemberDecl)
    (x : Member) (h : (m, x) ∈ members.zip v) : x ∈ v :=
  (List.of_mem_zip h).2

theorem entry_key_mem (J : MemberDecl → Member → JVal) (members : List MemberDecl)
    (v : List Member) :
    ∀ e ∈ List.zipWith (fun m x => (m.wire, J m x)) members v,
      ∃ m ∈ members, e.1 = m.wire := by
  induction members generalizing v with
  | nil => intro e he; simp at he
  | cons m rest ih =>
    cases v with
    | nil => intro e he; simp at he
    | cons x xs =>
      intro e he
      simp only [List.zipWith_cons_cons, List.mem_cons] at he
      rcases he with rfl | he
      · exact ⟨m, List.mem_cons_self _ _, rfl⟩
      · obtain ⟨m2, hm2, h2⟩ := ih xs e he
        exact ⟨m2, List.mem_cons_of_mem _ hm2, h2⟩

theorem roundTrip_eq (c : Codec) (s : StructDecl) (v zero : List Member)
    (hnd : (s.members.map (fun m => m.wire)).Nodup)
    (hv : v.length = s.members.length) (hz : zero.length = s.members.length)
    (hrt : c.RoundTrips v)
    (hclash : ∀ o t, s.override = some o → o.discriminator = some t →
      ∀ m ∈ s.members, m.wire ≠ "type") :
    decodeStruct c s (encodeStruct c s v) zero = normalised s v := by
  unfold decodeStruct encodeStruct normalised
  cases ho : s.override with
  | none =>
    simp only [encodeFields]
    have h := decode_encodeFields c (fun _ x => x) s.members v zero [] hnd (by simp) hv hz
      (fun m x hx => ofJ_toJ c x (hrt x (mem_zip_snd _ _ m x hx)))
    simp only [List.nil_append] at h
    rw [h, zipWith_snd _ _ hv]
  | some o =>
    simp only [encodeFields_defaults]
    have hg : ∀ m x, (m, x) ∈ s.members.zip v →
        Member.ofJ c ((defaultedVal o m x).toJ c) = defaultedVal o m x := by
      intro m x hx
      apply ofJ_toJ
      intro y hy
      exact hrt x (mem_zip_snd _ _ m x hx) y (defaultedVal_vals o m x y hy)
    cases hd : o.discriminator with
    | none =>
      have h := decode_encodeFields c (defaultedVal o) s.members v zero [] hnd (by simp) hv hz
        hg
      simp only [List.nil_append] at h
      exact h
    | some t =>
      have hno := hclash o t ho hd
      have hfilter : (List.zipWith (fun m x => (m.wire, (defaultedVal o m x).toJ c))
            s.members v).filter (fun e => e.1 ≠ "type")
          = List.zipWith (fun m x => (m.wire, (defaultedVal o m x).toJ c)) s.members v := by
        rw [List.filter_eq_self]
        intro e he
        obtain ⟨m, hm, hk⟩ := entry_key_mem _ _ _ e he
        have := hno m hm
        simp only [ne_eq, decide_not, Bool.not_eq_eq_eq_not, Bool.not_true,
          decide_eq_false_iff_not]
        rw [hk]
        exact this
      rw [hfilter]
      have hpre : ∀ m ∈ s.members,
          List.lookup m.wire [("type", JVal.str t)] = none := by
        intro m hm
        have hb : (m.wire == "type") = false := by simpa using hno m hm
        simp [List.lookup, hb]
      have h := decode_encodeFields c (defaultedVal o) s.members v zero
        [("type", JVal.str t)] hnd hpre hv hz hg
      simp only [List.singleton_append] at h
      exact h

end Legacy

namespace Legacy

theorem zipWith_eq_self_iff (f : MemberDecl → Member → Member) (members : List MemberDecl)
    (v : List Member) (hv : v.length = members.length) :
    List.zipWith f members v = v ↔ ∀ m x, (m, x) ∈ members.zip v → f m x = x := by
  induction members generalizing v with
  | nil =>
    cases v with
    | nil => simp
    | cons x xs => simp at hv
  | cons m rest ih =>
    cases v with
    | nil => simp at hv
    | cons x xs =>
      have ih2 := ih xs (by simpa using hv)
      simp only [List.zipWith_cons_cons, List.cons.injEq, List.zip_cons_cons, List.mem_cons,
        Prod.mk.injEq, ih2]
      constructor
      · rintro ⟨h1, h2⟩ m2 x2 (⟨rfl, rfl⟩ | h)
        · exact h1
        · exact h2 m2 x2 h
      · intro h
        exact ⟨h m x (Or.inl ⟨rfl, rfl⟩), fun m2 x2 h2 => h m2 x2 (Or.inr h2)⟩

theorem defaultedVal_eq_self_iff (o : MarshalOverride) (m : MemberDecl) (x : Member) :
    defaultedVal o m x = x ↔ (m.goName ∈ o.defaults.map Prod.fst → x ≠ Member.nilSeq) := by
  unfold defaultedVal
  by_cases h : m.goName ∈ o.defaults.map Prod.fst ∧ x = Member.nilSeq
  · rw [if_pos h]
    constructor
    · intro e
      rw [h.2] at e
      exact absurd e (by simp)
    · intro e
      exact absurd h.2 (e h.1)
  · rw [if_neg h]
    simp only [true_iff]
    intro hm hx
    exact h ⟨hm, hx⟩

theorem structOf_discriminator (L : Deps) (d : APIDescription) (name : String)
    (o : MarshalOverride) (t : String) (ho : (structOf L d name).override = some o)
    (ht : o.discriminator = some t) : hasPrefix name "InputMedia" = true := by
  simp only [structOf, overrideOf] at ho
  by_cases hs : sequenceFields L (d.typeOf name) = []
  · rw [if_pos hs] at ho
    exact absurd ho (by simp)
  · rw [if_neg hs] at ho
    simp only [Option.some.injEq] at ho
    rw [← ho] at ht
    by_contra hp
    simp [hp] at ht

/-- C13: the older form of `InputMediaPhoto` lists `InputMedia` in its subtypeOf set and
declares a field named `type`, but has no sequence field. `generateTypeDef` leaves the
field out of the struct and emits no `MarshalJSON` override, so the encoded value has no
`type` entry at all. The newer form, which has a sequence field, gets the override with
the discriminator `photo`. -/
theorem C13_discriminator_needs_sequence_field :
    isSubtypeOf inputMediaPhotoOldType.SubtypeOf "InputMedia" = true
    ∧ (∃ f ∈ inputMediaPhotoOldType.Fields, f.Field = "type")
    ∧ generateTypeDef sampleDeps oldMediaAPI "InputMediaPhoto"
        = .ok "\n// Represents a photo to be sent.\n// https://core.telegram.org/bots/api#inputmediaphoto\ntype InputMediaPhoto struct \x7b\n// File to send\nMedia string `json:\"media\"`\n// Optional. Caption of the photo\nCaption string `json:\"caption\"`\n\x7d"
    ∧ (structOf sampleDeps oldMediaAPI "InputMediaPhoto").override = none
    ∧ encodeStruct sampleCodec (structOf sampleDeps oldMediaAPI "InputMediaPhoto")
          [Member.plain (GoVal.str "p1"), Member.plain (GoVal.str "yes")]
        = [("media", JVal.raw "\"p1\""), ("caption", JVal.raw "\"yes\"")]
    ∧ (structOf sampleDeps mediaAPI "InputMediaPhoto").override
        = some { typeName := "InputMediaPhoto", discriminator := some "photo",
                 defaults := [("CaptionEntities", "[]MessageEntity")] } := by
  refine ⟨by decide, by decide, ?_, by decide, by decide, by decide⟩
  set_option maxRecDepth 100000 in rfl

/-- C19 does not hold as stated, in two ways. A poll whose options were never set is encoded
with `options` as the empty array, and decoding that back gives the empty sequence, not the
nil sequence of the original value. And a type whose name starts with `InputMedia`, that has
a sequence field and that emits a field `type` of its own, is encoded with the injected
constant under `type`, which hides the member: the value `yes` of the member comes back as
`audio`, although no sequence of the value is nil. -/
theorem C19_counterexample :
    generateTypeDef sampleDeps mediaAPI "Poll"
        = .ok (docsOf mediaAPI "Poll" ++ renderStruct (structOf sampleDeps mediaAPI "Poll"))
    ∧ encodeStruct sampleCodec (structOf sampleDeps mediaAPI "Poll")
          [Member.plain (GoVal.str "p1"), Member.nilSeq]
        = [("id", JVal.raw "\"p1\""), ("options", JVal.arr [])]
    ∧ decodeStruct sampleCodec (structOf sampleDeps mediaAPI "Poll")
          (encodeStruct sampleCodec (structOf sampleDeps mediaAPI "Poll")
            [Member.plain (GoVal.str "p1"), Member.nilSeq])
          [Member.plain (GoVal.str ""), Member.nilSeq]
        = [Member.plain (GoVal.str "p1"), Member.seq []]
    ∧ decodeStruct sampleCodec (structOf sampleDeps mediaAPI "Poll")
          (encodeStruct sampleCodec (structOf sampleDeps mediaAPI "Poll")
            [Member.plain (GoVal.str "p1"), Member.nilSeq])
          [Member.plain (GoVal.str ""), Member.nilSeq]
        ≠ [Member.plain (GoVal.str "p1"), Member.nilSeq]
    ∧ generateTypeDef sampleDeps clashAPI "InputMediaAUDIO"
        = .ok (docsOf clashAPI "InputMediaAUDIO"
            ++ renderStruct (structOf sampleDeps clashAPI "InputMediaAUDIO"))
    ∧ structOf sampleDeps clashAPI "InputMediaAUDIO"
        = { name := "InputMediaAUDIO",
            members :=
              [{ doc := "Kind of the object", goName := "Type", goType := "string",
                 wire := "type" },
               { doc := "List of tags", goName := "Tags", goType := "[]string",
                 wire := "tags" }],
            override := some { typeName := "InputMediaAUDIO", discriminator := some "audio",
                               defaults := [("Tags", "[]string")] } }
    ∧ encodeStruct sampleCodec (structOf sampleDeps clashAPI "InputMediaAUDIO")
          [Member.plain (GoVal.str "yes"), Member.seq []]
        = [("type", JVal.str "audio"), ("tags", JVal.arr [])]
    ∧ decodeStruct sampleCodec (structOf sampleDeps clashAPI "InputMediaAUDIO")
          (encodeStruct sampleCodec (structOf sampleDeps clashAPI "InputMediaAUDIO")
            [Member.plain (GoVal.str "yes"), Member.seq []])
          [Member.plain (GoVal.str ""), Member.nilSeq]
        = [Member.plain (GoVal.str "audio"), Member.seq []] := by
  refine ⟨generateTypeDef_struct sampleDeps mediaAPI "Poll" (by decide) (by decide),
    by decide, by decide, by decide,
    generateTypeDef_struct sampleDeps clashAPI "InputMediaAUDIO" (by decide) (by decide),
    by decide, by decide, by decide⟩

/-- C19, amended: for every generated aggregate type with at least one field, whose fields
all have a candidate type, whose emitted fields have pairwise distinct wire names, and that
emits no field with the wire name `type` when its name starts with `InputMedia`; and for
every value of that type (one member per emitted field) on whose sequence elements and
non-sequence members the library decoder inverts the library encoder: serialising the value
with the generated encoder and decoding the result back yields the original value with
every member that the override defaults (the emitted fields whose first candidate type is
an array), and that was never set, replaced by the empty sequence. So without override the
value comes back unchanged, and with the override it comes back unchanged exactly when none
of the defaulted sequence members is nil. -/
theorem C19_round_trip_up_to_defaults (L : Deps) (d : APIDescription) (name : String)
    (c : Codec) (v zero : List Member)
    (hne : (d.typeOf name).Fields ≠ [])
    (hty : ∀ f ∈ (d.typeOf name).Fields, f.Types ≠ [])
    (hnd : ((structOf L d name).members.map (fun m => m.wire)).Nodup)
    (hv : v.length = (structOf L d name).members.length)
    (hz : zero.length = (structOf L d name).members.length)
    (hrt : c.RoundTrips v)
    (hclash : hasPrefix name "InputMedia" = true →
      ∀ m ∈ (structOf L d name).members, m.wire ≠ "type") :
    generateTypeDef L d name = .ok (docsOf d name ++ renderStruct (structOf L d name))
    ∧ decodeStruct c (structOf L d name) (encodeStruct c (structOf L d name) v) zero
        = normalised (structOf L d name) v
    ∧ ((structOf L d name).override = none → normalised (structOf L d name) v = v)
    ∧ (∀ o, (structOf L d name).override = some o →
        normalised (structOf L d name) v
            = List.zipWith (fun m x =>
                if m.goName ∈ o.defaults.map Prod.fst ∧ x = Member.nilSeq
                then Member.seq [] else x) (structOf L d name).members v
        ∧ (normalised (structOf L d name) v = v
            ↔ ∀ m x, (m, x) ∈ (structOf L d name).members.zip v →
                m.goName ∈ o.defaults.map Prod.fst → x ≠ Member.nilSeq)) := by
  refine ⟨generateTypeDef_struct L d name hne hty, ?_, ?_, ?_⟩
  · apply roundTrip_eq c _ v zero hnd hv hz hrt
    intro o t ho ht
    exact hclash (structOf_discriminator L d name o t ho ht)
  · intro ho
    simp [normalised, ho]
  · intro o ho
    refine ⟨?_, ?_⟩
    · simp only [normalised, ho]
      rfl
    · simp only [normalised, ho]
      rw [zipWith_eq_self_iff _ _ _ hv]
      constructor
      · intro h m x hx
        exact (defaultedVal_eq_self_iff o m x).mp (h m x hx)
      · intro h m x hx
        exact (defaultedVal_eq_self_iff o m x).mpr (h m x hx)

/-- C19 amended, at a concrete input: a photo of the media family whose caption entities
were never set comes back with the empty sequence in their place and is otherwise unchanged;
with one caption entity set it comes back unchanged. -/
theorem C19_round_trip_up_to_defaults_witness :
    decodeStruct sampleCodec (structOf sampleDeps mediaAPI "InputMediaPhoto")
        (encodeStruct sampleCodec (structOf sampleDeps mediaAPI "InputMediaPhoto")
          [Member.plain (GoVal.str "p1"), Member.nilSeq])
        [Member.plain (GoVal.str ""), Member.nilSeq]
      = [Member.plain (GoVal.str "p1"), Member.seq []]
    ∧ encodeStruct sampleCodec (structOf sampleDeps mediaAPI "InputMediaPhoto")
          [Member.plain (GoVal.str "p1"), Member.nilSeq]
        = [("type", JVal.str "photo"), ("media", JVal.raw "\"p1\""),
           ("caption_entities", JVal.arr [])]
    ∧ decodeStruct sampleCodec (structOf sampleDeps mediaAPI "InputMediaPhoto")
        (encodeStruct sampleCodec (structOf sampleDeps mediaAPI "InputMediaPhoto")
          [Member.plain (GoVal.str "p1"), Member.seq [GoVal.other "entity"]])
        [Member.plain (GoVal.str ""), Member.nilSeq]
      = [Member.plain (GoVal.str "p1"), Member.seq [GoVal.other "entity"]] := by
  have hrt : ∀ v : List Member,
      (v = [Member.plain (GoVal.str "p1"), Member.nilSeq]
        ∨ v = [Member.plain (GoVal.str "p1"), Member.seq [GoVal.other "entity"]]) →
      sampleCodec.RoundTrips v := by
    intro v hv m hm x hx
    rcases hv with rfl | rfl
    · simp only [List.mem_cons, List.mem_singleton, List.not_mem_nil, or_false] at hm
      rcases hm with rfl | rfl
      · simp only [Member.vals, List.mem_singleton] at hx
        rw [hx]; decide
      · simp [Member.vals] at hx
    · simp only [List.mem_cons, List.mem_singleton, List.not_mem_nil, or_false] at hm
      rcases hm with rfl | rfl
      · simp only [Member.vals, List.mem_singleton] at hx
        rw [hx]; decide
      · simp only [Member.vals, List.mem_singleton] at hx
        rw [hx]; decide
  have h := C19_round_trip_up_to_defaults sampleDeps mediaAPI "InputMediaPhoto" sampleCodec
    [Member.plain (GoVal.str "p1"), Member.nilSeq]
    [Member.plain (GoVal.str ""), Member.nilSeq]
    (by decide) (by decide) (by decide) (by decide) (by decide)
    (hrt _ (Or.inl rfl)) (by decide)
  have h2 := C19_round_trip_up_to_defaults sampleDeps mediaAPI "InputMediaPhoto" sampleCodec
    [Member.plain (GoVal.str "p1"), Member.seq [GoVal.other "entity"]]
    [Member.plain (GoVal.str ""), Member.nilSeq]
    (by decide) (by decide) (by decide) (by decide) (by decide)
    (hrt _ (Or.inr rfl)) (by decide)
  refine ⟨?_, by decide, ?_⟩
  · rw [h.2.1]
    decide
  · rw [h2.2.1]
    decide

end Legacy

namespace Legacy

/-! ### The file-reference encoding -/

theorem render_fileSwitch (goParam dflt key : String) :
    renderFileSwitch (fileSwitch goParam dflt key)
      = readerBranches { GoParam := goParam, DefaultReturn := dflt, Parameter := key } := by
  simp only [renderFileSwitch, fileSwitch, readerBranches, List.map_cons, List.map_nil,
    joinAll, renderFileStmt, String.append_assoc, String.append_empty]
  rfl

theorem fieldValues_file (L : Deps) (defaultRetVal : String) (f : MethodFields)
    (hs : L.goTypeStringer (L.toGoType (L.getPreferredType f)) = "")
    (ht : L.getPreferredType f = "InputFile") :
    fieldValues L defaultRetVal f
      = (renderFileSwitch (fileSwitch (goParamOf L f) defaultRetVal f.Name), true) := by
  rw [render_fileSwitch]
  unfold fieldValues
  simp only [ne_eq]
  rw [if_neg (not_not.mpr hs), if_pos ht]

/-- C16: for a field whose preferred type is `InputFile` (and has no scalar stringer), the
loop of `methodArgsToValues` appends the text of the syntax tree `fileSwitch`, which is the
executed template `readerBranches`, and sets `hasData`. Run on the run-time value of the
field, the emitted code: writes nothing and registers nothing for nil; adds a string
verbatim under the wire name and registers nothing; for a reader, and for a named reader,
adds the token `attach://<wire name>` under the wire name and registers one part under
the wire name; and for any other kind adds nothing, registers nothing, and returns the
default return value with the error `unknown type for InputFile: <type>`. -/
theorem C16_file_reference_encoding (L : Deps) (defaultRetVal : String) (f : MethodFields)
    (hs : L.goTypeStringer (L.toGoType (L.getPreferredType f)) = "")
    (ht : L.getPreferredType f = "InputFile") :
    fieldValues L defaultRetVal f
        = (renderFileSwitch (fileSwitch (goParamOf L f) defaultRetVal f.Name), true)
    ∧ renderFileSwitch (fileSwitch (goParamOf L f) defaultRetVal f.Name)
        = readerBranches
            { GoParam := goParamOf L f, DefaultReturn := defaultRetVal, Parameter := f.Name }
    ∧ (∀ fr, execFileSwitch (fileSwitch (goParamOf L f) defaultRetVal f.Name) FileVal.nil fr
        = .running fr)
    ∧ (∀ fr s, execFileSwitch (fileSwitch (goParamOf L f) defaultRetVal f.Name)
          (FileVal.str s) fr
        = .running { v := fr.v ++ [(f.Name, s)], data := fr.data })
    ∧ (∀ fr (x : DynVal), x.isReader = true →
        execFileSwitch (fileSwitch (goParamOf L f) defaultRetVal f.Name) (FileVal.dyn x) fr
          = .running { v := fr.v ++ [(f.Name, "attach://" ++ f.Name)],
                       data := setKey f.Name (Part.wrapped x.stream) fr.data })
    ∧ (∀ fr (x : DynVal), x.isReader = false → x.isNamed = true →
        execFileSwitch (fileSwitch (goParamOf L f) defaultRetVal f.Name) (FileVal.dyn x) fr
          = .running { v := fr.v ++ [(f.Name, "attach://" ++ f.Name)],
                       data := setKey f.Name (Part.named x.stream) fr.data })
    ∧ (∀ fr (x : DynVal), x.isReader = false → x.isNamed = false →
        execFileSwitch (fileSwitch (goParamOf L f) defaultRetVal f.Name) (FileVal.dyn x) fr
          = .returned defaultRetVal ("unknown type for InputFile: " ++ x.typeName))
    ∧ (∀ (p : Part), setKey f.Name p [] = [(f.Name, p)]) := by
  refine ⟨fieldValues_file L defaultRetVal f hs ht, render_fileSwitch _ _ _, ?_, ?_, ?_, ?_,
    ?_, ?_⟩
  · intro fr
    rfl
  · intro fr s
    simp [execFileSwitch, fileSwitch, execFileList, execFileStmt]
  · intro fr x hr
    simp [execFileSwitch, fileSwitch, execFileList, execFileStmt, hr]
  · intro fr x hr hn
    simp [execFileSwitch, fileSwitch, execFileList, execFileStmt, hr, hn]
  · intro fr x hr hn
    simp [execFileSwitch, fileSwitch, execFileList, execFileStmt, hr, hn, FileVal.typeName]
  · intro p
    rfl

/-- C16, at a concrete input: the required field `photo`, given a file identifier, a named
reader, and an integer. -/
theorem C16_file_reference_encoding_witness :
    methodArgsToValues sampleDeps
        { Fields := [photoField], Returns := ["Message"], Description := [], Href := "" }
        "nil"
      = ("\nif photo != nil \x7b\n\tif s, ok := photo.(string); ok \x7b\n\t\tv.Add(\"photo\", s)\n\t\x7d else if r, ok := photo.(io.Reader); ok \x7b\n\t\tv.Add(\"photo\", \"attach://photo\")\n\t\tdata[\"photo\"] = NamedReader\x7bFile: r\x7d\n\t\x7d else if nf, ok := photo.(NamedReader); ok \x7b\n\t\tv.Add(\"photo\", \"attach://photo\")\n\t\tdata[\"photo\"] = nf\n\t\x7d else \x7b\n\t\treturn nil, fmt.Errorf(\"unknown type for InputFile: %T\",photo)\n\t\x7d\n\x7d\n", true)
    ∧ execFileSwitch (fileSwitch "photo" "nil" "photo") (FileVal.str "AgADBAAD") emptyFileFrame
        = .running { v := [("photo", "AgADBAAD")], data := [] }
    ∧ execFileSwitch (fileSwitch "photo" "nil" "photo")
          (FileVal.dyn { isReader := false, isNamed := true, typeName := "gen.NamedReader",
                         stream := "cat.png" }) emptyFileFrame
        = .running { v := [("photo", "attach://photo")],
                     data := [("photo", Part.named "cat.png")] }
    ∧ execFileSwitch (fileSwitch "photo" "nil" "photo")
          (FileVal.dyn { isReader := false, isNamed := false, typeName := "int",
                         stream := "" }) emptyFileFrame
        = .returned "nil" "unknown type for InputFile: int" := by
  have h := C16_file_reference_encoding sampleDeps "nil" photoField (by decide) (by decide)
  have hp : goParamOf sampleDeps photoField = "photo" := by decide
  have hn : photoField.Name = "photo" := rfl
  rw [hp, hn] at h
  obtain ⟨hgen, _, _, hstr, _, hnamed, hother, _⟩ := h
  refine ⟨?_, ?_, ?_, ?_⟩
  · simp only [methodArgsToValues, methodArgsLoop, hgen]
    set_option maxRecDepth 100000 in rfl
  · rw [hstr]; rfl
  · rw [hnamed _ _ rfl rfl]; rfl
  · rw [hother _ _ rfl rfl]; rfl

end Legacy

namespace Legacy

/-! ### Output order -/

theorem sortStrings_sorted (keys : List String) :
    (sortStrings keys).Sorted (fun a b => a ≤ b) :=
  List.sorted_insertionSort (fun a b : String => a ≤ b) keys

theorem sortStrings_perm (keys : List String) : (sortStrings keys).Perm keys :=
  List.perm_insertionSort (fun a b : String => a ≤ b) keys

theorem sortStrings_of_perm (keys1 keys2 : List String) (h : keys1.Perm keys2) :
    sortStrings keys1 = sortStrings keys2 :=
  List.eq_of_perm_of_sorted
    ((sortStrings_perm keys1).trans (h.trans (sortStrings_perm keys2).symm))
    (sortStrings_sorted keys1) (sortStrings_sorted keys2)

theorem typeDefsLoop_ok (L : Deps) (d : APIDescription) (names : List String) (file : String)
    (h : ∀ n ∈ names, ∃ t, generateTypeDef L d n = .ok t) :
    typeDefsLoop L d names file = .ok (file ++ joinAll (names.map (typeText L d))) := by
  induction names generalizing file with
  | nil => simp [typeDefsLoop, joinAll]
  | cons n rest ih =>
    obtain ⟨t, ht⟩ := h n (List.mem_cons_self _ _)
    have hrest : ∀ k ∈ rest, ∃ t, generateTypeDef L d k = .ok t :=
      fun k hk => h k (List.mem_cons_of_mem _ hk)
    simp [typeDefsLoop, ht, ih _ hrest, typeText, joinAll, String.append_assoc]

theorem methodDefsLoop_ok (L : Deps) (d : APIDescription) (names : List String)
    (file : String)
    (h : ∀ n ∈ names, ∃ t, generateMethodDef L d (d.methodOf n) n = .ok t) :
    methodDefsLoop L d names file
      = .ok (file ++ joinAll (names.map (methodDefText L d))) := by
  induction names generalizing file with
  | nil => simp [methodDefsLoop, joinAll]
  | cons n rest ih =>
    obtain ⟨t, ht⟩ := h n (List.mem_cons_self _ _)
    have hrest : ∀ k ∈ rest, ∃ t, generateMethodDef L d (d.methodOf k) k = .ok t :=
      fun k hk => h k (List.mem_cons_of_mem _ hk)
    simp [methodDefsLoop, ht, ih _ hrest, methodDefText, joinAll, String.append_assoc]

/-- C17: the runs of `generateTypes` and of `generateMethods` do not depend on the order in
which the keys of the map are enumerated: for two enumerations that are permutations of
each other the text handed to `writeGenToFile` and the result are identical. The keys are
put in ascending lexicographic order first, and when every definition compiles the text is
the header followed by the definitions in that order. -/
theorem C17_output_independent_of_map_order (L : Deps)
    (writeGenToFile : String → String → Option GoErr) (d : APIDescription)
    (keys1 keys2 : List String) (h : keys1.Perm keys2) :
    generateTypes L writeGenToFile d keys1 = generateTypes L writeGenToFile d keys2
    ∧ generateMethods L writeGenToFile d keys1 = generateMethods L writeGenToFile d keys2
    ∧ (sortStrings keys1).Sorted (fun a b => a ≤ b)
    ∧ (sortStrings keys1).Perm keys1
    ∧ ((∀ n ∈ keys1, ∃ t, generateTypeDef L d n = .ok t) →
        (generateTypes L writeGenToFile d keys1).writes
          = [(typesFileHeader ++ joinAll ((sortStrings keys1).map (typeText L d)),
              "gen/gen_types.go")])
    ∧ ((∀ n ∈ keys1, ∃ t, generateMethodDef L d (d.methodOf n) n = .ok t) →
        (generateMethods L writeGenToFile d keys1).writes
          = [(methodsFileHeader ++ joinAll ((sortStrings keys1).map (methodDefText L d)),
              "gen/gen_methods.go")]) := by
  refine ⟨?_, ?_, sortStrings_sorted keys1, sortStrings_perm keys1, ?_, ?_⟩
  · unfold generateTypes
    rw [sortStrings_of_perm keys1 keys2 h]
  · unfold generateMethods
    rw [sortStrings_of_perm keys1 keys2 h]
  · intro hall
    have hall2 : ∀ n ∈ sortStrings keys1, ∃ t, generateTypeDef L d n = .ok t :=
      fun n hn => hall n ((sortStrings_perm keys1).mem_iff.mp hn)
    unfold generateTypes
    rw [typeDefsLoop_ok L d _ _ hall2]
  · intro hall
    have hall2 : ∀ n ∈ sortStrings keys1,
        ∃ t, generateMethodDef L d (d.methodOf n) n = .ok t :=
      fun n hn => hall n ((sortStrings_perm keys1).mem_iff.mp hn)
    unfold generateMethods
    rw [methodDefsLoop_ok L d _ _ hall2]

/-- C17, at a concrete input: two enumerations of the three type names, and of the two
method names, give the same runs. -/
theorem C17_output_independent_of_map_order_witness :
    generateTypes sampleDeps writeOk botAPI ["Poll", "InputMedia", "InputMediaPhoto"]
        = generateTypes sampleDeps writeOk botAPI ["InputMedia", "InputMediaPhoto", "Poll"]
    ∧ generateMethods sampleDeps writeOk botAPI ["sendPhoto", "getMe"]
        = generateMethods sampleDeps writeOk botAPI ["getMe", "sendPhoto"] := by
  have h1 := C17_output_independent_of_map_order sampleDeps writeOk botAPI
    ["Poll", "InputMedia", "InputMediaPhoto"] ["InputMedia", "InputMediaPhoto", "Poll"]
    (by decide)
  have h2 := C17_output_independent_of_map_order sampleDeps writeOk botAPI
    ["sendPhoto", "getMe"] ["getMe", "sendPhoto"] (List.Perm.swap _ _ _)
  exact ⟨h1.1, h2.2.1⟩

end Legacy

/-! ## The media strategies -/

theorem render_mediaSingle (goParam dflt key : String) :
    renderMediaList 0 (mediaSingle goParam dflt key)
      = inputMediaParamsBranch
          { GoParam := goParam, DefaultReturn := dflt, Name := key, AllowString := false } := by
  simp only [mediaSingle, renderMedia, renderMediaList, fmtText, fmtArgs, tabs,
    inputMediaParamsBranch, String.append_assoc]
  rfl

theorem render_mediaList (goParam dflt key : String) :
    renderMedia 0 (mediaList goParam dflt key)
      = inputMediaArrayParamsBranch
          { GoParam := goParam, DefaultReturn := dflt, Name := key, AllowString := false } := by
  simp only [mediaList, mediaLoopBody, renderMedia, renderMediaList, fmtText, fmtArgs, tabs,
    inputMediaArrayParamsBranch, String.append_assoc]
  set_option maxRecDepth 100000 in rfl

theorem generateValue_mediaSingle (D : Deps) (d : APIDescription) (methodName : String)
    (f : Field) (goParam defaultRetVal t : String)
    (hpt : D.getPreferredType f = .ok t) (hs : D.goTypeStringer t = "")
    (ht : t = tgTypeInputMedia) :
    generateValue D d methodName f goParam defaultRetVal
      = .ok (renderMediaList 0 (mediaSingle goParam defaultRetVal f.Name), true) := by
  subst ht
  rw [render_mediaSingle]
  unfold generateValue
  simp only [hpt, hs, ne_eq, not_true_eq_false, if_false]
  rw [if_neg (by decide), if_pos True.intro]

theorem generateValue_mediaList (D : Deps) (d : APIDescription) (methodName : String)
    (f : Field) (goParam defaultRetVal t : String)
    (hpt : D.getPreferredType f = .ok t) (hs : D.goTypeStringer t = "")
    (ht : t = "[]" ++ tgTypeInputMedia) :
    generateValue D d methodName f goParam defaultRetVal
      = .ok (renderMedia 0 (mediaList goParam defaultRetVal f.Name), true) := by
  subst ht
  rw [render_mediaList]
  unfold generateValue
  simp only [hpt, hs, ne_eq, not_true_eq_false, if_false]
  rw [if_neg (by decide), if_neg (by decide), if_pos True.intro]

theorem exec_mediaSingle (goParam dflt key : String) (ρ : MediaScope) (fr : MediaFrame) :
    execMediaList ρ (mediaSingle goParam dflt key) fr
      = mediaSingleOutcome ρ goParam dflt key fr := by
  unfold mediaSingleOutcome
  by_cases hn : receiver ρ fr goParam = GoVal.nil
  · simp [mediaSingle, execMedia, execMediaList, hn]
  · cases h : ρ.InputMediaParams (receiver ρ fr goParam) key with
    | ok r =>
      obtain ⟨bs, parts⟩ := r
      simp [mediaSingle, execMedia, execMediaList, hn, h]
    | error e =>
      simp [mediaSingle, execMedia, execMediaList, hn, h, fmtMessage]

theorem foldl_rangeStep_returned (run : MediaFrame → MediaFlow) (l : List (Nat × GoVal))
    (dflt e : String) :
    l.foldl (rangeStep run) (.returned dflt e) = .returned dflt e := by
  induction l with
  | nil => rfl
  | cons p rest ih => simpa [List.foldl, rangeStep] using ih

theorem foldl_rangeStep_crashed (run : MediaFrame → MediaFlow) (l : List (Nat × GoVal)) :
    l.foldl (rangeStep run) .crashed = .crashed := by
  induction l with
  | nil => rfl
  | cons p rest ih => simpa [List.foldl, rangeStep] using ih

theorem exec_mediaLoop (ρ : MediaScope) (dflt key : String) (xs : List GoVal) (i : Nat)
    (fr : MediaFrame) :
    (xs.enumFrom i).foldl (rangeStep (fun fr1 => execMediaList ρ (mediaLoopBody dflt key) fr1))
        (.running fr)
      = collectMedia ρ dflt key xs i fr := by
  induction xs generalizing i fr with
  | nil => rfl
  | cons x rest ih =>
    rw [List.enumFrom_cons, List.foldl_cons, collectMedia]
    by_cases hn : x = GoVal.nil
    · rw [if_pos hn]
      have : rangeStep (fun fr1 => execMediaList ρ (mediaLoopBody dflt key) fr1)
          (.running fr) (i, x) = .crashed := by
        simp [rangeStep, mediaLoopBody, execMedia, execMediaList, receiver, hn]
      rw [this, foldl_rangeStep_crashed]
    · rw [if_neg hn]
      cases h : ρ.InputMediaParams x (key ++ Itoa i) with
      | ok r =>
        obtain ⟨bs, parts⟩ := r
        simp only []
        rw [← ih]
        congr 1
        simp [rangeStep, mediaLoopBody, execMedia, execMediaList, receiver, hn, h,
          MediaFrame.idx]
      | error e =>
        have : rangeStep (fun fr1 => execMediaList ρ (mediaLoopBody dflt key) fr1)
            (.running fr) (i, x)
            = .returned dflt ("failed to marshal InputMedia list item " ++ Itoa i
                ++ " for field " ++ key ++ ": " ++ e) := by
          simp [rangeStep, mediaLoopBody, execMedia, execMediaList, receiver, hn, h,
            MediaFrame.idx, fmtMessage, String.append_assoc]
        rw [this, foldl_rangeStep_returned]

theorem exec_forRange (goParam dflt key : String) (ρ : MediaScope) (fr : MediaFrame) :
    execMedia ρ (.forRange goParam (mediaLoopBody dflt key)) fr
      = match ρ.elems goParam with
        | none => .running fr
        | some xs => endLoop fr (collectMedia ρ dflt key xs 0 fr) := by
  rw [execMedia]
  cases hx : ρ.elems goParam with
  | none => rfl
  | some xs =>
    simp only []
    rw [List.enum, exec_mediaLoop]

theorem exec_mediaList (goParam dflt key : String) (ρ : MediaScope) (fr : MediaFrame) :
    execMedia ρ (mediaList goParam dflt key) fr = mediaListOutcome ρ goParam dflt key fr := by
  unfold mediaListOutcome mediaList
  have hloop := exec_forRange goParam dflt key ρ { fr with rawList := [] }
  generalize MediaStmt.forRange goParam (mediaLoopBody dflt key) = L at hloop
  cases hx : ρ.elems goParam with
  | none => simp [execMedia, hx]
  | some xs =>
    rw [hx] at hloop
    simp only [execMedia, execMediaList, hx, Option.isSome_some, if_true, hloop]
    cases hc : collectMedia ρ dflt key xs 0 { fr with rawList := [] } with
    | running fr2 =>
      cases hm : marshalRawList ρ fr2.rawList with
      | ok s => simp [endLoop, hm]
      | error e => simp [endLoop, hm, fmtMessage, MediaFrame.idx]
    | returned d0 e0 => simp [endLoop]
    | crashed => simp [endLoop]

theorem collectMedia_returned (ρ : MediaScope) (dflt key : String) (xs : List GoVal) (i : Nat)
    (fr : MediaFrame) (dv msg : String)
    (h : collectMedia ρ dflt key xs i fr = .returned dv msg) :
    dv = dflt ∧ ∃ j x e, xs.get? j = some x ∧ x ≠ GoVal.nil
      ∧ ρ.InputMediaParams x (key ++ Itoa (i + j)) = .error e
      ∧ msg = "failed to marshal InputMedia list item " ++ Itoa (i + j) ++ " for field "
          ++ key ++ ": " ++ e := by
  induction xs generalizing i fr with
  | nil => simp [collectMedia] at h
  | cons x rest ih =>
    rw [collectMedia] at h
    by_cases hn : x = GoVal.nil
    · rw [if_pos hn] at h
      simp at h
    · rw [if_neg hn] at h
      cases hp : ρ.InputMediaParams x (key ++ Itoa i) with
      | ok r =>
        obtain ⟨bs, parts⟩ := r
        rw [hp] at h
        obtain ⟨hd, j, y, e, hy, hyn, he, hm⟩ := ih _ _ h
        have hij : i + (j + 1) = i + 1 + j := by omega
        refine ⟨hd, j + 1, y, e, by simpa using hy, hyn, ?_, ?_⟩
        · rw [hij]; exact he
        · rw [hij]; exact hm
      | error e =>
        rw [hp] at h
        simp only [MediaFlow.returned.injEq] at h
        exact ⟨h.1.symm, 0, x, e, rfl, hn, by simpa using hp, by simpa using h.2.symm⟩

theorem collectMedia_crashed (ρ : MediaScope) (dflt key : String) (xs : List GoVal) (i : Nat)
    (fr : MediaFrame) (h : collectMedia ρ dflt key xs i fr = .crashed) :
    GoVal.nil ∈ xs := by
  induction xs generalizing i fr with
  | nil => simp [collectMedia] at h
  | cons x rest ih =>
    rw [collectMedia] at h
    by_cases hn : x = GoVal.nil
    · simp [hn]
    · rw [if_neg hn] at h
      cases hp : ρ.InputMediaParams x (key ++ Itoa i) with
      | ok r =>
        obtain ⟨bs, parts⟩ := r
        rw [hp] at h
        exact List.mem_cons_of_mem _ (ih _ _ h)
      | error e =>
        rw [hp] at h
        simp at h

theorem collectMedia_running (ρ : MediaScope) (dflt key : String) (xs : List GoVal) (i : Nat)
    (fr fr2 : MediaFrame) (h : collectMedia ρ dflt key xs i fr = .running fr2) :
    ∃ results : List (String × List (String × String)),
      results.length = xs.length
      ∧ (∀ j x, xs.get? j = some x → x ≠ GoVal.nil ∧ ∃ r, results.get? j = some r
          ∧ ρ.InputMediaParams x (key ++ Itoa (i + j)) = .ok r)
      ∧ fr2.data = ((results.map Prod.snd).flatten).reverse ++ fr.data
      ∧ fr2.rawList = fr.rawList ++ results.map Prod.fst
      ∧ fr2.v = fr.v := by
  induction xs generalizing i fr with
  | nil =>
    simp only [collectMedia, MediaFlow.running.injEq] at h
    subst h
    exact ⟨[], rfl, by simp, by simp, by simp, rfl⟩
  | cons x rest ih =>
    rw [collectMedia] at h
    by_cases hn : x = GoVal.nil
    · rw [if_pos hn] at h
      simp at h
    · rw [if_neg hn] at h
      cases hp : ρ.InputMediaParams x (key ++ Itoa i) with
      | ok r =>
        obtain ⟨bs, parts⟩ := r
        rw [hp] at h
        obtain ⟨results, hlen, hall, hdata, hraw, hv⟩ := ih _ _ h
        refine ⟨(bs, parts) :: results, by simp [hlen], ?_, ?_, ?_, ?_⟩
        · intro j y hy
          cases j with
          | zero =>
            simp only [List.get?_cons_zero, Option.some.injEq] at hy
            subst hy
            exact ⟨hn, (bs, parts), rfl, by simpa using hp⟩
          | succ k =>
            simp only [List.get?_cons_succ] at hy
            obtain ⟨hyn, r, hr, hpr⟩ := hall k y hy
            have hij : i + (k + 1) = i + 1 + k := by omega
            refine ⟨hyn, r, by simpa using hr, ?_⟩
            rw [hij]; exact hpr
        · rw [hdata]
          simp
        · rw [hraw]
          simp
        · rw [hv]
      | error e =>
        rw [hp] at h
        simp at h

/-! ## Decimal rendering of an index -/

theorem digitVal_digitChar (k : Nat) (h : k < 10) : digitVal (Nat.digitChar k) = k := by
  interval_cases k <;> rfl

theorem foldl_toDigitsCore (fuel n : Nat) (ds : List Char) (h : n < fuel) :
    (Nat.toDigitsCore 10 fuel n ds).foldl (fun acc c => acc * 10 + digitVal c) 0
      = ds.foldl (fun acc c => acc * 10 + digitVal c) n := by
  induction fuel generalizing n ds with
  | zero => omega
  | succ fuel ih =>
    rw [Nat.toDigitsCore]
    have hd : digitVal (Nat.digitChar (n % 10)) = n % 10 :=
      digitVal_digitChar _ (Nat.mod_lt _ (by decide))
    by_cases h0 : n / 10 = 0
    · simp only [h0, if_true, List.foldl_cons, hd]
      have : n < 10 := by omega
      have hn : n % 10 = n := Nat.mod_eq_of_lt this
      rw [hn]
      simp
    · simp only [h0, if_false]
      rw [ih (n / 10) _ (by omega)]
      simp only [List.foldl_cons, hd]
      congr 1
      omega

theorem parseDigits_Itoa (n : Nat) : parseDigits (Itoa n).data = n := by
  unfold parseDigits Itoa Nat.repr Nat.toDigits
  simp only [List.asString]
  rw [foldl_toDigitsCore _ _ _ (by omega)]
  rfl

theorem Itoa_injective (i j : Nat) (h : Itoa i = Itoa j) : i = j := by
  have := congrArg (fun s => parseDigits s.data) h
  simpa [parseDigits_Itoa] using this

theorem partName_injective (key : String) (i j : Nat) (h : key ++ Itoa i = key ++ Itoa j) :
    i = j := by
  apply Itoa_injective
  have hd := congrArg String.data h
  simp only [String.data_append] at hd
  exact String.ext (List.append_cancel_left hd)

theorem partNames_nodup (key : String) (n : Nat) : (partNames key n).Nodup := by
  unfold partNames
  exact (List.nodup_range n).map (fun i j h => partName_injective key i j h)

/-! ## Failure paths of the media and generic strategies -/

theorem failureBlocks_mediaSingle (goParam dflt key : String) :
    ∀ block ∈ failureBlocksList (mediaSingle goParam dflt key),
      IsFieldFailure dflt key block := by
  intro block hb
  simp only [mediaSingle, failureBlocks, failureBlocksList, List.append_nil, List.nil_append,
    List.cons_append, List.mem_singleton] at hb
  subst hb
  exact ⟨_, rfl, rfl, "failed to marshal field ", ": ", by simp [String.append_assoc]⟩

theorem failureBlocks_mediaList (goParam dflt key : String) :
    ∀ block ∈ failureBlocks (mediaList goParam dflt key), IsFieldFailure dflt key block := by
  intro block hb
  simp only [mediaList, mediaLoopBody, failureBlocks, failureBlocksList, List.append_nil,
    List.nil_append, List.cons_append, List.mem_cons, List.mem_singleton,
    List.not_mem_nil, or_false] at hb
  rcases hb with hb | hb
  · subst hb
    exact ⟨_, rfl, rfl, " for field ", ": ", by simp [String.append_assoc]⟩
  · subst hb
    exact ⟨_, rfl, rfl, "failed to marshal raw json list of InputMedia for field: ", " ",
      by simp [String.append_assoc]⟩

theorem errBlocks_marshal (goParam dflt key : String) :
    (∀ block ∈ errBlocksList (marshalBody goParam dflt key), IsFieldFailureStmt dflt key block)
    ∧ (∀ block ∈ errBlocks (marshalGuarded goParam dflt key),
        IsFieldFailureStmt dflt key block) := by
  have hb : errBlocksList (marshalBody goParam dflt key)
      = [[Stmt.failWith dflt ("failed to marshal field " ++ key)]] := by
    simp [marshalBody, errBlocks, errBlocksList]
  have hg : errBlocks (marshalGuarded goParam dflt key)
      = [[Stmt.failWith dflt ("failed to marshal field " ++ key)]] := by
    rw [marshalGuarded, errBlocks, hb]
    simp
  have hk : IsFieldFailureStmt dflt key [Stmt.failWith dflt ("failed to marshal field " ++ key)] :=
    ⟨"failed to marshal field ", "", by simp⟩
  refine ⟨?_, ?_⟩
  · intro block h
    rw [hb, List.mem_singleton] at h
    rw [h]; exact hk
  · intro block h
    rw [hg, List.mem_singleton] at h
    rw [h]; exact hk

theorem mediaSingleOutcome_cases (ρ : MediaScope) (goParam dflt key : String)
    (fr : MediaFrame) :
    (∀ dv msg, mediaSingleOutcome ρ goParam dflt key fr = .returned dv msg →
        dv = dflt ∧ ∃ e, ρ.InputMediaParams (receiver ρ fr goParam) key = .error e
          ∧ msg = "failed to marshal field " ++ key ++ ": " ++ e)
    ∧ (∀ fr2, mediaSingleOutcome ρ goParam dflt key fr = .running fr2 →
        ∃ r, ρ.InputMediaParams (receiver ρ fr goParam) key = .ok r)
    ∧ (mediaSingleOutcome ρ goParam dflt key fr = .crashed →
        receiver ρ fr goParam = GoVal.nil) := by
  unfold mediaSingleOutcome
  by_cases hn : receiver ρ fr goParam = GoVal.nil
  · simp [hn]
  · cases hp : ρ.InputMediaParams (receiver ρ fr goParam) key with
    | ok r =>
      obtain ⟨bs, parts⟩ := r
      simp [hn]
    | error e =>
      simp only [hn, if_false, MediaFlow.returned.injEq, reduceCtorEq, false_implies,
        implies_true, and_true, Except.error.injEq, exists_eq_left']
      intro dv msg h
      exact ⟨h.1.symm, h.2.symm⟩

theorem mediaListOutcome_cases (ρ : MediaScope) (goParam dflt key : String)
    (fr : MediaFrame) :
    (∀ dv msg, mediaListOutcome ρ goParam dflt key fr = .returned dv msg →
        dv = dflt ∧
          ((∃ i x e, x ≠ GoVal.nil ∧ ρ.InputMediaParams x (key ++ Itoa i) = .error e
              ∧ msg = "failed to marshal InputMedia list item " ++ Itoa i ++ " for field "
                  ++ key ++ ": " ++ e)
           ∨ (∃ raw e, ρ.encRaw raw = .error e
              ∧ msg = "failed to marshal raw json list of InputMedia for field: "
                  ++ key ++ " " ++ e)))
    ∧ (∀ fr2 xs, ρ.elems goParam = some xs →
        mediaListOutcome ρ goParam dflt key fr = .running fr2 →
        (∀ j x, xs.get? j = some x → ∃ r, ρ.InputMediaParams x (key ++ Itoa j) = .ok r)
          ∧ fr2.err = none)
    ∧ (∀ xs, ρ.elems goParam = some xs →
        mediaListOutcome ρ goParam dflt key fr = .crashed → GoVal.nil ∈ xs) := by
  unfold mediaListOutcome
  cases hx : ρ.elems goParam with
  | none => simp
  | some xs =>
    simp only []
    cases hc : collectMedia ρ dflt key xs 0 { fr with rawList := [] } with
    | running fr1 =>
      simp only []
      obtain ⟨results, _, hall, _, _, _⟩ := collectMedia_running ρ dflt key xs 0 _ fr1 hc
      cases hm : marshalRawList ρ fr1.rawList with
      | ok s =>
        simp only []
        refine ⟨by simp, ?_, by simp⟩
        intro fr2 ys hys h
        simp only [Option.some.injEq] at hys
        subst hys
        simp only [MediaFlow.running.injEq] at h
        subst h
        refine ⟨?_, rfl⟩
        intro j x hj
        obtain ⟨_, r, _, hr⟩ := hall j x hj
        exact ⟨r, by simpa using hr⟩
      | error e =>
        simp only []
        refine ⟨?_, by simp, by simp⟩
        intro dv msg h
        simp only [MediaFlow.returned.injEq] at h
        refine ⟨h.1.symm, Or.inr ⟨fr1.rawList, e, ?_, h.2.symm⟩⟩
        unfold marshalRawList at hm
        by_cases he : fr1.rawList = []
        · simp [he] at hm
        · simpa [he] using hm
    | returned d0 e0 =>
      obtain ⟨hd, j, x, e, _, hxn, he, hmsg⟩ := collectMedia_returned ρ dflt key xs 0 _ d0 e0 hc
      refine ⟨?_, by simp, by simp⟩
      intro dv msg h
      simp only [MediaFlow.returned.injEq] at h
      refine ⟨by rw [← h.1, hd], Or.inl ⟨0 + j, x, e, hxn, he, by rw [← h.2, hmsg]⟩⟩
    | crashed =>
      refine ⟨by simp, by simp, ?_⟩
      intro ys hys _
      simp only [Option.some.injEq] at hys
      subst hys
      exact collectMedia_crashed ρ dflt key _ 0 _ hc

/-- C21: for a field without scalar stringer whose preferred type is not `InputFile`,
`generateValue` emits the printed form of one of three syntax trees: the single-media tree
(type `InputMedia`), the sequence-of-media tree (type `[]InputMedia`), or the generic tree
(any other type; under a nil test for arrays and `ReplyMarkup`). In each tree every
`if err != nil` block is a single `return` of the method's default return values together
with an `fmt.Errorf` whose text contains the field's wire name and wraps `err` with `%w`.
Run in any scope, a failure of a called operation (`InputMediaParams` of the value or of an
element, `json.Marshal`) ends the operation with exactly these default values and a message
made of the field's name and the message of the failure, so the code after the encoding,
where the transport is called, is not reached; an operation that keeps running has had no
failure; and a run-time panic arises only from calling `InputMediaParams` on a nil value,
never from a failure. -/
theorem C21_failure_paths_return_defaults (D : Deps) (d : APIDescription)
    (methodName : String) (f : Field) (goParam defaultRetVal t : String)
    (hpt : D.getPreferredType f = .ok t) (hs : D.goTypeStringer t = "")
    (hf : t ≠ tgTypeInputFile) :
    (t = tgTypeInputMedia →
      generateValue D d methodName f goParam defaultRetVal
          = .ok (renderMediaList 0 (mediaSingle goParam defaultRetVal f.Name), true)
      ∧ (∀ block ∈ failureBlocksList (mediaSingle goParam defaultRetVal f.Name),
          IsFieldFailure defaultRetVal f.Name block)
      ∧ (∀ (ρ : MediaScope) (fr : MediaFrame) (e : String),
          receiver ρ fr goParam ≠ GoVal.nil →
          ρ.InputMediaParams (receiver ρ fr goParam) f.Name = .error e →
          execMediaList ρ (mediaSingle goParam defaultRetVal f.Name) fr
            = .returned defaultRetVal ("failed to marshal field " ++ f.Name ++ ": " ++ e))
      ∧ (∀ (ρ : MediaScope) (fr : MediaFrame) (dv msg : String),
          execMediaList ρ (mediaSingle goParam defaultRetVal f.Name) fr = .returned dv msg →
          dv = defaultRetVal ∧ ∃ e, ρ.InputMediaParams (receiver ρ fr goParam) f.Name = .error e
            ∧ msg = "failed to marshal field " ++ f.Name ++ ": " ++ e)
      ∧ (∀ (ρ : MediaScope) (fr fr2 : MediaFrame),
          execMediaList ρ (mediaSingle goParam defaultRetVal f.Name) fr = .running fr2 →
          ∃ r, ρ.InputMediaParams (receiver ρ fr goParam) f.Name = .ok r)
      ∧ (∀ (ρ : MediaScope) (fr : MediaFrame),
          execMediaList ρ (mediaSingle goParam defaultRetVal f.Name) fr = .crashed →
          receiver ρ fr goParam = GoVal.nil))
    ∧ (t = "[]" ++ tgTypeInputMedia →
      generateValue D d methodName f goParam defaultRetVal
          = .ok (renderMedia 0 (mediaList goParam defaultRetVal f.Name), true)
      ∧ (∀ block ∈ failureBlocks (mediaList goParam defaultRetVal f.Name),
          IsFieldFailure defaultRetVal f.Name block)
      ∧ (∀ (ρ : MediaScope) (fr : MediaFrame),
          execMedia ρ (mediaList goParam defaultRetVal f.Name) fr
            = mediaListOutcome ρ goParam defaultRetVal f.Name fr)
      ∧ (∀ (ρ : MediaScope) (fr : MediaFrame) (dv msg : String),
          execMedia ρ (mediaList goParam defaultRetVal f.Name) fr = .returned dv msg →
          dv = defaultRetVal ∧
            ((∃ i x e, x ≠ GoVal.nil ∧ ρ.InputMediaParams x (f.Name ++ Itoa i) = .error e
                ∧ msg = "failed to marshal InputMedia list item " ++ Itoa i ++ " for field "
                    ++ f.Name ++ ": " ++ e)
             ∨ (∃ raw e, ρ.encRaw raw = .error e
                ∧ msg = "failed to marshal raw json list of InputMedia for field: "
                    ++ f.Name ++ " " ++ e)))
      ∧ (∀ (ρ : MediaScope) (fr fr2 : MediaFrame) (xs : List GoVal),
          ρ.elems goParam = some xs →
          execMedia ρ (mediaList goParam defaultRetVal f.Name) fr = .running fr2 →
          (∀ j x, xs.get? j = some x → ∃ r, ρ.InputMediaParams x (f.Name ++ Itoa j) = .ok r)
            ∧ fr2.err = none)
      ∧ (∀ (ρ : MediaScope) (fr : MediaFrame) (xs : List GoVal),
          ρ.elems goParam = some xs →
          execMedia ρ (mediaList goParam defaultRetVal f.Name) fr = .crashed →
          GoVal.nil ∈ xs))
    ∧ (t ≠ tgTypeInputMedia → t ≠ "[]" ++ tgTypeInputMedia →
      generateValue D d methodName f goParam defaultRetVal
          = .ok (if (isArray t || t == tgTypeReplyMarkup) = true
                 then render 0 (marshalGuarded goParam defaultRetVal f.Name)
                 else renderList 1 (marshalBody goParam defaultRetVal f.Name), false)
      ∧ (∀ block ∈ errBlocksList (marshalBody goParam defaultRetVal f.Name),
          IsFieldFailureStmt defaultRetVal f.Name block)
      ∧ (∀ block ∈ errBlocks (marshalGuarded goParam defaultRetVal f.Name),
          IsFieldFailureStmt defaultRetVal f.Name block)
      ∧ (∀ (ρ : Scope) (fr : Frame) (e : String),
          jsonMarshal ρ (evalExpr ρ goParam) = .error e →
          execList ρ (marshalBody goParam defaultRetVal f.Name) fr
              = .returned defaultRetVal ("failed to marshal field " ++ f.Name ++ ": " ++ e)
          ∧ exec ρ (marshalGuarded goParam defaultRetVal f.Name) fr
              = .returned defaultRetVal ("failed to marshal field " ++ f.Name ++ ": " ++ e))
      ∧ (∀ (ρ : Scope) (fr : Frame) (dv msg : String),
          (execList ρ (marshalBody goParam defaultRetVal f.Name) fr = .returned dv msg
            ∨ exec ρ (marshalGuarded goParam defaultRetVal f.Name) fr = .returned dv msg) →
          dv = defaultRetVal ∧ ∃ e, jsonMarshal ρ (evalExpr ρ goParam) = .error e
            ∧ msg = "failed to marshal field " ++ f.Name ++ ": " ++ e)) := by
  refine ⟨?_, ?_, ?_⟩
  · intro ht
    have hc := fun (ρ : MediaScope) (fr : MediaFrame) =>
      mediaSingleOutcome_cases ρ goParam defaultRetVal f.Name fr
    refine ⟨generateValue_mediaSingle D d methodName f goParam defaultRetVal t hpt hs ht,
      failureBlocks_mediaSingle _ _ _, ?_, ?_, ?_, ?_⟩
    · intro ρ fr e hn he
      rw [exec_mediaSingle, mediaSingleOutcome, if_neg hn, he]
    · intro ρ fr dv msg h
      rw [exec_mediaSingle] at h
      exact (hc ρ fr).1 dv msg h
    · intro ρ fr fr2 h
      rw [exec_mediaSingle] at h
      exact (hc ρ fr).2.1 fr2 h
    · intro ρ fr h
      rw [exec_mediaSingle] at h
      exact (hc ρ fr).2.2 h
  · intro ht
    have hc := fun (ρ : MediaScope) (fr : MediaFrame) =>
      mediaListOutcome_cases ρ goParam defaultRetVal f.Name fr
    refine ⟨generateValue_mediaList D d methodName f goParam defaultRetVal t hpt hs ht,
      failureBlocks_mediaList _ _ _, fun ρ fr => exec_mediaList _ _ _ ρ fr, ?_, ?_, ?_⟩
    · intro ρ fr dv msg h
      rw [exec_mediaList] at h
      exact (hc ρ fr).1 dv msg h
    · intro ρ fr fr2 xs hx h
      rw [exec_mediaList] at h
      exact (hc ρ fr).2.1 fr2 xs hx h
    · intro ρ fr xs hx h
      rw [exec_mediaList] at h
      exact (hc ρ fr).2.2 xs hx h
  · intro h2 h3
    have hb := errBlocks_marshal goParam defaultRetVal f.Name
    have hret : ∀ (ρ : Scope) (fr : Frame) (dv msg : String),
        execList ρ (marshalBody goParam defaultRetVal f.Name) fr = .returned dv msg →
        dv = defaultRetVal ∧ ∃ e, jsonMarshal ρ (evalExpr ρ goParam) = .error e
          ∧ msg = "failed to marshal field " ++ f.Name ++ ": " ++ e := by
      intro ρ fr dv msg h
      rw [exec_marshalBody] at h
      cases hm : jsonMarshal ρ (evalExpr ρ goParam) with
      | ok s => simp [hm] at h
      | error e =>
        simp only [hm, Flow.returned.injEq] at h
        exact ⟨h.1.symm, e, rfl, h.2.symm⟩
    refine ⟨generateValue_generic D d methodName f goParam defaultRetVal t hpt hs hf h2 h3,
      hb.1, hb.2, ?_, ?_⟩
    · intro ρ fr e he
      have hbody : execList ρ (marshalBody goParam defaultRetVal f.Name) fr
          = .returned defaultRetVal ("failed to marshal field " ++ f.Name ++ ": " ++ e) := by
        rw [exec_marshalBody, he]
      refine ⟨hbody, ?_⟩
      have hne : evalExpr ρ goParam ≠ GoVal.nil := by
        intro hnil
        rw [hnil] at he
        simp [jsonMarshal] at he
      rw [exec_marshalGuarded_set _ _ _ ρ fr hne, hbody]
    · intro ρ fr dv msg h
      rcases h with h | h
      · exact hret ρ fr dv msg h
      · by_cases hnil : evalExpr ρ goParam = GoVal.nil
        · rw [exec_marshalGuarded_nil _ _ _ ρ fr hnil] at h
          simp at h
        · rw [exec_marshalGuarded_set _ _ _ ρ fr hnil] at h
          exact hret ρ fr dv msg h

/-- C21, at a concrete input: the album `media` of `sendMediaGroup`, run with a second
element that cannot be serialised, ends with the default value `nil` and an error that names
the element and the field; the single `media` of `editMessageMedia`, run with a value that
cannot be serialised, ends with `nil` and an error that names the field. -/
theorem C21_failure_paths_return_defaults_witness :
    generateValue sampleDeps sampleAPI "sendMediaGroup" mediaField "media" "nil"
        = .ok ("\nif media != nil \x7b\n\tvar rawList []json.RawMessage\n\tfor idx, im := range media \x7b\n\t\tinputMediaBs, err := im.InputMediaParams(\"media\" + strconv.Itoa(idx), data)\n\t\tif err != nil \x7b\n\t\t\treturn nil, fmt.Errorf(\"failed to marshal InputMedia list item %d for field media: %w\", idx, err)\n\t\t\x7d\n\t\trawList = append(rawList, inputMediaBs)\n\t\x7d\n\tbs, err := json.Marshal(rawList)\n\tif err != nil \x7b\n\t\treturn nil, fmt.Errorf(\"failed to marshal raw json list of InputMedia for field: media %w\", err)\n\t\x7d\n\tv[\"media\"] = string(bs)\n\x7d", true)
    ∧ execMedia brokenScope (mediaList "media" "nil" "media") emptyMediaFrame
        = .returned "nil"
            "failed to marshal InputMedia list item 1 for field media: unsupported media"
    ∧ execMediaList brokenScope (mediaSingle "media" "nil" "media") emptyMediaFrame
        = .returned "nil" "failed to marshal field media: unsupported media" := by
  have h1 := (C21_failure_paths_return_defaults sampleDeps sampleAPI "sendMediaGroup"
    mediaField "media" "nil" "[]InputMedia" rfl (by decide) (by decide)).2.1 (by decide)
  have h2 := (C21_failure_paths_return_defaults sampleDeps sampleAPI "editMessageMedia"
    singleMediaField "media" "nil" "InputMedia" rfl (by decide) (by decide)).1 (by decide)
  refine ⟨?_, ?_, ?_⟩
  · rw [h1.1]
    set_option maxRecDepth 100000 in rfl
  · have hn : mediaField.Name = "media" := rfl
    have h3 := h1.2.2.1 brokenScope emptyMediaFrame
    rw [hn] at h3
    rw [h3]
    rfl
  · have hn : singleMediaField.Name = "media" := rfl
    have h4 := h2.2.2.1 brokenScope emptyMediaFrame "unsupported media" (by decide) rfl
    rw [hn] at h4
    exact h4

/-! ## Part names of a media sequence -/

theorem mediaListOutcome_results (ρ : MediaScope) (goParam dflt key : String)
    (fr fr2 : MediaFrame) (xs : List GoVal) (hx : ρ.elems goParam = some xs)
    (h : mediaListOutcome ρ goParam dflt key fr = .running fr2) :
    ∃ results : List (String × List (String × String)),
      results.length = xs.length
      ∧ (∀ i x, xs.get? i = some x →
          ∃ r, results.get? i = some r ∧ ρ.InputMediaParams x (key ++ Itoa i) = .ok r)
      ∧ fr2.data = ((results.map Prod.snd).flatten).reverse ++ fr.data := by
  unfold mediaListOutcome at h
  rw [hx] at h
  simp only [] at h
  cases hc : collectMedia ρ dflt key xs 0 { fr with rawList := [] } with
  | running fr1 =>
    obtain ⟨results, hlen, hall, hdata, _, _⟩ := collectMedia_running ρ dflt key xs 0 _ fr1 hc
    rw [hc] at h
    simp only [] at h
    cases hm : marshalRawList ρ fr1.rawList with
    | ok s =>
      rw [hm] at h
      simp only [MediaFlow.running.injEq] at h
      subst h
      refine ⟨results, hlen, ?_, hdata⟩
      intro i x hi
      obtain ⟨_, r, hr, hp⟩ := hall i x hi
      exact ⟨r, hr, by simpa using hp⟩
    | error e =>
      rw [hm] at h
      simp at h
  | returned d0 e0 =>
    rw [hc] at h
    simp at h
  | crashed =>
    rw [hc] at h
    simp at h

theorem results_keys_disjoint (ρ : MediaScope) (key : String) (xs : List GoVal)
    (results : List (String × List (String × String)))
    (hlen : results.length = xs.length)
    (hall : ∀ i x, xs.get? i = some x →
      ∃ r, results.get? i = some r ∧ ρ.InputMediaParams x (key ++ Itoa i) = .ok r)
    (hwb : ∀ x name r, ρ.InputMediaParams x name = .ok r → ∀ p ∈ r.2, p.1 = name)
    (i j : Nat) (ri rj : String × List (String × String)) (hij : i ≠ j)
    (hi : results.get? i = some ri) (hj : results.get? j = some rj) :
    ∀ p ∈ ri.2, ∀ q ∈ rj.2, p.1 ≠ q.1 := by
  have key_of : ∀ k rk, results.get? k = some rk → ∀ p ∈ rk.2, p.1 = key ++ Itoa k := by
    intro k rk hk p hp
    have hklt : k < xs.length := by
      rw [← hlen]
      exact (List.get?_eq_some.mp hk).1
    obtain ⟨r, hr, hpr⟩ := hall k (xs.get ⟨k, hklt⟩) (List.get?_eq_get hklt)
    rw [hk] at hr
    simp only [Option.some.injEq] at hr
    subst hr
    exact hwb _ _ _ hpr p hp
  intro p hp q hq hpq
  rw [key_of i ri hi p hp, key_of j rj hj q hq] at hpq
  exact hij (partName_injective key i j hpq)

/-- C22: for a field whose preferred type is `[]InputMedia`, `generateValue` emits the
printed form of the sequence-of-media tree, whose execution is the specified one
(`mediaListOutcome`): the element at index `i` is asked to register its binary parts under
the wire name followed by the decimal rendering of `i`. After a run that keeps going, the
parts collection holds the parts the elements registered, the element at index `i` having
been called with that name. For a fixed wire name the names of two different indices differ
(the names of the indices below any length are pairwise distinct), so when every element
registers its parts under the name it is given, parts of different elements never share a
name. -/
theorem C22_media_sequence_part_names (D : Deps) (d : APIDescription) (methodName : String)
    (f : Field) (goParam defaultRetVal t : String)
    (hpt : D.getPreferredType f = .ok t) (hs : D.goTypeStringer t = "")
    (ht : t = "[]" ++ tgTypeInputMedia) :
    generateValue D d methodName f goParam defaultRetVal
        = .ok (renderMedia 0 (mediaList goParam defaultRetVal f.Name), true)
    ∧ (∀ (ρ : MediaScope) (fr : MediaFrame),
        execMedia ρ (mediaList goParam defaultRetVal f.Name) fr
          = mediaListOutcome ρ goParam defaultRetVal f.Name fr)
    ∧ (∀ (ρ : MediaScope) (fr fr2 : MediaFrame) (xs : List GoVal),
        ρ.elems goParam = some xs →
        execMedia ρ (mediaList goParam defaultRetVal f.Name) fr = .running fr2 →
        ∃ results : List (String × List (String × String)),
          results.length = xs.length
          ∧ (∀ i x, xs.get? i = some x →
              ∃ r, results.get? i = some r
                ∧ ρ.InputMediaParams x (f.Name ++ Itoa i) = .ok r)
          ∧ fr2.data = ((results.map Prod.snd).flatten).reverse ++ fr.data
          ∧ ((∀ x name r, ρ.InputMediaParams x name = .ok r → ∀ p ∈ r.2, p.1 = name) →
              ∀ i j ri rj, i ≠ j → results.get? i = some ri → results.get? j = some rj →
                ∀ p ∈ ri.2, ∀ q ∈ rj.2, p.1 ≠ q.1))
    ∧ (∀ i j : Nat, f.Name ++ Itoa i = f.Name ++ Itoa j → i = j)
    ∧ (∀ n : Nat, (partNames f.Name n).Nodup
        ∧ partNames f.Name n = (List.range n).map (fun i => f.Name ++ Itoa i)) := by
  refine ⟨generateValue_mediaList D d methodName f goParam defaultRetVal t hpt hs ht,
    fun ρ fr => exec_mediaList _ _ _ ρ fr, ?_, fun i j h => partName_injective _ i j h,
    fun n => ⟨partNames_nodup _ n, rfl⟩⟩
  intro ρ fr fr2 xs hx h
  rw [exec_mediaList] at h
  obtain ⟨results, hlen, hall, hdata⟩ :=
    mediaListOutcome_results ρ goParam defaultRetVal f.Name fr fr2 xs hx h
  refine ⟨results, hlen, hall, hdata, ?_⟩
  intro hwb i j ri rj hij hi hj
  exact results_keys_disjoint ρ f.Name xs results hlen hall hwb i j ri rj hij hi hj

/-- C22, at a concrete input: the album `media` of `sendMediaGroup`, run with two uploads,
registers the first under `media0` and the second under `media1`, and writes the JSON array
of the two fragments under `media`. -/
theorem C22_media_sequence_part_names_witness :
    execMedia albumScope (mediaList "media" "nil" "media") emptyMediaFrame
        = .running
            { v := [("media", "[\x7b\"type\":\"photo\",\"media\":\"attach://media0\"\x7d,\x7b\"type\":\"video\",\"media\":\"attach://media1\"\x7d]")],
              data := [("media1", "video bytes"), ("media0", "photo bytes")],
              rawList := ["\x7b\"type\":\"photo\",\"media\":\"attach://media0\"\x7d",
                          "\x7b\"type\":\"video\",\"media\":\"attach://media1\"\x7d"],
              inputMediaBs := "\x7b\"type\":\"video\",\"media\":\"attach://media1\"\x7d",
              bs := "[\x7b\"type\":\"photo\",\"media\":\"attach://media0\"\x7d,\x7b\"type\":\"video\",\"media\":\"attach://media1\"\x7d]",
              err := none, loop := none }
    ∧ partNames "media" 3 = ["media0", "media1", "media2"]
    ∧ (partNames "media" 3).Nodup := by
  have h := C22_media_sequence_part_names sampleDeps sampleAPI "sendMediaGroup" mediaField
    "media" "nil" "[]InputMedia" rfl (by decide) (by decide)
  have hn : mediaField.Name = "media" := rfl
  refine ⟨?_, by decide, ?_⟩
  · have h2 := h.2.1 albumScope emptyMediaFrame
    rw [hn] at h2
    rw [h2]
    rfl
  · have h3 := (h.2.2.2.2 3).1
    rw [hn] at h3
    exact h3

/-! ## Reads of the options aggregate -/

theorem instantiate_append (D : Deps) (goParam : String) (xs ys : List Piece) :
    instantiate D goParam (xs ++ ys) = instantiate D goParam xs ++ instantiate D goParam ys := by
  induction xs with
  | nil => simp [instantiate]
  | cons p rest ih => cases p <;> simp [instantiate, ih, String.append_assoc]

theorem fieldCode_template (D : Deps) (d : APIDescription) (methodName : String) (f : Field)
    (goParam defaultRetVal t : String) (hpt : D.getPreferredType f = .ok t) :
    fieldCode D d methodName defaultRetVal goParam f
      = instantiate D goParam (encodingTemplate D d methodName f t defaultRetVal) := by
  unfold fieldCode generateValue encodingTemplate
  simp only [hpt]
  split_ifs <;>
    simp only [instantiate, instantiate_append, urlParamPieces, addURLParam, inputFileBranch,
      inputMediaParamsBranch, inputMediaArrayParamsBranch, String.append_assoc,
      String.append_empty, String.empty_append, List.cons_append, List.nil_append,
      List.append_nil, if_true, if_false]

theorem literals_append (xs ys : List Piece) :
    literals (xs ++ ys) = literals xs ++ literals ys := by
  induction xs with
  | nil => simp [literals]
  | cons p rest ih => cases p <;> simp [literals, ih]

theorem mentionsOpts_eq (D : Deps) (d : APIDescription) (methodName : String) (f : Field)
    (defaultRetVal t : String) (hpt : D.getPreferredType f = .ok t) :
    mentionsOpts (encodingTemplate D d methodName f t defaultRetVal)
      = takesQuizBranch D methodName f := by
  unfold mentionsOpts encodingTemplate takesQuizBranch
  simp only [hpt]
  split_ifs with h1 h2 h3 h4 h5 h6 h7 h8 h9 <;>
    simp only [literals, literals_append, urlParamPieces, List.cons_append, List.nil_append,
      List.append_nil]
  all_goals
    first
    | (rw [decide_eq_true (by tauto)]
       set_option maxRecDepth 100000 in decide)
    | (rw [decide_eq_false (by tauto)]
       set_option maxRecDepth 100000 in decide)

theorem templateReads_none (tpl : List Piece) (h : mentionsOpts tpl = false) :
    templateReads none tpl = [] := by
  induction tpl with
  | nil => rfl
  | cons p rest ih =>
    cases p with
    | lit s =>
      simp only [mentionsOpts, literals, List.any_cons, Bool.or_eq_false_iff] at h
      simp [templateReads, pieceReads, h.1, ih (by simpa [mentionsOpts] using h.2)]
    | param => simpa [templateReads, pieceReads] using ih (by simpa [mentionsOpts, literals] using h)
    | conv s => simpa [templateReads, pieceReads] using ih (by simpa [mentionsOpts, literals] using h)
    | data s => simpa [templateReads, pieceReads] using ih (by simpa [mentionsOpts, literals] using h)

theorem templateReads_append (member : Option String) (xs ys : List Piece) :
    templateReads member (xs ++ ys) = templateReads member xs ++ templateReads member ys := by
  induction xs with
  | nil => rfl
  | cons p rest ih => simp [templateReads, ih]

theorem templateReads_member (e : String) (tpl : List Piece) (h : addresses tpl = true) :
    OptsRead.member e ∈ templateReads (some e) tpl := by
  induction tpl with
  | nil => simp [addresses] at h
  | cons p rest ih =>
    rw [templateReads, List.mem_append]
    cases p with
    | lit s => right; exact ih (by simpa [addresses] using h)
    | param => left; simp [pieceReads]
    | conv s => left; simp [pieceReads]
    | data s => right; exact ih (by simpa [addresses] using h)

theorem encodingTemplate_addresses (D : Deps) (d : APIDescription) (methodName : String)
    (f : Field) (t defaultRetVal : String) :
    addresses (encodingTemplate D d methodName f t defaultRetVal) = true := by
  unfold encodingTemplate
  dsimp only
  split_ifs <;>
    simp only [addresses, urlParamPieces, List.cons_append, List.nil_append, List.append_nil]

theorem renderBodyList_append (xs ys : List BodyStmt) :
    renderBodyList (xs ++ ys) = renderBodyList xs ++ renderBodyList ys := by
  induction xs with
  | nil => simp [renderBodyList]
  | cons s rest ih => simp [renderBodyList, ih, String.append_assoc]

theorem readsWhenList_append (b : Bool) (xs ys : List BodyStmt) :
    readsWhenList b (xs ++ ys) = readsWhenList b xs ++ readsWhenList b ys := by
  induction xs with
  | nil => simp [readsWhenList]
  | cons s rest ih => simp [readsWhenList, ih]

theorem prefType_ok (D : Deps) (f : Field) (t : String) (h : D.getPreferredType f = .ok t) :
    prefType D f = t := by
  simp [prefType, h]

theorem renderBodyList_fields (D : Deps) (d : APIDescription) (methodName defaultRetVal : String)
    (viaOpts : Bool) (fs : List Field) (h : ∀ g ∈ fs, ∃ t, D.getPreferredType g = .ok t) :
    renderBodyList (fs.map (fieldStmt D d methodName defaultRetVal viaOpts))
      = joinAll (fs.map (fun f =>
          fieldCode D d methodName defaultRetVal (paramExpr D viaOpts f) f)) := by
  induction fs with
  | nil => rfl
  | cons f rest ih =>
    obtain ⟨t, ht⟩ := h f (List.mem_cons_self _ _)
    have hrest : ∀ g ∈ rest, ∃ t, D.getPreferredType g = .ok t :=
      fun g hg => h g (List.mem_cons_of_mem _ hg)
    simp only [List.map_cons, renderBodyList, joinAll, ih hrest]
    rw [fieldCode_template D d methodName f _ defaultRetVal t ht]
    simp only [fieldStmt, renderBody, prefType_ok D f t ht]

theorem readsWhenList_fields (D : Deps) (d : APIDescription) (methodName defaultRetVal : String)
    (viaOpts b : Bool) (fs : List Field) :
    readsWhenList b (fs.map (fieldStmt D d methodName defaultRetVal viaOpts))
      = fs.flatMap (fun f =>
          templateReads (if viaOpts then some (paramExpr D viaOpts f) else none)
            (encodingTemplate D d methodName f (prefType D f) defaultRetVal)) := by
  induction fs with
  | nil => rfl
  | cons f rest ih =>
    simp only [List.map_cons, readsWhenList, ih, List.flatMap_cons]
    simp only [fieldStmt, readsWhen]

theorem takesQuizBranch_optional (D : Deps) (methodName : String) (f : Field)
    (h : takesQuizBranch D methodName f = true) : f.Required = false := by
  unfold takesQuizBranch at h
  cases hp : D.getPreferredType f with
  | error e => simp [hp] at h
  | ok t =>
    simp only [hp, decide_eq_true_eq] at h
    exact h.2.1

theorem required_reads_nothing (D : Deps) (d : APIDescription) (methodName defaultRetVal : String)
    (f : Field) (t : String) (ht : D.getPreferredType f = .ok t) (hr : f.Required = true) :
    templateReads none (encodingTemplate D d methodName f (prefType D f) defaultRetVal) = [] := by
  apply templateReads_none
  rw [prefType_ok D f t ht, mentionsOpts_eq D d methodName f defaultRetVal t ht]
  by_contra hq
  have := takesQuizBranch_optional D methodName f (by simpa using hq)
  rw [hr] at this
  exact absurd this (by decide)

theorem render_bodyOf (D : Deps) (d : APIDescription) (m : MethodDescription)
    (defaultRetVal : String) (h : ∀ g ∈ m.Fields, ∃ t, D.getPreferredType g = .ok t) :
    renderBodyList (bodyOf D d m defaultRetVal)
      = (if m.Fields.any (mediaRouted D) then dataDecl else "")
        ++ (requiredCode D d m m.Name defaultRetVal
          ++ (if optionalFields m = [] then ""
              else "\nif opts != nil \x7b" ++ optionalCode D d m m.Name defaultRetVal
                ++ "\n\x7d"))
        ++ reqOptsBlock := by
  have hreq : ∀ g ∈ requiredFields m, ∃ t, D.getPreferredType g = .ok t :=
    fun g hg => h g (List.mem_of_mem_filter hg)
  have hopt : ∀ g ∈ optionalFields m, ∃ t, D.getPreferredType g = .ok t :=
    fun g hg => h g (List.mem_of_mem_filter hg)
  unfold bodyOf
  simp only [renderBodyList_append, renderBodyList_fields D d m.Name defaultRetVal false _ hreq]
  have h1 : renderBodyList (if m.Fields.any (mediaRouted D) then [BodyStmt.code dataDecl []]
      else []) = (if m.Fields.any (mediaRouted D) then dataDecl else "") := by
    split_ifs <;> simp [renderBodyList, renderBody]
  have h2 : renderBodyList (if optionalFields m = [] then []
      else [BodyStmt.ifOptsSet
        ((optionalFields m).map (fieldStmt D d m.Name defaultRetVal true))])
      = (if optionalFields m = [] then ""
          else "\nif opts != nil \x7b" ++ optionalCode D d m m.Name defaultRetVal ++ "\n\x7d") := by
    split_ifs
    · rfl
    · simp only [renderBodyList, renderBody,
        renderBodyList_fields D d m.Name defaultRetVal true _ hopt, optionalCode, paramExpr,
        if_true, String.append_empty]
  rw [h1, h2]
  simp only [requiredCode, paramExpr, renderBodyList, renderBody, reqOptsBlock,
    String.append_assoc, String.append_empty, Bool.false_eq_true, if_false]

theorem reads_bodyOf (D : Deps) (d : APIDescription) (m : MethodDescription)
    (defaultRetVal : String) (h : ∀ g ∈ m.Fields, ∃ t, D.getPreferredType g = .ok t) :
    readsWhenList false (bodyOf D d m defaultRetVal) = []
    ∧ readsWhenList true (bodyOf D d m defaultRetVal)
        = (optionalFields m).flatMap (fun f =>
            templateReads (some ("opts." ++ D.snakeToTitle f.Name))
              (encodingTemplate D d m.Name f (prefType D f) defaultRetVal))
          ++ [OptsRead.requestOpts] := by
  have hreq : ∀ b, readsWhenList b
      ((requiredFields m).map (fieldStmt D d m.Name defaultRetVal false)) = [] := by
    intro b
    rw [readsWhenList_fields]
    simp only [Bool.false_eq_true, if_false, List.flatMap_eq_nil_iff]
    intro f hf
    obtain ⟨t, ht⟩ := h f (List.mem_of_mem_filter hf)
    have hr : f.Required = true := by
      simpa [requiredFields] using (List.mem_filter.mp hf).2
    exact required_reads_nothing D d m.Name defaultRetVal f t ht hr
  have hdata : ∀ b, readsWhenList b
      (if m.Fields.any (mediaRouted D) then [BodyStmt.code dataDecl []] else []) = [] := by
    intro b
    split_ifs <;> simp [readsWhenList, readsWhen]
  unfold bodyOf
  refine ⟨?_, ?_⟩
  · simp only [readsWhenList_append, hreq, hdata, List.nil_append]
    split_ifs <;> simp [readsWhenList, readsWhen]
  · simp only [readsWhenList_append, hreq, hdata, List.nil_append]
    by_cases ho : optionalFields m = []
    · simp [ho, readsWhenList, readsWhen]
    · simp only [ho, if_false, readsWhenList, readsWhen, if_true, readsWhenList_fields,
        paramExpr, List.append_nil, List.nil_append]

theorem getArgsLoop_typed (D : Deps) (m : MethodDescription) (fs : List Field)
    (st st2 : GetArgsState) (h : getArgsLoop D m fs st = .ok st2) :
    ∀ g ∈ fs, ∃ t, D.getPreferredType g = .ok t := by
  induction fs generalizing st with
  | nil => simp
  | cons f rest ih =>
    intro g hg
    rw [getArgsLoop] at h
    cases hp : D.getPreferredType f with
    | error e => simp [hp] at h
    | ok t =>
      simp only [hp] at h
      rcases List.mem_cons.mp hg with rfl | hg2
      · exact ⟨t, hp⟩
      · split_ifs at h <;> exact ih _ h g hg2

theorem generateMethodSignature_typed (D : Deps) (d : APIDescription) (m : MethodDescription)
    (sig : String × List String × String) (h : generateMethodSignature D d m = .ok sig) :
    ∀ g ∈ m.Fields, ∃ t, D.getPreferredType g = .ok t := by
  unfold generateMethodSignature at h
  cases hr : D.GetReturnTypes m d with
  | error e => simp [hr] at h
  | ok retTypes =>
    simp only [hr] at h
    cases ha : getArgs D m with
    | error e => simp [ha] at h
    | ok res =>
      unfold getArgs at ha
      cases hl : getArgsLoop D m m.Fields { requiredArgs := [], optionals := "" } with
      | error e => simp [hl] at ha
      | ok st2 => exact getArgsLoop_typed D m m.Fields _ st2 hl

/-- C23: the text of a method that `generateMethodDef` compiles is its heading, the
declaration of `v`, the printed form of the body `bodyOf`, the call of the transport and
the decoding. In that body the encodings of the required fields, each addressed by its
positional parameter, stand outside any test, and the encodings of the optional fields, each
addressed as `opts.<Member>`, stand inside one block `if opts != nil { ... }`; the read of
`opts.RequestOpts` stands inside a second such block. The text `generateValue` emits for a
field is its template filled in with the addressing expression, and the text the generator
writes itself mentions `opts` exactly in the `sendPoll` branch (`opts.Type`), which is taken
only for fields that are not required. Hence, run with a nil `opts`, the body performs no
read of a member of `opts`; run with `opts` set, it reads the member of each optional field
and `opts.RequestOpts`. -/
theorem C23_options_reads_guarded (D : Deps) (d : APIDescription) (m : MethodDescription)
    (out : String) (hout : generateMethodDef D d m = .ok out) :
    ∃ methodSignature retTypes optionalsStruct desc returnGen,
      generateMethodSignature D d m = .ok (methodSignature, retTypes, optionalsStruct)
      ∧ description D m = .ok desc
      ∧ returnValues D d retTypes = .ok returnGen
      ∧ out = (if optionalsStruct ≠ "" then "\n" ++ optionalsStruct else "") ++ desc
          ++ "\nfunc (bot *Bot) " ++ methodSignature ++ " \x7b"
          ++ "\n\tv := map[string]string\x7b\x7d"
          ++ renderBodyList (bodyOf D d m (", ".intercalate (D.getDefaultReturnVals d retTypes)))
          ++ requestCall m.Name (m.Fields.any (mediaRouted D))
          ++ "\n\tif err != nil \x7b"
          ++ "\n\t\treturn " ++ ", ".intercalate (D.getDefaultReturnVals d retTypes) ++ ", err"
          ++ "\n\t\x7d" ++ "\n" ++ returnGen ++ "\n\x7d"
      ∧ readsWhenList false
          (bodyOf D d m (", ".intercalate (D.getDefaultReturnVals d retTypes))) = []
      ∧ readsWhenList true
          (bodyOf D d m (", ".intercalate (D.getDefaultReturnVals d retTypes)))
          = (optionalFields m).flatMap (fun f =>
              templateReads (some ("opts." ++ D.snakeToTitle f.Name))
                (encodingTemplate D d m.Name f (prefType D f)
                  (", ".intercalate (D.getDefaultReturnVals d retTypes))))
            ++ [OptsRead.requestOpts]
      ∧ (∀ f ∈ optionalFields m, ∀ defaultRetVal : String,
          OptsRead.member ("opts." ++ D.snakeToTitle f.Name)
            ∈ templateReads (some ("opts." ++ D.snakeToTitle f.Name))
                (encodingTemplate D d m.Name f (prefType D f) defaultRetVal))
      ∧ (∀ f ∈ m.Fields, ∀ goParam defaultRetVal : String,
          generateValue D d m.Name f goParam defaultRetVal
            = .ok (instantiate D goParam
                (encodingTemplate D d m.Name f (prefType D f) defaultRetVal), mediaRouted D f)
          ∧ mentionsOpts (encodingTemplate D d m.Name f (prefType D f) defaultRetVal)
              = takesQuizBranch D m.Name f)
      ∧ (∀ f ∈ m.Fields, takesQuizBranch D m.Name f = true → f.Required = false)
      ∧ (∀ f ∈ requiredFields m, ∀ (b : Bool) (defaultRetVal : String),
          readsWhen b (fieldStmt D d m.Name defaultRetVal false f) = []) := by
  unfold generateMethodDef at hout
  cases hsig : generateMethodSignature D d m with
  | error e => simp [hsig] at hout
  | ok sig =>
    have h := generateMethodSignature_typed D d m sig hsig
    obtain ⟨methodSignature, retTypes, optionalsStruct⟩ := sig
    simp only [hsig] at hout
    cases hdesc : description D m with
    | error e => simp [hdesc] at hout
    | ok desc =>
      simp only [hdesc] at hout
      rw [argsToValues_eq D m d m.Name _ h] at hout
      simp only [] at hout
      cases hret : returnValues D d retTypes with
      | error e => simp [hret] at hout
      | ok returnGen =>
        simp only [hret, Except.ok.injEq] at hout
        have hreads := reads_bodyOf D d m
          (", ".intercalate (D.getDefaultReturnVals d retTypes)) h
        refine ⟨methodSignature, retTypes, optionalsStruct, desc, returnGen, rfl, rfl, hret,
          ?_, hreads.1, hreads.2, ?_, ?_, ?_, ?_⟩
        · rw [← hout, render_bodyOf D d m _ h]
          simp only [reqOptsBlock, String.append_assoc]
        · intro f _ defaultRetVal
          exact templateReads_member _ _ (encodingTemplate_addresses D d m.Name f _ _)
        · intro f hf goParam defaultRetVal
          obtain ⟨t, ht⟩ := h f hf
          have hg := generateValue_ok D d m.Name f goParam defaultRetVal t ht
          rw [fieldCode_template D d m.Name f goParam defaultRetVal t ht] at hg
          rw [prefType_ok D f t ht]
          exact ⟨hg, mentionsOpts_eq D d m.Name f defaultRetVal t ht⟩
        · intro f _ hq
          exact takesQuizBranch_optional D m.Name f hq
        · intro f hf b defaultRetVal
          obtain ⟨t, ht⟩ := h f (List.mem_of_mem_filter hf)
          have hr : f.Required = true := by
            simpa [requiredFields] using (List.mem_filter.mp hf).2
          simp only [fieldStmt, readsWhen, Bool.false_eq_true, if_false]
          exact required_reads_nothing D d m.Name defaultRetVal f t ht hr

/-- C23, at a concrete input: `sendPoll` with the required `chat_id` and the optional
`correct_option_id` and `disable_notification` compiles; in its body the test of `opts.Type`,
the two members and `opts.RequestOpts` are read when `opts` is set, and nothing is read from
`opts` when it is nil. -/
theorem C23_options_reads_guarded_witness :
    (∃ out, generateMethodDef sampleDeps sampleAPI sendPoll = .ok out)
    ∧ renderBodyList (bodyOf sampleDeps sampleAPI sendPoll "nil")
        = "\nv[\"chat_id\"] = strconv.FormatInt(chatId, 10)\nif opts != nil \x7b\nif opts.Type == \"quiz\" \x7b\n\t// correct_option_id should always be set when the type is \"quiz\" - it doesnt need to be set for type \"regular\".\n\tv[\"correct_option_id\"] = strconv.FormatInt(opts.CorrectOptionId, 10)\n\x7d\nv[\"disable_notification\"] = strconv.FormatBool(opts.DisableNotification)\n\x7d\n\nvar reqOpts *RequestOpts\nif opts != nil \x7b\n\treqOpts = opts.RequestOpts\n\x7d\n"
    ∧ readsWhenList false (bodyOf sampleDeps sampleAPI sendPoll "nil") = []
    ∧ readsWhenList true (bodyOf sampleDeps sampleAPI sendPoll "nil")
        = [OptsRead.pollType, OptsRead.member "opts.CorrectOptionId",
           OptsRead.member "opts.DisableNotification", OptsRead.requestOpts] := by
  have hout : ∃ out, generateMethodDef sampleDeps sampleAPI sendPoll = .ok out := by
    set_option maxRecDepth 100000 in exact ⟨_, rfl⟩
  obtain ⟨out, ho⟩ := hout
  obtain ⟨sig, retTypes, os, desc, rg, hs, _, _, _, h0, h1, _⟩ :=
    C23_options_reads_guarded sampleDeps sampleAPI sendPoll out ho
  have hsig : generateMethodSignature sampleDeps sampleAPI sendPoll
      = .ok ("SendPoll(chatId int64, opts *SendPollOpts) (*Message, error)", ["*Message"],
          "\n// SendPollOpts is the set of optional fields for Bot.SendPoll.\ntype SendPollOpts struct \x7b\n// 0-based identifier of the correct answer option\nCorrectOptionId int64\n// Sends messages silently\nDisableNotification bool\n// RequestOpts are an additional optional field to configure timeouts for individual requests\nRequestOpts *RequestOpts\n\x7d") := by
    set_option maxRecDepth 100000 in rfl
  rw [hsig] at hs
  simp only [Except.ok.injEq, Prod.mk.injEq] at hs
  obtain ⟨_, hr, _⟩ := hs
  subst hr
  refine ⟨⟨out, ho⟩, ?_, h0, ?_⟩
  · set_option maxRecDepth 100000 in rfl
  · have h2 : readsWhenList true (bodyOf sampleDeps sampleAPI sendPoll "nil") = _ := h1
    rw [h2]
    set_option maxRecDepth 100000 in rfl

end Gotgbot
